import Mathlib

/-!
Tacho::Experimental::NumericTools

A shallow embedding of `TachoExp_NumericTools.hpp` (supernodal sparse Cholesky:
serial factorization and solve over the supernodal elimination tree) and the
properties proved about it.

Conventions of the embedding.

* `ordinal_type` (a signed C++ integer) is `Int`; signed overflow is undefined
  behaviour in C++ and is not modelled.  `size_type` (`size_t`) is `Nat`, and
  every conversion of a signed value to `size_type` goes through `size_t`,
  which reduces modulo `2^64`.
* A pointer is a byte address in `Nat`; `0` is `NULL`.
* Kokkos views are handles.  The entries of the numeric views (right-hand
  sides, factor buffer, scratch) live in a `Memory`, addressed by the data
  pointer of the view and a row and column index; integer index arrays of the
  symbolic phase are immutable and carry their entries with them.
* The collaborators whose code is not part of this file (panel kernels, the
  methods of `SupernodeInfo`, the Kokkos memory pool, `sizeof`) are the fields
  of an environment `Env`; every statement below quantifies over it.
* Recursion over the elimination tree takes a recursion budget (`fuel`); the
  outcome `exhausted` is the model running out of budget.
* The `double` counters of `stat` are rationals, with the rounding of an
  addition a parameter where a statement depends on it; `computeResidual` is
  taken over a field with a square root, and its statement is over the reals.
-/

set_option autoImplicit false

namespace Tacho

/-! ## Machine integers and views -/

/-- Conversion of a signed value to `size_type` (`size_t`, 64 bits). -/
def size_t (z : Int) : Nat := (z % 2 ^ 64).toNat

/-- Integer index array of the symbolic phase (`ordinal_type_array_host`). -/
structure OrdinalArray where
  dimension_0 : Int
  val : Int → Int

/-- Offset array (`size_type_array_host`); `data` is `0` when not allocated. -/
structure SizeArray where
  data : Nat
  dimension_0 : Int
  val : Int → Nat

/-- Handle of a rank-1 numeric view (`value_type_array_host`). -/
structure ValueArray where
  data : Nat
  dimension_0 : Int
  deriving DecidableEq

/-- Handle of a rank-2 numeric view (`value_type_matrix_host`). -/
structure MatrixView where
  data : Nat
  dimension_0 : Int
  dimension_1 : Int
  deriving DecidableEq

/-- Number of entries spanned by a contiguous rank-2 view, as a `size_type`. -/
def MatrixView.span (A : MatrixView) : Nat := size_t (A.dimension_0 * A.dimension_1)

/-- Number of entries spanned by an integer array, as a `size_type`. -/
def OrdinalArray.span (a : OrdinalArray) : Nat := size_t a.dimension_0

/-- Number of entries spanned by an offset array, as a `size_type`. -/
def SizeArray.span (a : SizeArray) : Nat := size_t a.dimension_0

/-- Number of entries spanned by a rank-1 numeric view, as a `size_type`. -/
def ValueArray.span (a : ValueArray) : Nat := size_t a.dimension_0

/-- Entries of the numeric views: data pointer, row, column (column `0` for a
rank-1 view). -/
abbrev Memory (V : Type) := Nat → Int → Int → V

/-- Sparse matrix in compressed-row form (`crs_matrix_type_host`). -/
structure CrsMatrix (V : Type) where
  NumRows : Int
  NumCols : Int
  NumNonZeros : Int
  ap : Int → Nat
  aj : Int → Int
  ax : Int → V

/-! ## Supernode info -/

/-- The fields of `SupernodeInfo` that `NumericTools` reads and writes. -/
structure SupernodeInfo where
  supernodes : OrdinalArray
  gid_super_panel_ptr : SizeArray
  gid_super_panel_colidx : OrdinalArray
  sid_super_panel_ptr : SizeArray
  sid_super_panel_colidx : OrdinalArray
  blk_super_panel_colidx : OrdinalArray
  stree_ptr : SizeArray
  stree_children : OrdinalArray
  super_panel_ptr : SizeArray
  super_panel_buf : ValueArray
  x : MatrixView
  max_schur_size : Int

/-! ## Outcomes and the record of calls -/

/-- The `std::logic_error` messages of this file, in source order:
"supernode data structure is not allocated" (the message of the dimension test
of `solveCholesky_Serial`), "x, b and t have the same data pointer",
"info super_panel_ptr/buf is not allocated (factorization is not performed)",
"A,x and b dimensions are not compatible". -/
inductive LogicError where
  | supernode_data_structure_not_allocated
  | same_data_pointer
  | super_panel_not_allocated
  | dimensions_not_compatible
  deriving DecidableEq

/-- How a call ends: it returns, it throws `std::logic_error`, the process is
aborted (`TACHO_TEST_FOR_ABORT`), or the model runs out of recursion budget.
The state carried is the state at that moment. -/
inductive Outcome (α : Type) where
  | returned (s : α)
  | raised (e : LogicError) (s : α)
  | aborted (s : α)
  | exhausted

/-- The panel kernels of `CholSupernodes<Algo::Workflow::Serial>`. -/
inductive Kernel where
  | factorize
  | update
  | solve_lower
  | update_solve_lower
  | update_solve_upper
  | solve_upper
  deriving DecidableEq

/-- One entry of the record of calls made on the buffer pool and the kernels. -/
inductive Event where
  | allocate (sid : Int) (bufsize : Nat) (buf : Nat)
  | deallocate (sid : Int) (buf : Nat) (bufsize : Nat)
  | abort (sid : Int)
  | factorize (sid : Int) (ABR : MatrixView)
  | update (sid : Int) (ABR : MatrixView) (bufsize : Nat) (buf : Nat)
  | solve_lower (sid : Int) (xB : MatrixView)
  | update_solve_lower (sid : Int) (xB : MatrixView)
  | update_solve_upper (sid : Int) (xB : MatrixView)
  | solve_upper (sid : Int) (xB : MatrixView)
  deriving DecidableEq

/-- The kernel and supernode of a kernel call; `none` for pool calls and abort. -/
def Event.call : Event → Option (Kernel × Int)
  | .factorize sid _ => some (Kernel.factorize, sid)
  | .update sid _ _ _ => some (Kernel.update, sid)
  | .solve_lower sid _ => some (Kernel.solve_lower, sid)
  | .update_solve_lower sid _ => some (Kernel.update_solve_lower, sid)
  | .update_solve_upper sid _ => some (Kernel.update_solve_upper, sid)
  | .solve_upper sid _ => some (Kernel.solve_upper, sid)
  | _ => none

/-- The kernel calls of a record, in order. -/
def kernelCalls (tr : List Event) : List (Kernel × Int) := tr.filterMap Event.call

/-! ## Collaborators -/

/-- The code `NumericTools` calls and this file does not contain: `sizeof`, the
methods of `SupernodeInfo`, the serial panel kernels, and `Kokkos::MemoryPool`
with state `σ`.  Kernels act on the numeric memory.  `allocateSuperPanels`
yields the info's `max_schur_size`, the two views it assigns to its reference
arguments, and the memory; the symbolic arrays of the info are immutable.
`pool_create` takes the constructor arguments after the memory space, in
order: `memory_capacity`, `min_block_size`, `max_block_size`,
`superblock_size`; `pool_allocate` yields the pointer (`0` for `NULL`) and
`pool_deallocate` takes the pointer and the size. -/
structure Env (V σ : Type) where
  value_size : Nat
  ordinal_size : Nat
  size_size : Nat
  getSuperPanelSize : SupernodeInfo → Int → Int × Int
  allocateSuperPanels :
    SupernodeInfo → Memory V → OrdinalArray → Int × SizeArray × ValueArray × Memory V
  copySparseToSuperPanels :
    SupernodeInfo → Memory V → SizeArray → OrdinalArray → ValueArray → OrdinalArray →
      OrdinalArray → OrdinalArray → Memory V
  createCrsMatrix : SupernodeInfo → Memory V → Bool → CrsMatrix V
  factorize : SupernodeInfo → Memory V → MatrixView → Int → Memory V
  update : SupernodeInfo → Memory V → MatrixView → Int → Nat → Nat → Memory V
  solve_lower : SupernodeInfo → Memory V → MatrixView → Int → Memory V
  update_solve_lower : SupernodeInfo → Memory V → MatrixView → Int → Memory V
  update_solve_upper : SupernodeInfo → Memory V → MatrixView → Int → Memory V
  solve_upper : SupernodeInfo → Memory V → MatrixView → Int → Memory V
  pool_create : Nat → Nat → Nat → Nat → σ
  pool_capacity : σ → Nat
  pool_allocate : σ → Nat → Nat × σ
  pool_deallocate : σ → Nat → Nat → σ

/-! ## The test macros -/

/-- Modelled from the spec: the macro `TACHO_TEST_FOR_EXCEPTION(cond,
std::logic_error, msg)`, whose definition is not in this file ("violated
preconditions are reported as logic errors, not silently tolerated"): the
error it throws when `cond` holds, `none` when the run goes on. -/
def TACHO_TEST_FOR_EXCEPTION (cond : Prop) [Decidable cond] (e : LogicError) :
    Option LogicError :=
  if cond then some e else none

/-- Modelled from the spec: the macro `TACHO_TEST_FOR_ABORT(cond, msg)`,
whose definition is not in this file ("callers must treat allocation failure
as fatal (abort with diagnostic)"): whether it aborts the process, which it
does when `cond` holds. -/
def TACHO_TEST_FOR_ABORT (cond : Prop) [Decidable cond] : Bool :=
  decide cond

/-! ## Tree traversals -/

/-- State threaded through a traversal: the buffer pool, the numeric memory and
the record of calls. -/
structure Run (V σ : Type) where
  pool : σ
  mem : Memory V
  trace : List Event

/-- Sequencing: run `f` on the state `o` returned; an exception, an abort or an
exhausted budget ends the run. -/
def Outcome.andThen {α : Type} (o : Outcome α) (f : α → Outcome α) : Outcome α :=
  match o with
  | Outcome.returned s => f s
  | Outcome.raised e s => Outcome.raised e s
  | Outcome.aborted s => Outcome.aborted s
  | Outcome.exhausted => Outcome.exhausted

/-- The loop `for (i = ibeg; i < iend; ++i) body(i)`, given its trip count
`(iend - ibeg).toNat` and `ibeg`; it stops at the first body that does not
return. -/
def forLoop {S : Type} (body : Int → S → Outcome S) : Nat → Int → S → Outcome S
  | 0, _, s => Outcome.returned s
  | k + 1, i, s => (body i s).andThen (forLoop body k (i + 1))

/-- The second block of `recursiveSerialChol`: allocate, factorize, update,
deallocate for supernode `sid`.  The `ordinal_type` expression
`n*n + max_schur_size` is taken over the integers (signed overflow is not
modelled); it is the value of the source where it fits `ordinal_type`. -/
def serialCholBody {V σ : Type} (E : Env V σ) (info : SupernodeInfo) (sid : Int)
    (s : Run V σ) : Outcome (Run V σ) :=
  let pmn := E.getSuperPanelSize info sid
  let n : Int := pmn.2 - pmn.1
  let bufsize : Nat := size_t ((n * n + info.max_schur_size) * E.value_size)
  let a := E.pool_allocate s.pool bufsize
  let buf : Nat := a.1
  let s1 : Run V σ := ⟨a.2, s.mem, s.trace ++ [Event.allocate sid bufsize buf]⟩
  if TACHO_TEST_FOR_ABORT (buf = 0) then
    Outcome.aborted ⟨s1.pool, s1.mem, s1.trace ++ [Event.abort sid]⟩
  else
    let ABR : MatrixView := ⟨buf, n, n⟩
    let s2 : Run V σ :=
      ⟨s1.pool, E.factorize info s1.mem ABR sid, s1.trace ++ [Event.factorize sid ABR]⟩
    let wsize : Nat := size_t ((bufsize : Int) - (ABR.span * E.value_size : Nat))
    let wbuf : Nat := buf + ABR.span * E.value_size
    let s3 : Run V σ :=
      ⟨s2.pool, E.update info s2.mem ABR sid wsize wbuf,
        s2.trace ++ [Event.update sid ABR wsize wbuf]⟩
    Outcome.returned
      ⟨E.pool_deallocate s3.pool buf bufsize, s3.mem,
        s3.trace ++ [Event.deallocate sid buf bufsize]⟩

/-- The recursion of `recursiveSerialChol`: children first, then the supernode. -/
def recursiveSerialChol {V σ : Type} (E : Env V σ) (info : SupernodeInfo) :
    Nat → Int → Run V σ → Outcome (Run V σ)
  | 0, _, _ => Outcome.exhausted
  | fuel + 1, sid, s =>
    let ibeg : Int := info.stree_ptr.val sid
    let iend : Int := info.stree_ptr.val (sid + 1)
    (forLoop (fun i s1 => recursiveSerialChol E info fuel (info.stree_children.val i) s1)
        (iend - ibeg).toNat ibeg s).andThen (serialCholBody E info sid)

/-- The second block of `recursiveSerialSolveLower`. -/
def serialSolveLowerBody {V σ : Type} (E : Env V σ) (info : SupernodeInfo) (sid : Int)
    (s : Run V σ) : Outcome (Run V σ) :=
  let pmn := E.getSuperPanelSize info sid
  let n : Int := pmn.2 - pmn.1
  let nrhs : Int := info.x.dimension_1
  let bufsize : Nat := size_t (max (n * nrhs) 1 * E.value_size)
  let a := E.pool_allocate s.pool bufsize
  let buf : Nat := a.1
  let s1 : Run V σ := ⟨a.2, s.mem, s.trace ++ [Event.allocate sid bufsize buf]⟩
  if TACHO_TEST_FOR_ABORT (buf = 0) then
    Outcome.aborted ⟨s1.pool, s1.mem, s1.trace ++ [Event.abort sid]⟩
  else
    let xB : MatrixView := ⟨buf, n, nrhs⟩
    let s2 : Run V σ :=
      ⟨s1.pool, E.solve_lower info s1.mem xB sid, s1.trace ++ [Event.solve_lower sid xB]⟩
    let s3 : Run V σ :=
      ⟨s2.pool, E.update_solve_lower info s2.mem xB sid,
        s2.trace ++ [Event.update_solve_lower sid xB]⟩
    Outcome.returned
      ⟨E.pool_deallocate s3.pool buf bufsize, s3.mem,
        s3.trace ++ [Event.deallocate sid buf bufsize]⟩

/-- The recursion of `recursiveSerialSolveLower`; the recursive calls leave
`final` at its default `false`. -/
def recursiveSerialSolveLower {V σ : Type} (E : Env V σ) (info : SupernodeInfo) :
    Nat → Int → Bool → Run V σ → Outcome (Run V σ)
  | 0, _, _, _ => Outcome.exhausted
  | fuel + 1, sid, final, s =>
    let ibeg : Int := info.stree_ptr.val sid
    let iend : Int := info.stree_ptr.val (sid + 1)
    (if final then Outcome.returned s
      else
        forLoop
          (fun i s1 => recursiveSerialSolveLower E info fuel (info.stree_children.val i) false s1)
          (iend - ibeg).toNat ibeg s).andThen (serialSolveLowerBody E info sid)

/-- The first block of `recursiveSerialSolveUpper`. -/
def serialSolveUpperBody {V σ : Type} (E : Env V σ) (info : SupernodeInfo) (sid : Int)
    (s : Run V σ) : Outcome (Run V σ) :=
  let pmn := E.getSuperPanelSize info sid
  let n : Int := pmn.2 - pmn.1
  let nrhs : Int := info.x.dimension_1
  let bufsize : Nat := size_t (max (n * nrhs) 1 * E.value_size)
  let a := E.pool_allocate s.pool bufsize
  let buf : Nat := a.1
  let s1 : Run V σ := ⟨a.2, s.mem, s.trace ++ [Event.allocate sid bufsize buf]⟩
  if TACHO_TEST_FOR_ABORT (buf = 0) then
    Outcome.aborted ⟨s1.pool, s1.mem, s1.trace ++ [Event.abort sid]⟩
  else
    let xB : MatrixView := ⟨buf, n, nrhs⟩
    let s2 : Run V σ :=
      ⟨s1.pool, E.update_solve_upper info s1.mem xB sid,
        s1.trace ++ [Event.update_solve_upper sid xB]⟩
    let s3 : Run V σ :=
      ⟨s2.pool, E.solve_upper info s2.mem xB sid, s2.trace ++ [Event.solve_upper sid xB]⟩
    Outcome.returned
      ⟨E.pool_deallocate s3.pool buf bufsize, s3.mem,
        s3.trace ++ [Event.deallocate sid buf bufsize]⟩

/-- The recursion of `recursiveSerialSolveUpper`: the supernode first, then
its children. -/
def recursiveSerialSolveUpper {V σ : Type} (E : Env V σ) (info : SupernodeInfo) :
    Nat → Int → Bool → Run V σ → Outcome (Run V σ)
  | 0, _, _, _ => Outcome.exhausted
  | fuel + 1, sid, final, s =>
    let ibeg : Int := info.stree_ptr.val sid
    let iend : Int := info.stree_ptr.val (sid + 1)
    (serialSolveUpperBody E info sid s).andThen (fun s1 =>
      if final then Outcome.returned s1
      else
        forLoop
          (fun i s2 => recursiveSerialSolveUpper E info fuel (info.stree_children.val i) false s2)
          (iend - ibeg).toNat ibeg s1)

/-! ## Statistics -/

/-- The anonymous `stat` member: times and memory counters.  The fields are
`double` in the source and rationals here; `track_alloc` and `track_free` below
add and subtract exactly, which is what the source does while the amounts are
integers and the running totals stay within `2^53` (`statAfterDouble_eq`);
`track_alloc_double` and `track_free_double` make the rounding explicit. -/
structure Stat where
  t_factor : ℚ
  t_solve : ℚ
  t_copy : ℚ
  t_extra : ℚ
  m_used : ℚ
  m_peak : ℚ

/-- `track_alloc(in)`, in exact arithmetic. -/
def track_alloc (stat : Stat) (amount : ℚ) : Stat :=
  let used := stat.m_used + amount
  { stat with m_used := used, m_peak := max stat.m_peak used }

/-- `track_free(out)`, in exact arithmetic. -/
def track_free (stat : Stat) (amount : ℚ) : Stat :=
  { stat with m_used := stat.m_used - amount }

/-- `reset_stat()`. -/
def reset_stat (_stat : Stat) : Stat := ⟨0, 0, 0, 0, 0, 0⟩

/-! ## The object and its public operations -/

/-- The data members of `NumericTools` (the unused Schur arrays apart). -/
structure NumericTools where
  _m : Int
  _ap : SizeArray
  _aj : OrdinalArray
  _ax : ValueArray
  _perm : OrdinalArray
  _peri : OrdinalArray
  _nsupernodes : Int
  _supernodes : OrdinalArray
  _gid_super_panel_ptr : SizeArray
  _gid_super_panel_colidx : OrdinalArray
  _sid_super_panel_ptr : SizeArray
  _sid_super_panel_colidx : OrdinalArray
  _blk_super_panel_colidx : OrdinalArray
  _stree_parent : OrdinalArray
  _stree_ptr : SizeArray
  _stree_children : OrdinalArray
  _stree_roots : OrdinalArray
  _super_panel_ptr : SizeArray
  _super_panel_buf : ValueArray
  _info : SupernodeInfo
  stat : Stat

/-- The object, the numeric memory and the record of pool and kernel calls. -/
structure Machine (V : Type) where
  self : NumericTools
  mem : Memory V
  trace : List Event

/-- The constructor: it copies its arguments into the members and the symbolic
arrays into `_info`.  The views it does not mention are default-constructed
(not allocated); `stat` and the info's `max_schur_size` are not initialised by
it and are whatever `stat0` and `schur0` say. -/
def NumericTools.construct (m : Int) (ap : SizeArray) (aj : OrdinalArray)
    (perm peri : OrdinalArray) (nsupernodes : Int) (supernodes : OrdinalArray)
    (gid_super_panel_ptr : SizeArray) (gid_super_panel_colidx : OrdinalArray)
    (sid_super_panel_ptr : SizeArray) (sid_super_panel_colidx : OrdinalArray)
    (blk_super_panel_colidx : OrdinalArray) (stree_parent : OrdinalArray)
    (stree_ptr : SizeArray) (stree_children : OrdinalArray) (stree_roots : OrdinalArray)
    (stat0 : Stat) (schur0 : Int) : NumericTools :=
  { _m := m, _ap := ap, _aj := aj, _ax := ⟨0, 0⟩, _perm := perm, _peri := peri,
    _nsupernodes := nsupernodes, _supernodes := supernodes,
    _gid_super_panel_ptr := gid_super_panel_ptr,
    _gid_super_panel_colidx := gid_super_panel_colidx,
    _sid_super_panel_ptr := sid_super_panel_ptr,
    _sid_super_panel_colidx := sid_super_panel_colidx,
    _blk_super_panel_colidx := blk_super_panel_colidx,
    _stree_parent := stree_parent, _stree_ptr := stree_ptr,
    _stree_children := stree_children, _stree_roots := stree_roots,
    _super_panel_ptr := ⟨0, 0, fun _ => 0⟩, _super_panel_buf := ⟨0, 0⟩,
    _info :=
      { supernodes := supernodes,
        gid_super_panel_ptr := gid_super_panel_ptr,
        gid_super_panel_colidx := gid_super_panel_colidx,
        sid_super_panel_ptr := sid_super_panel_ptr,
        sid_super_panel_colidx := sid_super_panel_colidx,
        blk_super_panel_colidx := blk_super_panel_colidx,
        stree_ptr := stree_ptr, stree_children := stree_children,
        super_panel_ptr := ⟨0, 0, fun _ => 0⟩, super_panel_buf := ⟨0, 0⟩,
        x := ⟨0, 0, 0⟩, max_schur_size := schur0 },
    stat := stat0 }

/-- Carry the outcome of a traversal over to the object `self`. -/
def finishRun {V σ : Type} (self : NumericTools) (after : Run V σ → Outcome (Machine V)) :
    Outcome (Run V σ) → Outcome (Machine V)
  | Outcome.returned s => after s
  | Outcome.raised e s => Outcome.raised e ⟨self, s.mem, s.trace⟩
  | Outcome.aborted s => Outcome.aborted ⟨self, s.mem, s.trace⟩
  | Outcome.exhausted => Outcome.exhausted

/-- The part of `factorizeCholesky_Serial(ax)` before the tree traversal:
`reset_stat`, the first timed block (store `ax`, allocate and fill the super
panels) and the creation of the buffer pool.  It yields the object, the memory
and the pool; `seconds k` is the value of the `k`-th call of
`timer.seconds()`. -/
def factorizeSetup {V σ : Type} (E : Env V σ) (seconds : Nat → ℚ) (ax : ValueArray)
    (M : Machine V) : NumericTools × Memory V × σ :=
  let self0 : NumericTools := { M.self with stat := reset_stat M.self.stat }
  let self1 : NumericTools := { self0 with _ax := ax }
  let iwork : OrdinalArray := ⟨self1._m + 1, fun _ => 0⟩
  let r := E.allocateSuperPanels self1._info M.mem iwork
  let self2 : NumericTools :=
    { self1 with
      _super_panel_ptr := r.2.1, _super_panel_buf := r.2.2.1,
      _info := { self1._info with max_schur_size := r.1 } }
  let stat1 := track_alloc self2.stat ((iwork.span * E.ordinal_size % 2 ^ 64 : Nat) : ℚ)
  let stat2 := track_alloc stat1 ((self2._super_panel_ptr.span * E.size_size % 2 ^ 64 : Nat) : ℚ)
  let stat3 := track_alloc stat2 ((self2._super_panel_buf.span * E.value_size % 2 ^ 64 : Nat) : ℚ)
  let info3 : SupernodeInfo :=
    { self2._info with
      super_panel_ptr := self2._super_panel_ptr, super_panel_buf := self2._super_panel_buf }
  let mem1 := E.copySparseToSuperPanels info3 r.2.2.2 self2._ap self2._aj self2._ax
    self2._perm self2._peri iwork
  let stat4 := track_free stat3 ((iwork.span * E.ordinal_size % 2 ^ 64 : Nat) : ℚ)
  let stat5 : Stat := { stat4 with t_copy := stat4.t_copy + seconds 0 }
  let self3 : NumericTools := { self2 with _info := info3, stat := stat5 }
  let max_block_size : Nat :=
    size_t (info3.max_schur_size * (info3.max_schur_size + 1) * E.value_size)
  let bufpool : σ := E.pool_create max_block_size 1 max_block_size max_block_size
  let self4 : NumericTools :=
    { self3 with stat := track_alloc self3.stat (E.pool_capacity bufpool : ℚ) }
  (self4, mem1, bufpool)

/-- The member `factorizeCholesky_Serial(ax)`: the setup, the traversal from
every root, then `track_free` of the pool and the factorization time.  The
`verbose` printing is left out. -/
def factorizeCholesky_Serial {V σ : Type} (E : Env V σ) (fuel : Nat) (seconds : Nat → ℚ)
    (ax : ValueArray) (M : Machine V) : Outcome (Machine V) :=
  let st := factorizeSetup E seconds ax M
  let self4 : NumericTools := st.1
  let nroots : Int := self4._stree_roots.dimension_0
  finishRun self4
    (fun s =>
      let stat6 := track_free self4.stat (E.pool_capacity s.pool : ℚ)
      let stat7 : Stat := { stat6 with t_factor := stat6.t_factor + seconds 1 }
      Outcome.returned ⟨{ self4 with stat := stat7 }, s.mem, s.trace⟩)
    (forLoop (fun i s => recursiveSerialChol E self4._info fuel (self4._stree_roots.val i) s)
      nroots.toNat 0 ⟨st.2.2, st.2.1, M.trace⟩)

/-- Modelled from the spec: one step of the row-permutation utility, the row
assignment `A(ra, j) = B(rb, j)` for every column `j` of `A`. -/
def copyRow {V : Type} (mem : Memory V) (A B : MatrixView) (ra rb : Int) : Memory V :=
  fun ptr i j =>
    if ptr = A.data ∧ i = ra ∧ 0 ≤ j ∧ j < A.dimension_1 then mem B.data rb j else mem ptr i j

/-- Modelled from the spec: the row loop of the row-permutation utility over
the rows `0 .. k-1`, with `p` applied to the row written (`scatter`) or to the
row read. -/
def permuteRows {V : Type} (scatter : Bool) (A B : MatrixView) (p : OrdinalArray) :
    Nat → Memory V → Memory V
  | 0, mem => mem
  | k + 1, mem =>
    let mem1 := permuteRows scatter A B p k mem
    if scatter then copyRow mem1 A B (p.val k) k else copyRow mem1 A B k (p.val k)

/-- Modelled from the spec: the external row-permutation utility
`applyRowPermutation(A, B, p)`, whose code is not in this file, "applying
`perm`/`peri` to dense right-hand-side blocks".  It writes every row of `A`
from a row of `B`; the spec does not say whether `p` is applied to the row
written (`A(p(i), j) = B(i, j)`, `scatter = true`) or to the row read
(`A(i, j) = B(p(i), j)`, `scatter = false`), so both are modelled. -/
def applyRowPermutation {V : Type} (scatter : Bool) (mem : Memory V) (A B : MatrixView)
    (p : OrdinalArray) : Memory V :=
  permuteRows scatter A B p A.dimension_0.toNat mem

/-- The three precondition tests of `solveCholesky_Serial`, in source order:
the error of the first test that throws, `none` when all pass. -/
def solvePreconditions (self : NumericTools) (x b t : MatrixView) : Option LogicError :=
  (TACHO_TEST_FOR_EXCEPTION
      (x.dimension_0 ≠ b.dimension_0 ∨ x.dimension_1 ≠ b.dimension_1 ∨
        x.dimension_0 ≠ t.dimension_0 ∨ x.dimension_1 ≠ t.dimension_1)
      LogicError.supernode_data_structure_not_allocated).orElse fun _ =>
  (TACHO_TEST_FOR_EXCEPTION (x.data = b.data ∨ x.data = t.data ∨ t.data = b.data)
      LogicError.same_data_pointer).orElse fun _ =>
  TACHO_TEST_FOR_EXCEPTION
    (self._info.super_panel_ptr.data = 0 ∨ self._info.super_panel_buf.data = 0)
    LogicError.super_panel_not_allocated

/-- The part of `solveCholesky_Serial(x, b, t)` between the precondition tests
and the tree traversals: store `t` in the info, permute `b` into `t`, create
the buffer pool.  It yields the object, the memory and the pool. -/
def solveSetup {V σ : Type} (E : Env V σ) (scatter : Bool) (seconds : Nat → ℚ)
    (x b t : MatrixView) (M : Machine V) : NumericTools × Memory V × σ :=
  let self1 : NumericTools := { M.self with _info := { M.self._info with x := t } }
  let mem1 := applyRowPermutation scatter M.mem t b self1._peri
  let self2 : NumericTools :=
    { self1 with stat := { self1.stat with t_extra := self1.stat.t_extra + seconds 0 } }
  let max_block_size : Nat :=
    size_t (self2._info.max_schur_size * x.dimension_1 * E.value_size)
  let bufpool : σ := E.pool_create max_block_size 1 max_block_size max_block_size
  let self3 : NumericTools :=
    { self2 with stat := track_alloc self2.stat (E.pool_capacity bufpool : ℚ) }
  (self3, mem1, bufpool)

/-- The tree traversals of `solveCholesky_Serial`: `recursiveSerialSolveLower`
from every root, then `recursiveSerialSolveUpper` from every root.  The branch
under `constexpr bool final = false` that is never taken is left out. -/
def solveTraversal {V σ : Type} (E : Env V σ) (self : NumericTools) (fuel : Nat)
    (s : Run V σ) : Outcome (Run V σ) :=
  let nroots : Int := self._stree_roots.dimension_0
  (forLoop
      (fun i s1 => recursiveSerialSolveLower E self._info fuel (self._stree_roots.val i) false s1)
      nroots.toNat 0 s).andThen
    (forLoop
      (fun i s1 => recursiveSerialSolveUpper E self._info fuel (self._stree_roots.val i) false s1)
      nroots.toNat 0)

/-- The member `solveCholesky_Serial(x, b, t)`; `seconds k` is the value of
the `k`-th call of `timer.seconds()`.  The `verbose` printing is left out;
`scatter` is the convention of the row-permutation utility. -/
def solveCholesky_Serial {V σ : Type} (E : Env V σ) (scatter : Bool) (fuel : Nat)
    (seconds : Nat → ℚ) (x b t : MatrixView) (M : Machine V) : Outcome (Machine V) :=
  match solvePreconditions M.self x b t with
  | some e => Outcome.raised e M
  | none =>
    let st := solveSetup E scatter seconds x b t M
    let self3 : NumericTools := st.1
    finishRun self3
      (fun s2 =>
        let stat4 : Stat := { self3.stat with t_solve := self3.stat.t_solve + seconds 1 }
        let mem2 := applyRowPermutation scatter s2.mem x t self3._perm
        let stat5 : Stat := { stat4 with t_extra := stat4.t_extra + seconds 2 }
        Outcome.returned ⟨{ self3 with stat := stat5 }, mem2, s2.trace⟩)
      (solveTraversal E self3 fuel ⟨st.2.2, st.2.1, M.trace⟩)

/-- The member `exportFactorsToCrsMatrix(replace_value_with_one)`. -/
def exportFactorsToCrsMatrix {V σ : Type} (E : Env V σ) (replace_value_with_one : Bool)
    (M : Machine V) : Except LogicError (CrsMatrix V) :=
  match TACHO_TEST_FOR_EXCEPTION
      (M.self._info.super_panel_ptr.data = 0 ∨ M.self._info.super_panel_buf.data = 0)
      LogicError.super_panel_not_allocated with
  | some e => Except.error e
  | none => Except.ok (E.createCrsMatrix M.self._info M.mem replace_value_with_one)

/-! ## The elimination forest -/

/-- `c` is listed among the children of `p`: it is `stree_children(i)` for some
`i` in `[stree_ptr(p), stree_ptr(p+1))`. -/
def IsChild (info : SupernodeInfo) (p c : Int) : Prop :=
  ∃ i : Int, (info.stree_ptr.val p : Int) ≤ i ∧ i < (info.stree_ptr.val (p + 1) : Int) ∧
    info.stree_children.val i = c

/-- `d` is a proper descendant of `s` (a child, a child of a child, ...). -/
def IsDescendant (info : SupernodeInfo) (s d : Int) : Prop :=
  Relation.TransGen (IsChild info) s d

/-- The tree arrays describe a forest: no cycle (every child has a smaller
`rank` than its parent), and an entry of `stree_children` is the only entry
with its value, in the child range of one supernode only (one parent). -/
structure IsForest (info : SupernodeInfo) (rank : Int → Nat) : Prop where
  acyclic : ∀ p c : Int, IsChild info p c → rank c < rank p
  one_parent : ∀ p q i j : Int,
    (info.stree_ptr.val p : Int) ≤ i → i < (info.stree_ptr.val (p + 1) : Int) →
    (info.stree_ptr.val q : Int) ≤ j → j < (info.stree_ptr.val (q + 1) : Int) →
    info.stree_children.val i = info.stree_children.val j → p = q ∧ i = j

/-- The entries of `roots` are pairwise different supernodes without a parent. -/
structure IsRootList (info : SupernodeInfo) (roots : OrdinalArray) : Prop where
  distinct : ∀ i j : Int, 0 ≤ i → i < roots.dimension_0 → 0 ≤ j → j < roots.dimension_0 →
    roots.val i = roots.val j → i = j
  no_parent : ∀ i : Int, 0 ≤ i → i < roots.dimension_0 → ∀ p : Int, ¬ IsChild info p (roots.val i)

/-- Concatenation of `g i, g (i+1), ..., g (i+k-1)`: what a loop whose `j`-th
body appends `g j` appends. -/
def loopList {α : Type} (g : Int → List α) : Nat → Int → List α
  | 0, _ => []
  | k + 1, i => g i ++ loopList g k (i + 1)

/-- The kernel calls of a post-order walk from `sid` in which every supernode
calls `k1` then `k2`. -/
def postOrder (info : SupernodeInfo) (k1 k2 : Kernel) : Nat → Int → List (Kernel × Int)
  | 0, _ => []
  | fuel + 1, sid =>
    loopList (fun i => postOrder info k1 k2 fuel (info.stree_children.val i))
      ((info.stree_ptr.val (sid + 1) : Int) - (info.stree_ptr.val sid : Int)).toNat
      (info.stree_ptr.val sid) ++ [(k1, sid), (k2, sid)]

/-- The kernel calls of a pre-order walk from `sid` in which every supernode
calls `k1` then `k2`. -/
def preOrder (info : SupernodeInfo) (k1 k2 : Kernel) : Nat → Int → List (Kernel × Int)
  | 0, _ => []
  | fuel + 1, sid =>
    [(k1, sid), (k2, sid)] ++
      loopList (fun i => preOrder info k1 k2 fuel (info.stree_children.val i))
        ((info.stree_ptr.val (sid + 1) : Int) - (info.stree_ptr.val sid : Int)).toNat
        (info.stree_ptr.val sid)

/-- Order of two calls in a post-order walk: the later call is not for a
descendant of the earlier one, and two calls for one supernode are `k1` then
`k2`. -/
def PostRel (info : SupernodeInfo) (k1 k2 : Kernel) (a b : Kernel × Int) : Prop :=
  ¬ IsDescendant info a.2 b.2 ∧ (a.2 = b.2 → a.1 = k1 ∧ b.1 = k2)

/-- Order of two calls in a pre-order walk: the earlier call is not for a
descendant of the later one, and two calls for one supernode are `k1` then
`k2`. -/
def PreRel (info : SupernodeInfo) (k1 k2 : Kernel) (a b : Kernel × Int) : Prop :=
  ¬ IsDescendant info b.2 a.2 ∧ (a.2 = b.2 → a.1 = k1 ∧ b.1 = k2)

/-! ## Properties of runs -/

/-- The outcome of a run started in `s` never raises; when it returns the end
state is related to `s` by `P`, when it aborts by `A`. -/
def Outcome.Sat {α : Type} (P A : α → α → Prop) (s : α) : Outcome α → Prop
  | Outcome.returned s1 => P s s1
  | Outcome.aborted s1 => A s s1
  | Outcome.raised _ _ => False
  | Outcome.exhausted => True

/-- The run started in `s` ends (returns or aborts), and the kernel calls it
adds to the record are the list `I` when it returns and the first calls of `I`
when it aborts. -/
def Link {V σ : Type} (I : List (Kernel × Int)) (s : Run V σ) : Outcome (Run V σ) → Prop
  | Outcome.returned s1 => ∃ tr, s1.trace = s.trace ++ tr ∧ kernelCalls tr = I
  | Outcome.aborted s1 => ∃ tr rest, s1.trace = s.trace ++ tr ∧ kernelCalls tr ++ rest = I
  | Outcome.raised _ _ => False
  | Outcome.exhausted => False

/-- Children first: at every call `e` of the list, both calls of every
descendant of the supernode of `e` are earlier in the list and no call of a
descendant is later; and `k2` of a supernode has `k1` of that supernode before
it and not after it. -/
def PostOrdered (info : SupernodeInfo) (k1 k2 : Kernel) (L : List (Kernel × Int)) : Prop :=
  ∀ (A B : List (Kernel × Int)) (e : Kernel × Int), L = A ++ e :: B →
    (∀ d : Int, IsDescendant info e.2 d →
      (k1, d) ∈ A ∧ (k2, d) ∈ A ∧ ∀ c ∈ B, c.2 ≠ d) ∧
    (e.1 = k2 → (k1, e.2) ∈ A ∧ (k1, e.2) ∉ B)

/-- Parents first: at every call `e` of the list, no call of a descendant of
the supernode of `e` is earlier in the list; and `k2` of a supernode has `k1`
of that supernode before it and not after it. -/
def PreOrdered (info : SupernodeInfo) (k1 k2 : Kernel) (L : List (Kernel × Int)) : Prop :=
  ∀ (A B : List (Kernel × Int)) (e : Kernel × Int), L = A ++ e :: B →
    (∀ d : Int, IsDescendant info e.2 d → ∀ c ∈ A, c.2 ≠ d) ∧
    (e.1 = k2 → (k1, e.2) ∈ A ∧ (k1, e.2) ∉ B)

/-- Forward before backward: after a call of a backward (upper) kernel the
list holds no call of a forward (lower) kernel. -/
def ForwardBeforeBackward (L : List (Kernel × Int)) : Prop :=
  ∀ (A B : List (Kernel × Int)) (e : Kernel × Int), L = A ++ e :: B →
    (e.1 = Kernel.update_solve_upper ∨ e.1 = Kernel.solve_upper) →
    ∀ c ∈ B, c.1 ≠ Kernel.solve_lower ∧ c.1 ≠ Kernel.update_solve_lower

/-- An entry of the record that is neither a failed allocation, nor an abort,
nor a kernel call on a null scratch buffer. -/
def Event.clean : Event → Bool
  | .allocate _ _ buf => decide (buf ≠ 0)
  | .deallocate _ _ _ => true
  | .abort _ => false
  | .factorize _ ABR => decide (ABR.data ≠ 0)
  | .update _ ABR _ _ => decide (ABR.data ≠ 0)
  | .solve_lower _ xB => decide (xB.data ≠ 0)
  | .update_solve_lower _ xB => decide (xB.data ≠ 0)
  | .update_solve_upper _ xB => decide (xB.data ≠ 0)
  | .solve_upper _ xB => decide (xB.data ≠ 0)

/-- What a run that returns has added to the record is clean. -/
def NullSafeReturn {V σ : Type} (s s1 : Run V σ) : Prop :=
  ∃ tr, s1.trace = s.trace ++ tr ∧ ∀ e ∈ tr, e.clean = true

/-- What a run that aborts has added to the record is clean up to its last two
entries, which are an allocation that returned `NULL` for a supernode and the
abort for that supernode. -/
def NullSafeAbort {V σ : Type} (s s1 : Run V σ) : Prop :=
  ∃ tr sid bufsize,
    s1.trace = s.trace ++ tr ++ [Event.allocate sid bufsize 0, Event.abort sid] ∧
      ∀ e ∈ tr, e.clean = true

/-- A run never raises, never calls a kernel on a null scratch buffer, and a
`NULL` from the pool is followed by the abort and by nothing else. -/
def AbortsOnNull {V σ : Type} (s : Run V σ) (o : Outcome (Run V σ)) : Prop :=
  Outcome.Sat NullSafeReturn NullSafeAbort s o

/-- The array `p` is a bijection of `[0, m)`. -/
structure IsPermutation (p : OrdinalArray) (m : Int) : Prop where
  maps : ∀ i : Int, 0 ≤ i → i < m → 0 ≤ p.val i ∧ p.val i < m
  injective : ∀ i j : Int, 0 ≤ i → i < m → 0 ≤ j → j < m → p.val i = p.val j → i = j
  surjective : ∀ k : Int, 0 ≤ k → k < m → ∃ i : Int, 0 ≤ i ∧ i < m ∧ p.val i = k

/-! ## Two runs of a factorization -/

/-- Two infos with the same symbolic arrays. -/
structure SameSymbolicInfo (a b : SupernodeInfo) : Prop where
  supernodes : a.supernodes = b.supernodes
  gid_super_panel_ptr : a.gid_super_panel_ptr = b.gid_super_panel_ptr
  gid_super_panel_colidx : a.gid_super_panel_colidx = b.gid_super_panel_colidx
  sid_super_panel_ptr : a.sid_super_panel_ptr = b.sid_super_panel_ptr
  sid_super_panel_colidx : a.sid_super_panel_colidx = b.sid_super_panel_colidx
  blk_super_panel_colidx : a.blk_super_panel_colidx = b.blk_super_panel_colidx
  stree_ptr : a.stree_ptr = b.stree_ptr
  stree_children : a.stree_children = b.stree_children

/-- Two infos with the same symbolic arrays, the same panel offsets, factor
buffers of the same extent and the same `max_schur_size`.  The addresses of
their views and their right-hand-side views `x` may differ. -/
structure SameFactorInfo (a b : SupernodeInfo) : Prop where
  symbolic : SameSymbolicInfo a b
  super_panel_ptr : a.super_panel_ptr.val = b.super_panel_ptr.val
  super_panel_ptr_extent : a.super_panel_ptr.dimension_0 = b.super_panel_ptr.dimension_0
  super_panel_buf_extent : a.super_panel_buf.dimension_0 = b.super_panel_buf.dimension_0
  max_schur_size : a.max_schur_size = b.max_schur_size

/-- Two objects with the same symbolic inputs of a factorization: the matrix
pattern, the permutation, the roots and the symbolic arrays of the info. -/
structure SameSymbolic (a b : NumericTools) : Prop where
  m : a._m = b._m
  ap : a._ap = b._ap
  aj : a._aj = b._aj
  perm : a._perm = b._perm
  peri : a._peri = b._peri
  stree_roots : a._stree_roots = b._stree_roots
  info : SameSymbolicInfo a._info b._info

/-- Modelled from the spec: what `getSuperPanelSize`, `allocateSuperPanels`,
`copySparseToSuperPanels` and the kernels `factorize` and `update` (none of
them in this file) read, for numeric values `ax`.  `allocateSuperPanels`
"computes, from the supernode partition and panel maps" the offsets and the
extent of the buffer (the address of the buffer is free), and leaves the
values of `ax` alone; `copySparseToSuperPanels` "scatters every permuted
nonzero of the input matrix" into the panels, "zero-filling all other
entries", so the factor buffer it leaves is fixed by the symbolic arrays and
the values of `ax`; `factorize` works on the panel "in place" and `update`
forms the Schur complement "into the scratch buffer" before it accumulates it
into the panels, so the factor buffer that `factorize` followed by `update`
leaves is fixed by the factor buffer before them. -/
structure FactorFootprint {V σ : Type} (E : Env V σ) (ax : ValueArray) : Prop where
  panel_size : ∀ (a b : SupernodeInfo) (sid : Int), SameSymbolicInfo a b →
    E.getSuperPanelSize a sid = E.getSuperPanelSize b sid
  allocate : ∀ (a b : SupernodeInfo) (mem mem2 : Memory V) (iwork : OrdinalArray),
    SameSymbolicInfo a b → mem ax.data = mem2 ax.data →
    (E.allocateSuperPanels a mem iwork).1 = (E.allocateSuperPanels b mem2 iwork).1 ∧
    (E.allocateSuperPanels a mem iwork).2.1.val =
      (E.allocateSuperPanels b mem2 iwork).2.1.val ∧
    (E.allocateSuperPanels a mem iwork).2.1.dimension_0 =
      (E.allocateSuperPanels b mem2 iwork).2.1.dimension_0 ∧
    (E.allocateSuperPanels a mem iwork).2.2.1.dimension_0 =
      (E.allocateSuperPanels b mem2 iwork).2.2.1.dimension_0 ∧
    (E.allocateSuperPanels a mem iwork).2.2.2 ax.data =
      (E.allocateSuperPanels b mem2 iwork).2.2.2 ax.data
  copy : ∀ (a b : SupernodeInfo) (mem mem2 : Memory V) (ap : SizeArray)
    (aj perm peri iwork : OrdinalArray),
    SameFactorInfo a b → mem ax.data = mem2 ax.data →
    E.copySparseToSuperPanels a mem ap aj ax perm peri iwork a.super_panel_buf.data =
      E.copySparseToSuperPanels b mem2 ap aj ax perm peri iwork b.super_panel_buf.data
  factorize_update : ∀ (a b : SupernodeInfo) (mem mem2 : Memory V) (ABR : MatrixView)
    (sid : Int) (bufsize buf : Nat),
    SameFactorInfo a b → mem a.super_panel_buf.data = mem2 b.super_panel_buf.data →
    E.update a (E.factorize a mem ABR sid) ABR sid bufsize buf a.super_panel_buf.data =
      E.update b (E.factorize b mem2 ABR sid) ABR sid bufsize buf b.super_panel_buf.data

/-- Two runs end the same way, and when both return their end states are
related by `R`. -/
def Outcome.Rel {α : Type} (R : α → α → Prop) : Outcome α → Outcome α → Prop
  | Outcome.returned a, Outcome.returned b => R a b
  | Outcome.aborted _, Outcome.aborted _ => True
  | Outcome.raised e _, Outcome.raised e2 _ => e = e2
  | Outcome.exhausted, Outcome.exhausted => True
  | _, _ => False

/-- Two states of a traversal with the same pool and the same entries, at
address `p` in the first and at address `q` in the second. -/
def SamePoolAndBuffer {V σ : Type} (p q : Nat) (a b : Run V σ) : Prop :=
  a.pool = b.pool ∧ a.mem p = b.mem q

/-- Two machines with the same factor: the same panel offsets, buffers of the
same extent and the same entries in the buffer. -/
def SameFactor {V : Type} (a b : Machine V) : Prop :=
  a.self._super_panel_ptr.val = b.self._super_panel_ptr.val ∧
  a.self._super_panel_ptr.dimension_0 = b.self._super_panel_ptr.dimension_0 ∧
  a.self._super_panel_buf.dimension_0 = b.self._super_panel_buf.dimension_0 ∧
  a.mem a.self._super_panel_buf.data = b.mem b.self._super_panel_buf.data

/-! ## A small instance

Three supernodes of one column each; supernodes `0` and `1` are the children
of the root `2` (an arrow matrix of order 3, ordered by the permutation that
swaps the first two rows).  The pool hands out one block at
a time, at address `4096`, when the request is no larger than its
`max_block_size`.  `allocateSuperPanels` of the instance puts the factor
buffer at address `1024`, or at `1536` when `1024` is the buffer in use;
`copySparseToSuperPanels` fills the factor buffer with the entries of `ax`;
the kernels leave the memory as it is. -/

/-- An integer array with the entries of a list. -/
def OrdinalArray.ofList (l : List Int) : OrdinalArray :=
  ⟨l.length, fun i => if 0 ≤ i then l.getD i.toNat 0 else 0⟩

/-- An offset array at address `data` with the entries of a list. -/
def SizeArray.ofList (data : Nat) (l : List Nat) : SizeArray :=
  ⟨data, l.length, fun i => if 0 ≤ i then l.getD i.toNat 0 else 0⟩

/-- `stree_ptr = [0, 0, 0, 2]`. -/
def exampleTreePtr : SizeArray := ⟨8, 4, fun s => if s = 3 then 2 else 0⟩

/-- `stree_children = [0, 1]`. -/
def exampleTreeChildren : OrdinalArray := ⟨2, fun i => if i = 1 then 1 else 0⟩

/-- `stree_roots = [2]`. -/
def exampleRoots : OrdinalArray := ⟨1, fun _ => 2⟩

/-- Height of a supernode in the instance. -/
def exampleRank : Int → Nat := fun s => if s = 2 then 1 else 0

/-- The pool of the instance: `max_block_size` and the number of blocks out. -/
def examplePoolAllocate (st : Nat × Nat) (bufsize : Nat) : Nat × (Nat × Nat) :=
  if bufsize ≤ st.1 ∧ st.2 = 0 then (4096, (st.1, 1)) else (0, st)

/-- The collaborators of the instance. -/
def exampleEnv : Env ℚ (Nat × Nat) where
  value_size := 8
  ordinal_size := 4
  size_size := 8
  getSuperPanelSize := fun _ sid => if sid = 2 then (1, 1) else (1, 2)
  allocateSuperPanels := fun info mem _ =>
    (1, SizeArray.ofList 16 [0, 2, 4, 5],
      (⟨if info.super_panel_buf.data = 1024 then 1536 else 1024, 5⟩ : ValueArray), mem)
  copySparseToSuperPanels := fun info mem _ _ ax _ _ _ =>
    fun ptr i j => if ptr = info.super_panel_buf.data then mem ax.data i 0 else mem ptr i j
  createCrsMatrix := fun info mem _ =>
    ⟨3, 3, 5, fun _ => 0, fun _ => 0, fun i => mem info.super_panel_buf.data i 0⟩
  factorize := fun _ mem _ _ => mem
  update := fun _ mem _ _ _ _ => mem
  solve_lower := fun _ mem _ _ => mem
  update_solve_lower := fun _ mem _ _ => mem
  update_solve_upper := fun _ mem _ _ => mem
  solve_upper := fun _ mem _ _ => mem
  pool_create := fun _ _ max_block_size _ => (max_block_size, 0)
  pool_capacity := fun st => st.1
  pool_allocate := examplePoolAllocate
  pool_deallocate := fun st _ _ => (st.1, 0)

/-- The object of the instance, as constructed. -/
def exampleTools : NumericTools :=
  NumericTools.construct 3 (SizeArray.ofList 24 [0, 2, 4, 7])
    (OrdinalArray.ofList [0, 2, 1, 2, 0, 1, 2])
    (OrdinalArray.ofList [1, 0, 2]) (OrdinalArray.ofList [1, 0, 2]) 3
    (OrdinalArray.ofList [0, 1, 2, 3])
    (SizeArray.ofList 32 [0, 2, 4, 5]) (OrdinalArray.ofList [0, 2, 1, 2, 2])
    (SizeArray.ofList 40 [0, 3, 6, 8])
    (OrdinalArray.ofList [0, 2, -1, 1, 2, -1, 2, -1])
    (OrdinalArray.ofList [0, 1, 2, 0, 1, 2, 0, 1])
    (OrdinalArray.ofList [2, 2, -1]) exampleTreePtr exampleTreeChildren exampleRoots
    ⟨0, 0, 0, 0, 0, 0⟩ 0

/-- The machine of the instance: the object, a memory of zeros, no call yet. -/
def exampleMachine : Machine ℚ := ⟨exampleTools, fun _ _ _ => 0, []⟩

/-- The object of the instance after the setup of a factorization: the super
panels are allocated.  The memory holds the right-hand side `b = [1, 2, 3]` at
address 200. -/
def exampleFactored : Machine ℚ :=
  ⟨(factorizeSetup exampleEnv (fun _ => 0) ⟨2048, 7⟩ exampleMachine).1,
    fun ptr i _ => if ptr = 200 then (i : ℚ) + 1 else 0, []⟩

/-- The machine of the instance after a factorization with `ax` at address
2048. -/
def exampleFactorRun : Machine ℚ :=
  match factorizeCholesky_Serial exampleEnv 2 (fun _ => 0) ⟨2048, 7⟩ exampleMachine with
  | Outcome.returned M1 => M1
  | _ => exampleMachine

/-- The machine of the instance after a solve with one right-hand side (`x` at
address 100, `b` at 200, `t` at 300). -/
def exampleSolved : Machine ℚ :=
  match solveCholesky_Serial exampleEnv true 2 (fun _ => 0) ⟨100, 3, 1⟩ ⟨200, 3, 1⟩
      ⟨300, 3, 1⟩ exampleFactored with
  | Outcome.returned M1 => M1
  | _ => exampleFactored

/-! ## Scratch requests and pool sizes -/

/-- The value `z` is one of `ordinal_type`, taken as a 32-bit `int`: an
`ordinal_type` expression of the source whose exact value satisfies this does
not overflow and has that value. -/
def FitsOrdinal (z : Int) : Prop := -(2 ^ 31) ≤ z ∧ z < 2 ^ 31

/-- The byte size `bufsize` that `recursiveSerialChol` requests from the pool
for supernode `sid`.  The sum `n*n + max_schur_size` is formed in
`ordinal_type` in the source and over the integers here: the two agree where
`FitsOrdinal` holds of `n*n` and of the sum. -/
def cholBufsize {V σ : Type} (E : Env V σ) (info : SupernodeInfo) (sid : Int) : Nat :=
  let pmn := E.getSuperPanelSize info sid
  let n : Int := pmn.2 - pmn.1
  size_t ((n * n + info.max_schur_size) * E.value_size)

/-- The byte size `bufsize` that `recursiveSerialSolveLower` and
`recursiveSerialSolveUpper` request from the pool for supernode `sid`. -/
def solveBufsize {V σ : Type} (E : Env V σ) (info : SupernodeInfo) (sid : Int) : Nat :=
  let pmn := E.getSuperPanelSize info sid
  let n : Int := pmn.2 - pmn.1
  let nrhs : Int := info.x.dimension_1
  size_t (max (n * nrhs) 1 * E.value_size)

/-- The `max_block_size` (also `memory_capacity` and `superblock_size`) that
`factorizeCholesky_Serial` passes to its pool. -/
def factorizeMaxBlockSize {V σ : Type} (E : Env V σ) (info : SupernodeInfo) : Nat :=
  size_t (info.max_schur_size * (info.max_schur_size + 1) * E.value_size)

/-- The `max_block_size` (also `memory_capacity` and `superblock_size`) that
`solveCholesky_Serial(x, b, t)` passes to its pool. -/
def solveMaxBlockSize {V σ : Type} (E : Env V σ) (info : SupernodeInfo) (x : MatrixView) :
    Nat :=
  size_t (info.max_schur_size * x.dimension_1 * E.value_size)

/-- The Schur extent `n = pn - pm` of supernode `sid`: the rows of its panel
below the diagonal block. -/
def schurExtent {V σ : Type} (E : Env V σ) (info : SupernodeInfo) (sid : Int) : Int :=
  (E.getSuperPanelSize info sid).2 - (E.getSuperPanelSize info sid).1


/-! ## A single-supernode instance

The tridiagonal matrix of order 4 with one supernode `{0, 4}`: its panel is
`4 × 4`, so the Schur extent is `0` and so is `max_schur_size`.  The pool and
the kernels are those of the small instance. -/

/-- The collaborators of the single-supernode instance. -/
def singleEnv : Env ℚ (Nat × Nat) :=
  { exampleEnv with
    getSuperPanelSize := fun _ _ => (4, 4)
    allocateSuperPanels := fun _ mem _ =>
      (0, SizeArray.ofList 16 [0, 16], (⟨1024, 16⟩ : ValueArray), mem)
    createCrsMatrix := fun info mem _ =>
      ⟨4, 4, 10, fun _ => 0, fun _ => 0, fun i => mem info.super_panel_buf.data i 0⟩ }

/-- The object of the single-supernode instance, as constructed. -/
def singleTools : NumericTools :=
  NumericTools.construct 4 (SizeArray.ofList 24 [0, 2, 5, 8, 10])
    (OrdinalArray.ofList [0, 1, 0, 1, 2, 1, 2, 3, 2, 3])
    (OrdinalArray.ofList [0, 1, 2, 3]) (OrdinalArray.ofList [0, 1, 2, 3]) 1
    (OrdinalArray.ofList [0, 4])
    (SizeArray.ofList 32 [0, 4]) (OrdinalArray.ofList [0, 1, 2, 3])
    (SizeArray.ofList 40 [0, 2])
    (OrdinalArray.ofList [0, -1])
    (OrdinalArray.ofList [0, 4])
    (OrdinalArray.ofList [-1]) (SizeArray.ofList 8 [0, 0]) (OrdinalArray.ofList [])
    (OrdinalArray.ofList [0])
    ⟨0, 0, 0, 0, 0, 0⟩ 0

/-- The single-supernode object after the setup of a factorization, with the
right-hand side `b = [1, 1, 1, 1]` at address 200. -/
def singleFactored : Machine ℚ :=
  ⟨(factorizeSetup singleEnv (fun _ => 0) ⟨2048, 10⟩ ⟨singleTools, fun _ _ _ => 0, []⟩).1,
    fun ptr _ _ => if ptr = 200 then 1 else 0, []⟩


/-! ## Sequences of memory-tracking calls -/

/-- One call of the memory tracking: `track_alloc(amount)` or
`track_free(amount)`. -/
inductive StatOp where
  | alloc (amount : ℚ)
  | free (amount : ℚ)

/-- The argument of a tracking call. -/
def StatOp.amount : StatOp → ℚ
  | StatOp.alloc a => a
  | StatOp.free f => f

/-- The effect of one tracking call on `stat`. -/
def StatOp.apply (stat : Stat) : StatOp → Stat
  | StatOp.alloc a => track_alloc stat a
  | StatOp.free f => track_free stat f

/-- The `stat` member after `reset_stat()` and then the calls `ops` in order. -/
def statAfter (stat0 : Stat) (ops : List StatOp) : Stat :=
  ops.foldl StatOp.apply (reset_stat stat0)

/-- Sum of the amounts passed to `track_alloc` in `ops`. -/
def sumAllocated : List StatOp → ℚ
  | [] => 0
  | StatOp.alloc a :: l => a + sumAllocated l
  | StatOp.free _ :: l => sumAllocated l

/-- Sum of the amounts passed to `track_free` in `ops`. -/
def sumFreed : List StatOp → ℚ
  | [] => 0
  | StatOp.alloc _ :: l => sumFreed l
  | StatOp.free f :: l => f + sumFreed l


/-! ## Discipline of the scratch pool -/

/-- One entry of the record read against the scratch buffer outstanding, if
any, given as its pointer and byte size.  An `allocate` is in order only when
no buffer is outstanding, and a successful one makes its buffer outstanding; a
`deallocate` is in order only for the outstanding buffer, with the pointer and
the byte size it was allocated with; the other entries change nothing.  The
result is `none` when the entry is out of order. -/
def poolStep (st : Option (Nat × Nat)) : Event → Option (Option (Nat × Nat))
  | Event.allocate _ bufsize buf =>
    match st with
    | none => if buf = 0 then some none else some (some (buf, bufsize))
    | some _ => none
  | Event.deallocate _ buf bufsize => if st = some (buf, bufsize) then some none else none
  | _ => some st

/-- The record `tr` read from the state `st`: the buffer outstanding at its
end, or `none` when some entry is out of order. -/
def poolDiscipline (st : Option (Nat × Nat)) : List Event → Option (Option (Nat × Nat))
  | [] => some st
  | e :: tr => (poolStep st e).bind fun st1 => poolDiscipline st1 tr

/-- The run from `s` to `s1` has added to the record entries that are in order
from a state with no buffer outstanding and that leave no buffer
outstanding. -/
def PoolClosed {V σ : Type} (s s1 : Run V σ) : Prop :=
  ∃ tr, s1.trace = s.trace ++ tr ∧ poolDiscipline none tr = some none


/-! ## Sizes of the task scheduler -/

/-- The arguments `factorizeCholesky_Parallel` passes to the constructor of
the task scheduler after the memory space, and its local
`max_children_size`. -/
structure SchedulerSizes where
  max_children_size : Int
  task_queue_capacity : Nat
  min_block_size : Nat
  max_block_size : Nat
  superblock_size : Nat

/-- The loop `for (sid ...) max_children_size = max(max_children_size,
_stree_ptr(sid+1) - _stree_ptr(sid))` of `factorizeCholesky_Parallel`, given
its trip count, the first `sid` and the value so far.  The difference is one
of `size_type`. -/
def maxChildrenLoop (stree_ptr : SizeArray) : Nat → Int → Int → Int
  | 0, _, acc => acc
  | k + 1, sid, acc =>
    maxChildrenLoop stree_ptr k (sid + 1)
      (max acc (size_t ((stree_ptr.val (sid + 1) : Int) - (stree_ptr.val sid : Int)) : Int))

/-- The block of `factorizeCholesky_Parallel` that sizes the task scheduler;
`future_size` is `sizeof(future_type)` and `functor_size` is
`sizeof(chol_supernode_functor_type)`, both types being outside this file. -/
def schedulerSizes (self : NumericTools) (future_size functor_size : Nat) : SchedulerSizes :=
  let max_children_size : Int :=
    maxChildrenLoop self._stree_ptr self._nsupernodes.toNat 0 0
  let max_dep_future_size : Nat := size_t (max_children_size * future_size)
  let max_functor_size : Nat := functor_size
  let estimate_max_numtasks : Nat := size_t self._blk_super_panel_colidx.dimension_0
  let task_queue_capacity : Nat :=
    size_t (((max estimate_max_numtasks 128 * max_functor_size : Nat) : Int))
  let min_block_size : Nat := 1
  let max_block_size : Nat := size_t (((max_dep_future_size + max_functor_size : Nat) : Int))
  let num_superblock : Nat := 32
  let superblock_size : Nat := task_queue_capacity / num_superblock
  ⟨max_children_size, task_queue_capacity, min_block_size, max_block_size, superblock_size⟩

/-- The object for a diagonal matrix of order 100: one supernode per column,
no children, every supernode a root; each supernode has two entries in the
supernode and block column-index arrays (itself and the end marker). -/
def diagonalTools : NumericTools :=
  NumericTools.construct 100 ⟨24, 101, fun i => i.toNat⟩ ⟨100, fun i => i⟩
    ⟨100, fun i => i⟩ ⟨100, fun i => i⟩ 100 ⟨101, fun i => i⟩
    ⟨32, 101, fun i => i.toNat⟩ ⟨100, fun i => i⟩
    ⟨40, 101, fun i => 2 * i.toNat⟩ ⟨200, fun i => if i % 2 = 0 then i / 2 else -1⟩
    ⟨200, fun i => if i % 2 = 0 then 0 else 1⟩
    ⟨100, fun _ => -1⟩ ⟨8, 101, fun _ => 0⟩ ⟨0, fun _ => 0⟩ ⟨100, fun i => i⟩
    ⟨0, 0, 0, 0, 0, 0⟩ 0


/-! ## Coverage of the supernodes -/

/-- Every supernode of `[0, nsupernodes)` is an entry of `roots` or is listed
among the children of a supernode of `[0, nsupernodes)`. -/
def CoversSupernodes (info : SupernodeInfo) (roots : OrdinalArray) (nsupernodes : Int) : Prop :=
  ∀ s : Int, 0 ≤ s → s < nsupernodes →
    (∃ i : Int, 0 ≤ i ∧ i < roots.dimension_0 ∧ roots.val i = s) ∨
    ∃ p : Int, 0 ≤ p ∧ p < nsupernodes ∧ IsChild info p s

/-- How many times the call of kernel `k` for supernode `s` is in the list. -/
def callCount (k : Kernel) (s : Int) (L : List (Kernel × Int)) : Nat :=
  L.countP fun c => decide (c = (k, s))

/-- The pool never answers `NULL`. -/
def PoolNeverFails {V σ : Type} (E : Env V σ) : Prop :=
  ∀ (st : σ) (bufsize : Nat), (E.pool_allocate st bufsize).1 ≠ 0


/-! ## The residual -/

/-- A counted loop `for (i = ibeg; i < iend; ++i) s = body(i, s)` on a value,
given its trip count and `ibeg`. -/
def foldRange {S : Type} (body : Int → S → S) : Nat → Int → S → S
  | 0, _, s => s
  | k + 1, i, s => foldRange body k (i + 1) (body i s)

/-- Modelled from the spec: `A.RowPtrBegin(i)` of the compressed-row matrix
class, which is not in this file ("compressed row layout — row-pointer array
(size m+1), column-index array, value array"): where row `i` starts. -/
def CrsMatrix.RowPtrBegin {V : Type} (A : CrsMatrix V) (i : Int) : Int := A.ap i

/-- Modelled from the spec: `A.RowPtrEnd(i)`, where row `i` ends, which is
where row `i + 1` starts. -/
def CrsMatrix.RowPtrEnd {V : Type} (A : CrsMatrix V) (i : Int) : Int := A.ap (i + 1)

/-- Modelled from the spec: `A.Col(j)`, the column of the `j`-th stored
entry. -/
def CrsMatrix.Col {V : Type} (A : CrsMatrix V) (j : Int) : Int := A.aj j

/-- Modelled from the spec: `A.Value(j)`, the value of the `j`-th stored
entry. -/
def CrsMatrix.Value {V : Type} (A : CrsMatrix V) (j : Int) : V := A.ax j

/-- The static `computeResidual(A, x, b)` over a field `V` with the square
root `sqrt`; `x(i, p)` and `b(i, p)` are read from the memory.  The state of
the two outer loops is the pair `(diff, norm)`. -/
def computeResidual {V : Type} [Field V] (sqrt : V → V) (mem : Memory V) (A : CrsMatrix V)
    (x b : MatrixView) : Except LogicError V :=
  match TACHO_TEST_FOR_EXCEPTION
      (A.NumRows ≠ A.NumCols ∨ A.NumRows ≠ b.dimension_0 ∨
        x.dimension_0 ≠ b.dimension_0 ∨ x.dimension_1 ≠ b.dimension_1)
      LogicError.dimensions_not_compatible with
  | some e => Except.error e
  | none =>
    let m : Int := A.NumRows
    let k : Int := b.dimension_1
    let r : V × V :=
      foldRange
        (fun p st =>
          foldRange
            (fun i st1 =>
              let jbeg : Int := A.RowPtrBegin i
              let jend : Int := A.RowPtrEnd i
              let s : V :=
                foldRange (fun j s => s + A.Value j * mem x.data (A.Col j) p)
                  (jend - jbeg).toNat jbeg 0
              let norm : V := st1.2 + mem b.data i p * mem b.data i p
              let diff : V := st1.1 + (mem b.data i p - s) * (mem b.data i p - s)
              (diff, norm))
            m.toNat 0 st)
        k.toNat 0 (0, 0)
    Except.ok (sqrt (r.1 / r.2))

/-- The spec's `A(i, c)`: the entry of the matrix in row `i` and column `c`,
the sum of the stored entries of row `i` with column `c`. -/
def specEntry {V : Type} [Field V] (A : CrsMatrix V) (i c : Int) : V :=
  ∑ t in Finset.range (A.ap (i + 1) - A.ap i),
    if A.aj ((A.ap i : Int) + t) = c then A.ax ((A.ap i : Int) + t) else 0

/-- The spec's `sum_j A(i,j)*x(j,p)`: entry `(i, p)` of the product `A x` of
the `m`-by-`m` matrix `A` with `x`. -/
def specProduct {V : Type} [Field V] (mem : Memory V) (A : CrsMatrix V) (x : MatrixView)
    (m : Nat) (i p : Int) : V :=
  ∑ c in Finset.range m, specEntry A i c * mem x.data c p

/-- The spec's `sum over p, i of (b(i,p) - sum_j A(i,j)*x(j,p))^2`: the square
of the two-norm of `A x - b`. -/
def specDiff {V : Type} [Field V] (mem : Memory V) (A : CrsMatrix V) (x b : MatrixView)
    (m k : Nat) : V :=
  ∑ p in Finset.range k, ∑ i in Finset.range m,
    (mem b.data i p - specProduct mem A x m i p) ^ 2

/-- The spec's `sum over p, i of b(i,p)^2`: the square of the two-norm of
`b`. -/
def specNorm {V : Type} [Field V] (mem : Memory V) (b : MatrixView) (m k : Nat) : V :=
  ∑ p in Finset.range k, ∑ i in Finset.range m, mem b.data i p ^ 2

/-- The identity matrix of order 2 in compressed-row form. -/
def identityCrs (V : Type) [Field V] : CrsMatrix V :=
  ⟨2, 2, 2, fun i => i.toNat, fun j => j, fun _ => 1⟩


/-! ## Memory tracking in double arithmetic -/

/-- What is assumed of the rounding `fl` of an exact result to a `double`: an
integer of magnitude at most `2^53` is a `double`, so it is its own
rounding. -/
def ExactOnIntegers (fl : ℚ → ℚ) : Prop :=
  ∀ z : Int, |(z : ℚ)| ≤ 2 ^ 53 → fl z = z

/-- `track_alloc(in)` with the rounding of the `double` addition made
explicit: `stat.m_used += in` stores `fl (m_used + in)`; the `max` of two
doubles is one of them. -/
def track_alloc_double (fl : ℚ → ℚ) (stat : Stat) (amount : ℚ) : Stat :=
  let used := fl (stat.m_used + amount)
  { stat with m_used := used, m_peak := max stat.m_peak used }

/-- `track_free(out)` with the rounding of the `double` subtraction made
explicit. -/
def track_free_double (fl : ℚ → ℚ) (stat : Stat) (amount : ℚ) : Stat :=
  { stat with m_used := fl (stat.m_used - amount) }

/-- The effect of one tracking call on `stat` in double arithmetic. -/
def StatOp.applyDouble (fl : ℚ → ℚ) (stat : Stat) : StatOp → Stat
  | StatOp.alloc a => track_alloc_double fl stat a
  | StatOp.free f => track_free_double fl stat f

/-- The `stat` member after `reset_stat()` and then the calls `ops` in order,
in double arithmetic with rounding `fl`. -/
def statAfterDouble (fl : ℚ → ℚ) (stat0 : Stat) (ops : List StatOp) : Stat :=
  ops.foldl (StatOp.applyDouble fl) (reset_stat stat0)

/-- A rounding that is exact on the integers: to the nearest integer. -/
def roundToInteger (q : ℚ) : ℚ := ((round q : Int) : ℚ)

end Tacho

/-! # Theorems -/

namespace Tacho

/-! ## Forests -/

theorem IsForest.rank_le {info : SupernodeInfo} {rank : Int → Nat} (hF : IsForest info rank)
    {a b : Int} (h : Relation.ReflTransGen (IsChild info) a b) : rank b ≤ rank a := by
  induction h with
  | refl => exact le_rfl
  | tail _ hc ih => exact le_trans (le_of_lt (hF.acyclic _ _ hc)) ih

theorem IsForest.rank_lt {info : SupernodeInfo} {rank : Int → Nat} (hF : IsForest info rank)
    {a b : Int} (h : IsDescendant info a b) : rank b < rank a := by
  obtain ⟨p, hp, hc⟩ := Relation.TransGen.tail'_iff.mp h
  exact lt_of_lt_of_le (hF.acyclic _ _ hc) (hF.rank_le hp)

theorem IsForest.parent_unique {info : SupernodeInfo} {rank : Int → Nat}
    (hF : IsForest info rank) {p q c : Int} (hp : IsChild info p c) (hq : IsChild info q c) :
    p = q := by
  obtain ⟨i, hi1, hi2, hi3⟩ := hp
  obtain ⟨j, hj1, hj2, hj3⟩ := hq
  exact (hF.one_parent p q i j hi1 hi2 hj1 hj2 (hi3.trans hj3.symm)).1

/-- Two ancestors of one supernode lie on one branch. -/
theorem IsForest.branch {info : SupernodeInfo} {rank : Int → Nat} (hF : IsForest info rank)
    {a b y : Int} (ha : Relation.ReflTransGen (IsChild info) a y)
    (hb : Relation.ReflTransGen (IsChild info) b y) :
    Relation.ReflTransGen (IsChild info) a b ∨ Relation.ReflTransGen (IsChild info) b a := by
  induction ha generalizing b with
  | refl => exact Or.inr hb
  | @tail y z hay hyz ih =>
    rcases Relation.ReflTransGen.cases_tail hb with h | ⟨q, hbq, hqz⟩
    · subst h
      exact Or.inl (Relation.ReflTransGen.tail hay hyz)
    · have : q = y := hF.parent_unique hqz hyz
      subst this
      exact ih hbq

/-- The subtrees of two different entries of one child range share no supernode. -/
theorem IsForest.siblings_disjoint {info : SupernodeInfo} {rank : Int → Nat}
    (hF : IsForest info rank) {r i j y : Int}
    (hi1 : (info.stree_ptr.val r : Int) ≤ i) (hi2 : i < (info.stree_ptr.val (r + 1) : Int))
    (hj1 : (info.stree_ptr.val r : Int) ≤ j) (hj2 : j < (info.stree_ptr.val (r + 1) : Int))
    (hij : i ≠ j)
    (ha : Relation.ReflTransGen (IsChild info) (info.stree_children.val i) y)
    (hb : Relation.ReflTransGen (IsChild info) (info.stree_children.val j) y) : False := by
  have key : ∀ i j : Int, (info.stree_ptr.val r : Int) ≤ i →
      i < (info.stree_ptr.val (r + 1) : Int) → (info.stree_ptr.val r : Int) ≤ j →
      j < (info.stree_ptr.val (r + 1) : Int) → i ≠ j →
      Relation.ReflTransGen (IsChild info) (info.stree_children.val i)
        (info.stree_children.val j) → False := by
    intro i j hi1 hi2 hj1 hj2 hij h
    rcases Relation.reflTransGen_iff_eq_or_transGen.mp h with h | h
    · exact hij (hF.one_parent r r i j hi1 hi2 hj1 hj2 h.symm).2
    · obtain ⟨p, hp, hc⟩ := Relation.TransGen.tail'_iff.mp h
      have hpr : p = r := hF.parent_unique hc ⟨j, hj1, hj2, rfl⟩
      subst hpr
      have h1 := hF.rank_le hp
      have h2 := hF.acyclic p _ ⟨i, hi1, hi2, rfl⟩
      omega
  rcases hF.branch ha hb with h | h
  · exact key i j hi1 hi2 hj1 hj2 hij h
  · exact key j i hj1 hj2 hi1 hi2 (Ne.symm hij) h

/-- The trees of two different roots share no supernode. -/
theorem IsForest.roots_disjoint {info : SupernodeInfo} {rank : Int → Nat}
    (hF : IsForest info rank) {roots : OrdinalArray} (hR : IsRootList info roots) {i j y : Int}
    (hi1 : 0 ≤ i) (hi2 : i < roots.dimension_0) (hj1 : 0 ≤ j) (hj2 : j < roots.dimension_0)
    (hij : i ≠ j)
    (ha : Relation.ReflTransGen (IsChild info) (roots.val i) y)
    (hb : Relation.ReflTransGen (IsChild info) (roots.val j) y) : False := by
  have key : ∀ i j : Int, 0 ≤ i → i < roots.dimension_0 → 0 ≤ j → j < roots.dimension_0 →
      i ≠ j → Relation.ReflTransGen (IsChild info) (roots.val i) (roots.val j) → False := by
    intro i j hi1 hi2 hj1 hj2 hij h
    rcases Relation.reflTransGen_iff_eq_or_transGen.mp h with h | h
    · exact hij (hR.distinct i j hi1 hi2 hj1 hj2 h.symm)
    · obtain ⟨p, _, hc⟩ := Relation.TransGen.tail'_iff.mp h
      exact hR.no_parent j hj1 hj2 p hc
  rcases hF.branch ha hb with h | h
  · exact key i j hi1 hi2 hj1 hj2 hij h
  · exact key j i hj1 hj2 hi1 hi2 (Ne.symm hij) h

/-! ## Loops -/

theorem mem_loopList {α : Type} (g : Int → List α) (k : Nat) (i : Int) (x : α) :
    x ∈ loopList g k i ↔ ∃ j : Int, i ≤ j ∧ j < i + k ∧ x ∈ g j := by
  induction k generalizing i with
  | zero =>
    simp only [loopList, List.not_mem_nil, false_iff]
    rintro ⟨j, h1, h2, _⟩
    omega
  | succ k ih =>
    simp only [loopList, List.mem_append, ih]
    constructor
    · rintro (h | ⟨j, h1, h2, h3⟩)
      · exact ⟨i, le_rfl, by omega, h⟩
      · exact ⟨j, by omega, by push_cast; omega, h3⟩
    · rintro ⟨j, h1, h2, h3⟩
      by_cases hji : j = i
      · subst hji
        exact Or.inl h3
      · exact Or.inr ⟨j, by omega, by push_cast at h2; omega, h3⟩

theorem pairwise_loopList {α : Type} (R : α → α → Prop) (g : Int → List α) (k : Nat) (i : Int)
    (h1 : ∀ j : Int, i ≤ j → j < i + k → (g j).Pairwise R)
    (h2 : ∀ j1 j2 : Int, i ≤ j1 → j1 < j2 → j2 < i + k →
      ∀ a ∈ g j1, ∀ b ∈ g j2, R a b) :
    (loopList g k i).Pairwise R := by
  induction k generalizing i with
  | zero => simp [loopList]
  | succ k ih =>
    simp only [loopList]
    rw [List.pairwise_append]
    refine ⟨h1 i le_rfl (by omega), ?_, ?_⟩
    · apply ih
      · intro j hj1 hj2
        exact h1 j (by omega) (by push_cast; omega)
      · intro j1 j2 hj1 hj12 hj2
        exact h2 j1 j2 (by omega) hj12 (by push_cast; omega)
    · intro a ha b hb
      obtain ⟨j, hj1, hj2, hj3⟩ := (mem_loopList g k (i + 1) b).mp hb
      exact h2 i j le_rfl (by omega) (by push_cast; omega) a ha b hj3

/-! ## Walks over a forest -/

theorem postOrder_sid (info : SupernodeInfo) (k1 k2 : Kernel) (fuel : Nat) (r : Int)
    (e : Kernel × Int) (he : e ∈ postOrder info k1 k2 fuel r) :
    Relation.ReflTransGen (IsChild info) r e.2 := by
  induction fuel generalizing r with
  | zero => simp [postOrder] at he
  | succ f ih =>
    simp only [postOrder, List.mem_append, mem_loopList] at he
    rcases he with ⟨j, hj1, hj2, hj3⟩ | he
    · exact Relation.ReflTransGen.head ⟨j, hj1, by omega, rfl⟩ (ih _ hj3)
    · simp only [List.mem_cons, List.mem_singleton, List.not_mem_nil, or_false] at he
      rcases he with he | he <;> subst he <;> exact Relation.ReflTransGen.refl

theorem preOrder_sid (info : SupernodeInfo) (k1 k2 : Kernel) (fuel : Nat) (r : Int)
    (e : Kernel × Int) (he : e ∈ preOrder info k1 k2 fuel r) :
    Relation.ReflTransGen (IsChild info) r e.2 := by
  induction fuel generalizing r with
  | zero => simp [preOrder] at he
  | succ f ih =>
    simp only [preOrder, List.mem_append, mem_loopList] at he
    rcases he with he | ⟨j, hj1, hj2, hj3⟩
    · simp only [List.mem_cons, List.mem_singleton, List.not_mem_nil, or_false] at he
      rcases he with he | he <;> subst he <;> exact Relation.ReflTransGen.refl
    · exact Relation.ReflTransGen.head ⟨j, hj1, by omega, rfl⟩ (ih _ hj3)

theorem postOrder_mem {info : SupernodeInfo} {rank : Int → Nat} (hF : IsForest info rank)
    (k1 k2 : Kernel) (fuel : Nat) (r d : Int) (hfuel : rank r < fuel)
    (hd : Relation.ReflTransGen (IsChild info) r d) :
    (k1, d) ∈ postOrder info k1 k2 fuel r ∧ (k2, d) ∈ postOrder info k1 k2 fuel r := by
  induction fuel generalizing r with
  | zero => omega
  | succ f ih =>
    simp only [postOrder, List.mem_append, mem_loopList]
    rcases Relation.ReflTransGen.cases_head hd with h | ⟨c, hc, hcd⟩
    · subst h
      exact ⟨Or.inr (by simp), Or.inr (by simp)⟩
    · have hr := hF.acyclic _ _ hc
      obtain ⟨j, hj1, hj2, hj3⟩ := hc
      subst hj3
      have := ih _ (by omega) hcd
      exact ⟨Or.inl ⟨j, hj1, by omega, this.1⟩, Or.inl ⟨j, hj1, by omega, this.2⟩⟩

theorem preOrder_mem {info : SupernodeInfo} {rank : Int → Nat} (hF : IsForest info rank)
    (k1 k2 : Kernel) (fuel : Nat) (r d : Int) (hfuel : rank r < fuel)
    (hd : Relation.ReflTransGen (IsChild info) r d) :
    (k1, d) ∈ preOrder info k1 k2 fuel r ∧ (k2, d) ∈ preOrder info k1 k2 fuel r := by
  induction fuel generalizing r with
  | zero => omega
  | succ f ih =>
    simp only [preOrder, List.mem_append, mem_loopList]
    rcases Relation.ReflTransGen.cases_head hd with h | ⟨c, hc, hcd⟩
    · subst h
      exact ⟨Or.inl (by simp), Or.inl (by simp)⟩
    · have hr := hF.acyclic _ _ hc
      obtain ⟨j, hj1, hj2, hj3⟩ := hc
      subst hj3
      have := ih _ (by omega) hcd
      exact ⟨Or.inr ⟨j, hj1, by omega, this.1⟩, Or.inr ⟨j, hj1, by omega, this.2⟩⟩

theorem postOrder_pairwise {info : SupernodeInfo} {rank : Int → Nat} (hF : IsForest info rank)
    (k1 k2 : Kernel) (fuel : Nat) (r : Int) :
    (postOrder info k1 k2 fuel r).Pairwise (PostRel info k1 k2) := by
  induction fuel generalizing r with
  | zero => simp [postOrder]
  | succ f ih =>
    simp only [postOrder]
    rw [List.pairwise_append]
    refine ⟨?_, ?_, ?_⟩
    · apply pairwise_loopList
      · intro j _ _
        exact ih _
      · intro j1 j2 h1 h12 h2 a ha b hb
        have hA := postOrder_sid info k1 k2 f _ a ha
        have hB := postOrder_sid info k1 k2 f _ b hb
        have hne : j1 ≠ j2 := by omega
        refine ⟨fun hd => ?_, fun he => ?_⟩
        · exact hF.siblings_disjoint h1 (by omega) (by omega) (by omega) hne
            (hA.trans hd.to_reflTransGen) hB
        · exact (hF.siblings_disjoint h1 (by omega) (by omega) (by omega) hne (he ▸ hA) hB).elim
    · have hrr : ¬ IsDescendant info r r := fun h => by
        have := hF.rank_lt h
        omega
      simp [PostRel, hrr]
    · intro a ha b hb
      obtain ⟨j, hj1, hj2, hj3⟩ := (mem_loopList _ _ _ a).mp ha
      have hA := postOrder_sid info k1 k2 f _ a hj3
      have h1 := hF.rank_le hA
      have h2 := hF.acyclic r _ ⟨j, hj1, by omega, rfl⟩
      have hb2 : b.2 = r := by
        simp only [List.mem_cons, List.mem_singleton, List.not_mem_nil, or_false] at hb
        rcases hb with hb | hb <;> subst hb <;> rfl
      refine ⟨fun hd => ?_, fun he => ?_⟩
      · have := hF.rank_lt hd
        rw [hb2] at this
        omega
      · rw [hb2] at he
        rw [he] at h1
        omega

theorem preOrder_pairwise {info : SupernodeInfo} {rank : Int → Nat} (hF : IsForest info rank)
    (k1 k2 : Kernel) (fuel : Nat) (r : Int) :
    (preOrder info k1 k2 fuel r).Pairwise (PreRel info k1 k2) := by
  induction fuel generalizing r with
  | zero => simp [preOrder]
  | succ f ih =>
    simp only [preOrder]
    rw [List.pairwise_append]
    refine ⟨?_, ?_, ?_⟩
    · have hrr : ¬ IsDescendant info r r := fun h => by
        have := hF.rank_lt h
        omega
      simp [PreRel, hrr]
    · apply pairwise_loopList
      · intro j _ _
        exact ih _
      · intro j1 j2 h1 h12 h2 a ha b hb
        have hA := preOrder_sid info k1 k2 f _ a ha
        have hB := preOrder_sid info k1 k2 f _ b hb
        have hne : j1 ≠ j2 := by omega
        refine ⟨fun hd => ?_, fun he => ?_⟩
        · exact hF.siblings_disjoint h1 (by omega) (by omega) (by omega) hne hA
            (hB.trans hd.to_reflTransGen)
        · exact (hF.siblings_disjoint h1 (by omega) (by omega) (by omega) hne (he ▸ hA) hB).elim
    · intro a ha b hb
      obtain ⟨j, hj1, hj2, hj3⟩ := (mem_loopList _ _ _ b).mp hb
      have hB := preOrder_sid info k1 k2 f _ b hj3
      have h1 := hF.rank_le hB
      have h2 := hF.acyclic r _ ⟨j, hj1, by omega, rfl⟩
      have ha2 : a.2 = r := by
        simp only [List.mem_cons, List.mem_singleton, List.not_mem_nil, or_false] at ha
        rcases ha with ha | ha <;> subst ha <;> rfl
      refine ⟨fun hd => ?_, fun he => ?_⟩
      · have := hF.rank_lt hd
        rw [ha2] at this
        omega
      · rw [ha2] at he
        rw [← he] at h1
        omega

/-! ## Sequencing rules -/

theorem kernelCalls_append (a b : List Event) :
    kernelCalls (a ++ b) = kernelCalls a ++ kernelCalls b := by
  simp [kernelCalls, List.filterMap_append]

theorem sat_andThen {α : Type} {P A : α → α → Prop}
    (htrans : ∀ a b c, P a b → P b c → P a c) (habort : ∀ a b c, P a b → A b c → A a c)
    {s : α} {o : Outcome α} {f : α → Outcome α} (ho : Outcome.Sat P A s o)
    (hf : ∀ s1, Outcome.Sat P A s1 (f s1)) : Outcome.Sat P A s (o.andThen f) := by
  cases o with
  | returned s1 =>
    have h2 := hf s1
    simp only [Outcome.andThen]
    simp only [Outcome.Sat] at ho
    cases hfo : f s1 with
    | returned s2 => rw [hfo] at h2; exact htrans _ _ _ ho h2
    | aborted s2 => rw [hfo] at h2; exact habort _ _ _ ho h2
    | raised e s2 => rw [hfo] at h2; exact h2
    | exhausted => trivial
  | aborted s1 => exact ho
  | raised e s1 => exact ho
  | exhausted => trivial

theorem sat_forLoop {α : Type} {P A : α → α → Prop} (hrefl : ∀ a, P a a)
    (htrans : ∀ a b c, P a b → P b c → P a c) (habort : ∀ a b c, P a b → A b c → A a c)
    (body : Int → α → Outcome α) (hbody : ∀ j s, Outcome.Sat P A s (body j s))
    (k : Nat) (i : Int) (s : α) : Outcome.Sat P A s (forLoop body k i s) := by
  induction k generalizing i s with
  | zero => exact hrefl s
  | succ k ih => exact sat_andThen htrans habort (hbody i s) (fun s1 => ih (i + 1) s1)

theorem link_andThen {V σ : Type} {I1 I2 : List (Kernel × Int)} {s : Run V σ}
    {o : Outcome (Run V σ)} {f : Run V σ → Outcome (Run V σ)} (ho : Link I1 s o)
    (hf : ∀ s1, Link I2 s1 (f s1)) : Link (I1 ++ I2) s (o.andThen f) := by
  cases o with
  | returned s1 =>
    have h2 := hf s1
    simp only [Outcome.andThen]
    obtain ⟨tr, htr, hk⟩ := ho
    cases hfo : f s1 with
    | returned s2 =>
      rw [hfo] at h2
      obtain ⟨tr2, htr2, hk2⟩ := h2
      exact ⟨tr ++ tr2, by rw [htr2, htr, List.append_assoc], by
        rw [kernelCalls_append, hk, hk2]⟩
    | aborted s2 =>
      rw [hfo] at h2
      obtain ⟨tr2, rest, htr2, hk2⟩ := h2
      exact ⟨tr ++ tr2, rest, by rw [htr2, htr, List.append_assoc], by
        rw [kernelCalls_append, hk, List.append_assoc, hk2]⟩
    | raised e s2 => rw [hfo] at h2; exact h2
    | exhausted => rw [hfo] at h2; exact h2
  | aborted s1 =>
    obtain ⟨tr, rest, htr, hk⟩ := ho
    exact ⟨tr, rest ++ I2, htr, by rw [← List.append_assoc, hk]⟩
  | raised e s1 => exact ho
  | exhausted => exact ho

theorem link_forLoop {V σ : Type} (g : Int → List (Kernel × Int))
    (body : Int → Run V σ → Outcome (Run V σ)) (k : Nat) (i : Int)
    (hbody : ∀ j : Int, i ≤ j → j < i + k → ∀ s, Link (g j) s (body j s)) (s : Run V σ) :
    Link (loopList g k i) s (forLoop body k i s) := by
  induction k generalizing i s with
  | zero => exact ⟨[], by simp, rfl⟩
  | succ k ih =>
    simp only [loopList, forLoop]
    refine link_andThen (hbody i le_rfl (by omega) s) (fun s1 => ih (i + 1) ?_ s1)
    intro j hj1 hj2
    exact hbody j (by omega) (by push_cast; omega)

/-! ## The work at one supernode -/

theorem serialCholBody_link {V σ : Type} (E : Env V σ) (info : SupernodeInfo) (sid : Int)
    (s : Run V σ) :
    Link [(Kernel.factorize, sid), (Kernel.update, sid)] s (serialCholBody E info sid s) := by
  unfold serialCholBody
  simp only [TACHO_TEST_FOR_ABORT, decide_eq_true_eq]
  split
  · exact ⟨_, _, by rw [List.append_assoc], by simp [kernelCalls, Event.call]; rfl⟩
  · exact ⟨_, by simp only [List.append_assoc]; rfl, by simp [kernelCalls, Event.call]⟩

theorem serialSolveLowerBody_link {V σ : Type} (E : Env V σ) (info : SupernodeInfo) (sid : Int)
    (s : Run V σ) :
    Link [(Kernel.solve_lower, sid), (Kernel.update_solve_lower, sid)] s
      (serialSolveLowerBody E info sid s) := by
  unfold serialSolveLowerBody
  simp only [TACHO_TEST_FOR_ABORT, decide_eq_true_eq]
  split
  · exact ⟨_, _, by rw [List.append_assoc], by simp [kernelCalls, Event.call]; rfl⟩
  · exact ⟨_, by simp only [List.append_assoc]; rfl, by simp [kernelCalls, Event.call]⟩

theorem serialSolveUpperBody_link {V σ : Type} (E : Env V σ) (info : SupernodeInfo) (sid : Int)
    (s : Run V σ) :
    Link [(Kernel.update_solve_upper, sid), (Kernel.solve_upper, sid)] s
      (serialSolveUpperBody E info sid s) := by
  unfold serialSolveUpperBody
  simp only [TACHO_TEST_FOR_ABORT, decide_eq_true_eq]
  split
  · exact ⟨_, _, by rw [List.append_assoc], by simp [kernelCalls, Event.call]; rfl⟩
  · exact ⟨_, by simp only [List.append_assoc]; rfl, by simp [kernelCalls, Event.call]⟩

/-! ## The traversals make the calls of the walks -/

theorem recursiveSerialChol_link {V σ : Type} (E : Env V σ) {info : SupernodeInfo}
    {rank : Int → Nat} (hF : IsForest info rank) (fuel : Nat) (sid : Int)
    (hfuel : rank sid < fuel) (s : Run V σ) :
    Link (postOrder info Kernel.factorize Kernel.update fuel sid) s
      (recursiveSerialChol E info fuel sid s) := by
  induction fuel generalizing sid s with
  | zero => omega
  | succ f ih =>
    simp only [recursiveSerialChol, postOrder]
    refine link_andThen (link_forLoop _ _ _ _ ?_ s) (serialCholBody_link E info sid)
    intro j hj1 hj2 s1
    have := hF.acyclic sid _ ⟨j, hj1, by omega, rfl⟩
    exact ih _ (by omega) s1

theorem recursiveSerialSolveLower_link {V σ : Type} (E : Env V σ) {info : SupernodeInfo}
    {rank : Int → Nat} (hF : IsForest info rank) (fuel : Nat) (sid : Int)
    (hfuel : rank sid < fuel) (s : Run V σ) :
    Link (postOrder info Kernel.solve_lower Kernel.update_solve_lower fuel sid) s
      (recursiveSerialSolveLower E info fuel sid false s) := by
  induction fuel generalizing sid s with
  | zero => omega
  | succ f ih =>
    simp only [recursiveSerialSolveLower, postOrder, Bool.false_eq_true, if_false]
    refine link_andThen (link_forLoop _ _ _ _ ?_ s) (serialSolveLowerBody_link E info sid)
    intro j hj1 hj2 s1
    have := hF.acyclic sid _ ⟨j, hj1, by omega, rfl⟩
    exact ih _ (by omega) s1

theorem recursiveSerialSolveUpper_link {V σ : Type} (E : Env V σ) {info : SupernodeInfo}
    {rank : Int → Nat} (hF : IsForest info rank) (fuel : Nat) (sid : Int)
    (hfuel : rank sid < fuel) (s : Run V σ) :
    Link (preOrder info Kernel.update_solve_upper Kernel.solve_upper fuel sid) s
      (recursiveSerialSolveUpper E info fuel sid false s) := by
  induction fuel generalizing sid s with
  | zero => omega
  | succ f ih =>
    simp only [recursiveSerialSolveUpper, preOrder, Bool.false_eq_true, if_false]
    refine link_andThen (serialSolveUpperBody_link E info sid s) (fun s1 => ?_)
    refine link_forLoop _ _ _ _ ?_ s1
    intro j hj1 hj2 s2
    have := hF.acyclic sid _ ⟨j, hj1, by omega, rfl⟩
    exact ih _ (by omega) s2

/-! ## From the order of a walk to the order of the record -/

theorem IsForest.irrefl {info : SupernodeInfo} {rank : Int → Nat} (hF : IsForest info rank)
    (x : Int) : ¬ IsDescendant info x x := fun h => by
  have := hF.rank_lt h
  omega

theorem postOrdered_of_pairwise (info : SupernodeInfo) (k1 k2 : Kernel) (hk : k1 ≠ k2)
    (I L rest : List (Kernel × Int)) (hI : L ++ rest = I)
    (hP : I.Pairwise (PostRel info k1 k2))
    (hM : ∀ e ∈ I, ∀ d : Int, Relation.ReflTransGen (IsChild info) e.2 d →
      (k1, d) ∈ I ∧ (k2, d) ∈ I)
    (hirr : ∀ x : Int, ¬ IsDescendant info x x) : PostOrdered info k1 k2 L := by
  intro A B e hL
  subst hL
  have hI2 : I = A ++ e :: (B ++ rest) := by rw [← hI]; simp
  rw [hI2, List.pairwise_append, List.pairwise_cons] at hP
  obtain ⟨_, ⟨hafter, _⟩, _⟩ := hP
  have heI : e ∈ I := by rw [hI2]; simp
  have hmem : ∀ c : Kernel × Int, c ∈ I → ¬ PostRel info k1 k2 e c → c ≠ e → c ∈ A := by
    intro c hc hrel hne
    rw [hI2] at hc
    rcases List.mem_append.mp hc with h | h
    · exact h
    · rcases List.mem_cons.mp h with h | h
      · exact (hne h).elim
      · exact (hrel (hafter c h)).elim
  refine ⟨fun d hd => ⟨?_, ?_, ?_⟩, fun he => ⟨?_, ?_⟩⟩
  · refine hmem _ (hM e heI d hd.to_reflTransGen).1 (fun h => h.1 hd) ?_
    rintro rfl
    exact hirr _ hd
  · refine hmem _ (hM e heI d hd.to_reflTransGen).2 (fun h => h.1 hd) ?_
    rintro rfl
    exact hirr _ hd
  · intro c hc hcd
    exact (hafter c (List.mem_append_left _ hc)).1 (hcd ▸ hd)
  · refine hmem _ (hM e heI e.2 Relation.ReflTransGen.refl).1 (fun h => ?_) ?_
    · exact hk ((h.2 rfl).1.symm.trans he)
    · intro h
      rw [← h] at he
      exact hk he
  · intro hB
    have := (hafter _ (List.mem_append_left _ hB)).2 rfl
    exact hk (this.1.symm.trans he)

theorem preOrdered_of_pairwise (info : SupernodeInfo) (k1 k2 : Kernel) (hk : k1 ≠ k2)
    (I L rest : List (Kernel × Int)) (hI : L ++ rest = I)
    (hP : I.Pairwise (PreRel info k1 k2))
    (hM : ∀ e ∈ I, (k1, e.2) ∈ I) : PreOrdered info k1 k2 L := by
  intro A B e hL
  subst hL
  have hI2 : I = A ++ e :: (B ++ rest) := by rw [← hI]; simp
  rw [hI2, List.pairwise_append, List.pairwise_cons] at hP
  obtain ⟨_, ⟨hafter, _⟩, hbefore⟩ := hP
  have heI : e ∈ I := by rw [hI2]; simp
  refine ⟨fun d hd c hc hcd => ?_, fun he => ⟨?_, ?_⟩⟩
  · exact (hbefore c hc e (List.mem_cons_self _ _)).1 (hcd ▸ hd)
  · have hc := hM e heI
    rw [hI2] at hc
    rcases List.mem_append.mp hc with h | h
    · exact h
    · rcases List.mem_cons.mp h with h | h
      · rw [← h] at he
        exact (hk he).elim
      · have := (hafter _ h).2 rfl
        exact (hk (this.1.symm.trans he)).elim
  · intro hB
    have := (hafter _ (List.mem_append_left _ hB)).2 rfl
    exact hk (this.1.symm.trans he)

/-! ## Trees with the same arrays -/

theorem isChild_congr {info info2 : SupernodeInfo} (h1 : info2.stree_ptr = info.stree_ptr)
    (h2 : info2.stree_children = info.stree_children) : IsChild info2 = IsChild info := by
  funext p c
  simp only [IsChild, h1, h2]

theorem isDescendant_congr {info info2 : SupernodeInfo} (h1 : info2.stree_ptr = info.stree_ptr)
    (h2 : info2.stree_children = info.stree_children) :
    IsDescendant info2 = IsDescendant info := by
  funext s d
  simp only [IsDescendant, isChild_congr h1 h2]

theorem IsForest.same_tree {info info2 : SupernodeInfo} {rank : Int → Nat}
    (h1 : info2.stree_ptr = info.stree_ptr) (h2 : info2.stree_children = info.stree_children)
    (hF : IsForest info rank) : IsForest info2 rank := by
  refine ⟨?_, ?_⟩
  · rw [isChild_congr h1 h2]
    exact hF.acyclic
  · rw [h1, h2]
    exact hF.one_parent

theorem IsRootList.same_roots {info info2 : SupernodeInfo} {roots : OrdinalArray}
    (h1 : info2.stree_ptr = info.stree_ptr) (h2 : info2.stree_children = info.stree_children)
    (hR : IsRootList info roots) : IsRootList info2 roots := by
  refine ⟨hR.distinct, ?_⟩
  rw [isChild_congr h1 h2]
  exact hR.no_parent

theorem postOrdered_congr {info info2 : SupernodeInfo} (h1 : info2.stree_ptr = info.stree_ptr)
    (h2 : info2.stree_children = info.stree_children) (k1 k2 : Kernel)
    (L : List (Kernel × Int)) (h : PostOrdered info2 k1 k2 L) : PostOrdered info k1 k2 L := by
  unfold PostOrdered at h ⊢
  rw [isDescendant_congr h1 h2] at h
  exact h

theorem preOrdered_congr {info info2 : SupernodeInfo} (h1 : info2.stree_ptr = info.stree_ptr)
    (h2 : info2.stree_children = info.stree_children) (k1 k2 : Kernel)
    (L : List (Kernel × Int)) (h : PreOrdered info2 k1 k2 L) : PreOrdered info k1 k2 L := by
  unfold PreOrdered at h ⊢
  rw [isDescendant_congr h1 h2] at h
  exact h

/-! ## Walks over all roots -/

theorem forest_postOrder_pairwise {info : SupernodeInfo} {rank : Int → Nat}
    (hF : IsForest info rank) {roots : OrdinalArray} (hR : IsRootList info roots)
    (k1 k2 : Kernel) (fuel : Nat) :
    (loopList (fun i => postOrder info k1 k2 fuel (roots.val i)) roots.dimension_0.toNat
      0).Pairwise (PostRel info k1 k2) := by
  apply pairwise_loopList
  · intro j _ _
    exact postOrder_pairwise hF k1 k2 fuel _
  · intro j1 j2 h1 h12 h2 a ha b hb
    have hA := postOrder_sid info k1 k2 fuel _ a ha
    have hB := postOrder_sid info k1 k2 fuel _ b hb
    have hne : j1 ≠ j2 := by omega
    refine ⟨fun hd => ?_, fun he => ?_⟩
    · exact hF.roots_disjoint hR h1 (by omega) (by omega) (by omega) hne
        (hA.trans hd.to_reflTransGen) hB
    · exact (hF.roots_disjoint hR h1 (by omega) (by omega) (by omega) hne (he ▸ hA) hB).elim

theorem forest_preOrder_pairwise {info : SupernodeInfo} {rank : Int → Nat}
    (hF : IsForest info rank) {roots : OrdinalArray} (hR : IsRootList info roots)
    (k1 k2 : Kernel) (fuel : Nat) :
    (loopList (fun i => preOrder info k1 k2 fuel (roots.val i)) roots.dimension_0.toNat
      0).Pairwise (PreRel info k1 k2) := by
  apply pairwise_loopList
  · intro j _ _
    exact preOrder_pairwise hF k1 k2 fuel _
  · intro j1 j2 h1 h12 h2 a ha b hb
    have hA := preOrder_sid info k1 k2 fuel _ a ha
    have hB := preOrder_sid info k1 k2 fuel _ b hb
    have hne : j1 ≠ j2 := by omega
    refine ⟨fun hd => ?_, fun he => ?_⟩
    · exact hF.roots_disjoint hR h1 (by omega) (by omega) (by omega) hne hA
        (hB.trans hd.to_reflTransGen)
    · exact (hF.roots_disjoint hR h1 (by omega) (by omega) (by omega) hne (he ▸ hA) hB).elim

theorem forest_postOrder_mem {info : SupernodeInfo} {rank : Int → Nat}
    (hF : IsForest info rank) (roots : OrdinalArray) (k1 k2 : Kernel) (fuel : Nat)
    (hfuel : ∀ i : Int, 0 ≤ i → i < roots.dimension_0 → rank (roots.val i) < fuel)
    (e : Kernel × Int)
    (he : e ∈ loopList (fun i => postOrder info k1 k2 fuel (roots.val i))
      roots.dimension_0.toNat 0)
    (d : Int) (hd : Relation.ReflTransGen (IsChild info) e.2 d) :
    (k1, d) ∈ loopList (fun i => postOrder info k1 k2 fuel (roots.val i))
        roots.dimension_0.toNat 0 ∧
      (k2, d) ∈ loopList (fun i => postOrder info k1 k2 fuel (roots.val i))
        roots.dimension_0.toNat 0 := by
  obtain ⟨j, hj1, hj2, hj3⟩ := (mem_loopList _ _ _ e).mp he
  have hA := postOrder_sid info k1 k2 fuel _ e hj3
  have := postOrder_mem hF k1 k2 fuel _ d (hfuel j hj1 (by omega)) (hA.trans hd)
  exact ⟨(mem_loopList _ _ _ _).mpr ⟨j, hj1, hj2, this.1⟩,
    (mem_loopList _ _ _ _).mpr ⟨j, hj1, hj2, this.2⟩⟩

theorem forest_preOrder_mem {info : SupernodeInfo} {rank : Int → Nat}
    (hF : IsForest info rank) (roots : OrdinalArray) (k1 k2 : Kernel) (fuel : Nat)
    (hfuel : ∀ i : Int, 0 ≤ i → i < roots.dimension_0 → rank (roots.val i) < fuel)
    (e : Kernel × Int)
    (he : e ∈ loopList (fun i => preOrder info k1 k2 fuel (roots.val i))
      roots.dimension_0.toNat 0)
    (d : Int) (hd : Relation.ReflTransGen (IsChild info) e.2 d) :
    (k1, d) ∈ loopList (fun i => preOrder info k1 k2 fuel (roots.val i))
        roots.dimension_0.toNat 0 ∧
      (k2, d) ∈ loopList (fun i => preOrder info k1 k2 fuel (roots.val i))
        roots.dimension_0.toNat 0 := by
  obtain ⟨j, hj1, hj2, hj3⟩ := (mem_loopList _ _ _ e).mp he
  have hA := preOrder_sid info k1 k2 fuel _ e hj3
  have := preOrder_mem hF k1 k2 fuel _ d (hfuel j hj1 (by omega)) (hA.trans hd)
  exact ⟨(mem_loopList _ _ _ _).mpr ⟨j, hj1, hj2, this.1⟩,
    (mem_loopList _ _ _ _).mpr ⟨j, hj1, hj2, this.2⟩⟩

/-! ## The instance is a forest -/

theorem example_isForest : IsForest exampleTools._info exampleRank := by
  have hrange : ∀ p i : Int, (exampleTreePtr.val p : Int) ≤ i →
      i < (exampleTreePtr.val (p + 1) : Int) → p = 2 ∧ (i = 0 ∨ i = 1) := by
    intro p i h1 h2
    simp only [exampleTreePtr] at h1 h2
    split_ifs at h1 h2 <;> simp at h1 h2 <;> omega
  refine ⟨?_, ?_⟩
  · rintro p c ⟨i, h1, h2, h3⟩
    obtain ⟨hp, hi⟩ := hrange p i h1 h2
    subst hp
    have hc : c = 0 ∨ c = 1 := by
      rcases hi with hi | hi <;> subst hi <;>
        simp [exampleTools, NumericTools.construct, exampleTreeChildren] at h3 <;> omega
    rcases hc with hc | hc <;> subst hc <;> simp [exampleRank]
  · intro p q i j h1 h2 h3 h4 h5
    obtain ⟨hp, hi⟩ := hrange p i h1 h2
    obtain ⟨hq, hj⟩ := hrange q j h3 h4
    refine ⟨hp.trans hq.symm, ?_⟩
    rcases hi with hi | hi <;> rcases hj with hj | hj <;> subst hi <;> subst hj <;>
      simp [exampleTools, NumericTools.construct, exampleTreeChildren] at h5 ⊢

theorem example_isRootList : IsRootList exampleTools._info exampleTools._stree_roots := by
  refine ⟨?_, ?_⟩
  · intro i j h1 h2 h3 h4 _
    simp only [exampleTools, NumericTools.construct, exampleRoots] at h2 h4
    omega
  · rintro i _ _ p ⟨k, _, _, h3⟩
    simp only [exampleTools, NumericTools.construct, exampleRoots, exampleTreeChildren] at h3
    split_ifs at h3 <;> omega

theorem example_fuel (i : Int) (_h1 : 0 ≤ i) (_h2 : i < exampleTools._stree_roots.dimension_0) :
    exampleRank (exampleTools._stree_roots.val i) < 2 := by
  simp [exampleTools, NumericTools.construct, exampleRoots, exampleRank]

/-! ## From traversals to the member functions -/

theorem postOrder_congr {info info2 : SupernodeInfo} (h1 : info2.stree_ptr = info.stree_ptr)
    (h2 : info2.stree_children = info.stree_children) (k1 k2 : Kernel) (fuel : Nat) (r : Int) :
    postOrder info2 k1 k2 fuel r = postOrder info k1 k2 fuel r := by
  induction fuel generalizing r with
  | zero => rfl
  | succ f ih => simp only [postOrder, h1, h2, ih]

theorem preOrder_congr {info info2 : SupernodeInfo} (h1 : info2.stree_ptr = info.stree_ptr)
    (h2 : info2.stree_children = info.stree_children) (k1 k2 : Kernel) (fuel : Nat) (r : Int) :
    preOrder info2 k1 k2 fuel r = preOrder info k1 k2 fuel r := by
  induction fuel generalizing r with
  | zero => rfl
  | succ f ih => simp only [preOrder, h1, h2, ih]

theorem finishRun_link {V σ : Type} (self : NumericTools)
    (after : Run V σ → Outcome (Machine V))
    (hafter : ∀ s1, ∃ M1, after s1 = Outcome.returned M1 ∧ M1.trace = s1.trace)
    (I : List (Kernel × Int)) (s : Run V σ) (o : Outcome (Run V σ)) (h : Link I s o) :
    ∃ M1 tr, M1.trace = s.trace ++ tr ∧
      ((finishRun self after o = Outcome.returned M1 ∧ kernelCalls tr = I) ∨
       (finishRun self after o = Outcome.aborted M1 ∧ ∃ rest, kernelCalls tr ++ rest = I)) := by
  cases o with
  | returned s1 =>
    obtain ⟨tr, htr, hk⟩ := h
    obtain ⟨M1, hM1, hM1t⟩ := hafter s1
    exact ⟨M1, tr, by rw [hM1t, htr], Or.inl ⟨by simp only [finishRun]; exact hM1, hk⟩⟩
  | aborted s1 =>
    obtain ⟨tr, rest, htr, hk⟩ := h
    exact ⟨⟨self, s1.mem, s1.trace⟩, tr, htr, Or.inr ⟨rfl, rest, hk⟩⟩
  | raised e s1 => exact h.elim
  | exhausted => exact h.elim

theorem factorizeCholesky_Serial_link {V σ : Type} (E : Env V σ) (M : Machine V)
    (rank : Int → Nat) (hF : IsForest M.self._info rank) (fuel : Nat)
    (hroots : ∀ i : Int, 0 ≤ i → i < M.self._stree_roots.dimension_0 →
      rank (M.self._stree_roots.val i) < fuel)
    (seconds : Nat → ℚ) (ax : ValueArray) :
    ∃ M1 tr, M1.trace = M.trace ++ tr ∧
      ((factorizeCholesky_Serial E fuel seconds ax M = Outcome.returned M1 ∧
          kernelCalls tr =
            loopList (fun i => postOrder M.self._info Kernel.factorize Kernel.update fuel
              (M.self._stree_roots.val i)) M.self._stree_roots.dimension_0.toNat 0) ∨
       (factorizeCholesky_Serial E fuel seconds ax M = Outcome.aborted M1 ∧
          ∃ rest, kernelCalls tr ++ rest =
            loopList (fun i => postOrder M.self._info Kernel.factorize Kernel.update fuel
              (M.self._stree_roots.val i)) M.self._stree_roots.dimension_0.toNat 0)) := by
  have h1 : (factorizeSetup E seconds ax M).1._info.stree_ptr = M.self._info.stree_ptr := rfl
  have h2 : (factorizeSetup E seconds ax M).1._info.stree_children =
      M.self._info.stree_children := rfl
  have h3 : (factorizeSetup E seconds ax M).1._stree_roots = M.self._stree_roots := rfl
  have hL : Link
      (loopList (fun i => postOrder M.self._info Kernel.factorize Kernel.update fuel
        (M.self._stree_roots.val i)) M.self._stree_roots.dimension_0.toNat 0)
      ⟨(factorizeSetup E seconds ax M).2.2, (factorizeSetup E seconds ax M).2.1, M.trace⟩
      (forLoop (fun i s => recursiveSerialChol E (factorizeSetup E seconds ax M).1._info fuel
        (M.self._stree_roots.val i) s) M.self._stree_roots.dimension_0.toNat 0
        ⟨(factorizeSetup E seconds ax M).2.2, (factorizeSetup E seconds ax M).2.1, M.trace⟩) := by
    refine link_forLoop _ _ _ _ ?_ _
    intro j hj1 hj2 s1
    have h := recursiveSerialChol_link E (hF.same_tree h1 h2) fuel
      (M.self._stree_roots.val j) (hroots j hj1 (by omega)) s1
    rw [postOrder_congr h1 h2] at h
    exact h
  unfold factorizeCholesky_Serial
  simp only [h3]
  exact finishRun_link _ _ (fun s1 => ⟨_, rfl, rfl⟩) _ _ _ hL

/-- C1: in an elimination forest, the kernel calls of `recursiveSerialChol(r)`
put the factorize and update calls of every descendant of a supernode before the
calls of that supernode (and none after), so in `factorizeCholesky_Serial`
the update of every child is complete before its parent is factorized; both
runs end, and a run that returns has made the calls for its root(s). -/
theorem recursiveSerialChol_children_first {V σ : Type} (E : Env V σ) (M : Machine V)
    (rank : Int → Nat) (hF : IsForest M.self._info rank)
    (hR : IsRootList M.self._info M.self._stree_roots) (fuel : Nat)
    (hroots : ∀ i : Int, 0 ≤ i → i < M.self._stree_roots.dimension_0 →
      rank (M.self._stree_roots.val i) < fuel)
    (r : Int) (hr : rank r < fuel) (s : Run V σ) (seconds : Nat → ℚ) (ax : ValueArray) :
    (∃ s1 tr,
      ((recursiveSerialChol E M.self._info fuel r s = Outcome.returned s1 ∧
          (Kernel.factorize, r) ∈ kernelCalls tr ∧ (Kernel.update, r) ∈ kernelCalls tr) ∨
        recursiveSerialChol E M.self._info fuel r s = Outcome.aborted s1) ∧
      s1.trace = s.trace ++ tr ∧
      PostOrdered M.self._info Kernel.factorize Kernel.update (kernelCalls tr)) ∧
    (∃ M1 tr,
      ((factorizeCholesky_Serial E fuel seconds ax M = Outcome.returned M1 ∧
          ∀ i : Int, 0 ≤ i → i < M.self._stree_roots.dimension_0 →
            (Kernel.factorize, M.self._stree_roots.val i) ∈ kernelCalls tr ∧
            (Kernel.update, M.self._stree_roots.val i) ∈ kernelCalls tr) ∨
        factorizeCholesky_Serial E fuel seconds ax M = Outcome.aborted M1) ∧
      M1.trace = M.trace ++ tr ∧
      PostOrdered M.self._info Kernel.factorize Kernel.update (kernelCalls tr)) := by
  have hk : Kernel.factorize ≠ Kernel.update := by decide
  constructor
  · have hL := recursiveSerialChol_link E hF fuel r hr s
    have hord : ∀ L rest, L ++ rest = postOrder M.self._info Kernel.factorize Kernel.update
        fuel r → PostOrdered M.self._info Kernel.factorize Kernel.update L := by
      intro L rest h
      refine postOrdered_of_pairwise _ _ _ hk _ L rest h (postOrder_pairwise hF _ _ _ _) ?_
        hF.irrefl
      intro e he d hd
      exact postOrder_mem hF _ _ fuel r d hr ((postOrder_sid _ _ _ _ _ e he).trans hd)
    cases ho : recursiveSerialChol E M.self._info fuel r s with
    | returned s1 =>
      rw [ho] at hL
      obtain ⟨tr, htr, hk2⟩ := hL
      have hm := postOrder_mem hF Kernel.factorize Kernel.update fuel r r hr
        Relation.ReflTransGen.refl
      rw [← hk2] at hm
      exact ⟨s1, tr, Or.inl ⟨rfl, hm⟩, htr, hord _ [] (by rw [List.append_nil, hk2])⟩
    | aborted s1 =>
      rw [ho] at hL
      obtain ⟨tr, rest, htr, hk2⟩ := hL
      exact ⟨s1, tr, Or.inr rfl, htr, hord _ rest hk2⟩
    | raised e s1 => rw [ho] at hL; exact hL.elim
    | exhausted => rw [ho] at hL; exact hL.elim
  · obtain ⟨M1, tr, htr, h⟩ := factorizeCholesky_Serial_link E M rank hF fuel hroots seconds ax
    have hord : ∀ L rest, L ++ rest =
        loopList (fun i => postOrder M.self._info Kernel.factorize Kernel.update fuel
          (M.self._stree_roots.val i)) M.self._stree_roots.dimension_0.toNat 0 →
        PostOrdered M.self._info Kernel.factorize Kernel.update L := by
      intro L rest h
      exact postOrdered_of_pairwise _ _ _ hk _ L rest h (forest_postOrder_pairwise hF hR _ _ _)
        (forest_postOrder_mem hF _ _ _ fuel hroots) hF.irrefl
    rcases h with ⟨ho, hk2⟩ | ⟨ho, rest, hk2⟩
    · refine ⟨M1, tr, Or.inl ⟨ho, ?_⟩, htr, hord _ [] (by rw [List.append_nil, hk2])⟩
      intro i hi1 hi2
      rw [hk2]
      have := postOrder_mem hF Kernel.factorize Kernel.update fuel _ _ (hroots i hi1 hi2)
        Relation.ReflTransGen.refl
      exact ⟨(mem_loopList _ _ _ _).mpr ⟨i, hi1, by omega, this.1⟩,
        (mem_loopList _ _ _ _).mpr ⟨i, hi1, by omega, this.2⟩⟩
    · exact ⟨M1, tr, Or.inr ho, htr, hord _ rest hk2⟩

/-- The instance of C1: the arrow matrix of order 3 with root `2`; its
factorization returns after the calls for supernodes `0`, `1`, `2` in this
order. -/
theorem recursiveSerialChol_children_first_witness :
    (factorizeCholesky_Serial exampleEnv 2 (fun _ => 0) ⟨2048, 7⟩ exampleMachine =
        Outcome.returned exampleFactorRun ∧
      kernelCalls exampleFactorRun.trace =
        [(Kernel.factorize, 0), (Kernel.update, 0), (Kernel.factorize, 1), (Kernel.update, 1),
          (Kernel.factorize, 2), (Kernel.update, 2)]) ∧
    (∃ s1 tr,
      ((recursiveSerialChol exampleEnv exampleMachine.self._info 2 2 ⟨(16, 0), fun _ _ _ => 0, []⟩
            = Outcome.returned s1 ∧
          (Kernel.factorize, (2 : Int)) ∈ kernelCalls tr ∧
          (Kernel.update, (2 : Int)) ∈ kernelCalls tr) ∨
        recursiveSerialChol exampleEnv exampleMachine.self._info 2 2
            ⟨(16, 0), fun _ _ _ => 0, []⟩ = Outcome.aborted s1) ∧
      s1.trace = [] ++ tr ∧
      PostOrdered exampleMachine.self._info Kernel.factorize Kernel.update (kernelCalls tr)) ∧
    (∃ M1 tr,
      ((factorizeCholesky_Serial exampleEnv 2 (fun _ => 0) ⟨2048, 7⟩ exampleMachine
            = Outcome.returned M1 ∧
          ∀ i : Int, 0 ≤ i → i < exampleMachine.self._stree_roots.dimension_0 →
            (Kernel.factorize, exampleMachine.self._stree_roots.val i) ∈ kernelCalls tr ∧
            (Kernel.update, exampleMachine.self._stree_roots.val i) ∈ kernelCalls tr) ∨
        factorizeCholesky_Serial exampleEnv 2 (fun _ => 0) ⟨2048, 7⟩ exampleMachine
            = Outcome.aborted M1) ∧
      M1.trace = exampleMachine.trace ++ tr ∧
      PostOrdered exampleMachine.self._info Kernel.factorize Kernel.update (kernelCalls tr)) :=
  ⟨⟨rfl, by decide⟩,
    recursiveSerialChol_children_first exampleEnv exampleMachine exampleRank example_isForest
      example_isRootList 2 example_fuel 2 (by decide) ⟨(16, 0), fun _ _ _ => 0, []⟩
      (fun _ => 0) ⟨2048, 7⟩⟩

/-- C2: in an elimination forest, `recursiveSerialSolveLower(r)` walks in
post-order: the `solve_lower` and `update_solve_lower` calls of every
descendant of a supernode come before the calls of that supernode (and none
after), and at each supernode `solve_lower` comes before `update_solve_lower`;
the run ends, and a run that returns has made both calls for `r`. -/
theorem recursiveSerialSolveLower_post_order {V σ : Type} (E : Env V σ) (info : SupernodeInfo)
    (rank : Int → Nat) (hF : IsForest info rank) (fuel : Nat) (r : Int) (hr : rank r < fuel)
    (s : Run V σ) :
    ∃ s1 tr,
      ((recursiveSerialSolveLower E info fuel r false s = Outcome.returned s1 ∧
          (Kernel.solve_lower, r) ∈ kernelCalls tr ∧
          (Kernel.update_solve_lower, r) ∈ kernelCalls tr) ∨
        recursiveSerialSolveLower E info fuel r false s = Outcome.aborted s1) ∧
      s1.trace = s.trace ++ tr ∧
      PostOrdered info Kernel.solve_lower Kernel.update_solve_lower (kernelCalls tr) := by
  have hk : Kernel.solve_lower ≠ Kernel.update_solve_lower := by decide
  have hL := recursiveSerialSolveLower_link E hF fuel r hr s
  have hord : ∀ L rest, L ++ rest =
      postOrder info Kernel.solve_lower Kernel.update_solve_lower fuel r →
      PostOrdered info Kernel.solve_lower Kernel.update_solve_lower L := by
    intro L rest h
    refine postOrdered_of_pairwise _ _ _ hk _ L rest h (postOrder_pairwise hF _ _ _ _) ?_
      hF.irrefl
    intro e he d hd
    exact postOrder_mem hF _ _ fuel r d hr ((postOrder_sid _ _ _ _ _ e he).trans hd)
  cases ho : recursiveSerialSolveLower E info fuel r false s with
  | returned s1 =>
    rw [ho] at hL
    obtain ⟨tr, htr, hk2⟩ := hL
    have hm := postOrder_mem hF Kernel.solve_lower Kernel.update_solve_lower fuel r r hr
      Relation.ReflTransGen.refl
    rw [← hk2] at hm
    exact ⟨s1, tr, Or.inl ⟨rfl, hm⟩, htr, hord _ [] (by rw [List.append_nil, hk2])⟩
  | aborted s1 =>
    rw [ho] at hL
    obtain ⟨tr, rest, htr, hk2⟩ := hL
    exact ⟨s1, tr, Or.inr rfl, htr, hord _ rest hk2⟩
  | raised e s1 => rw [ho] at hL; exact hL.elim
  | exhausted => rw [ho] at hL; exact hL.elim

/-- The instance of C2: the arrow matrix of order 3 with root `2`. -/
theorem recursiveSerialSolveLower_post_order_witness :
    ∃ s1 tr,
      ((recursiveSerialSolveLower exampleEnv exampleTools._info 2 2 false
            ⟨(8, 0), fun _ _ _ => (0 : ℚ), []⟩ = Outcome.returned s1 ∧
          (Kernel.solve_lower, (2 : Int)) ∈ kernelCalls tr ∧
          (Kernel.update_solve_lower, (2 : Int)) ∈ kernelCalls tr) ∨
        recursiveSerialSolveLower exampleEnv exampleTools._info 2 2 false
            ⟨(8, 0), fun _ _ _ => (0 : ℚ), []⟩ = Outcome.aborted s1) ∧
      s1.trace = [] ++ tr ∧
      PostOrdered exampleTools._info Kernel.solve_lower Kernel.update_solve_lower
        (kernelCalls tr) :=
  recursiveSerialSolveLower_post_order exampleEnv exampleTools._info exampleRank
    example_isForest 2 2 (by decide) ⟨(8, 0), fun _ _ _ => (0 : ℚ), []⟩

/-! ## Forward and backward sweeps of the solve -/

theorem postOrder_kind (info : SupernodeInfo) (k1 k2 : Kernel) (fuel : Nat) (r : Int)
    (e : Kernel × Int) (he : e ∈ postOrder info k1 k2 fuel r) : e.1 = k1 ∨ e.1 = k2 := by
  induction fuel generalizing r with
  | zero => simp [postOrder] at he
  | succ f ih =>
    simp only [postOrder, List.mem_append, mem_loopList] at he
    rcases he with ⟨j, _, _, hj3⟩ | he
    · exact ih _ hj3
    · simp only [List.mem_cons, List.mem_singleton, List.not_mem_nil, or_false] at he
      rcases he with he | he <;> subst he <;> simp

theorem preOrder_kind (info : SupernodeInfo) (k1 k2 : Kernel) (fuel : Nat) (r : Int)
    (e : Kernel × Int) (he : e ∈ preOrder info k1 k2 fuel r) : e.1 = k1 ∨ e.1 = k2 := by
  induction fuel generalizing r with
  | zero => simp [preOrder] at he
  | succ f ih =>
    simp only [preOrder, List.mem_append, mem_loopList] at he
    rcases he with he | ⟨j, _, _, hj3⟩
    · simp only [List.mem_cons, List.mem_singleton, List.not_mem_nil, or_false] at he
      rcases he with he | he <;> subst he <;> simp
    · exact ih _ hj3

theorem forwardBeforeBackward_of_append (IL IU L rest : List (Kernel × Int))
    (hI : L ++ rest = IL ++ IU)
    (hL : ∀ e ∈ IL, e.1 = Kernel.solve_lower ∨ e.1 = Kernel.update_solve_lower)
    (hU : ∀ e ∈ IU, e.1 = Kernel.update_solve_upper ∨ e.1 = Kernel.solve_upper) :
    ForwardBeforeBackward L := by
  have hP : (IL ++ IU).Pairwise (fun a b =>
      (a.1 = Kernel.solve_lower ∨ a.1 = Kernel.update_solve_lower) ∨
        (b.1 = Kernel.update_solve_upper ∨ b.1 = Kernel.solve_upper)) := by
    rw [List.pairwise_append]
    refine ⟨?_, ?_, fun a ha b _ => Or.inl (hL a ha)⟩
    · exact List.Pairwise.imp_of_mem (fun {a b} ha _ _ => Or.inl (hL a ha))
        (List.pairwise_of_forall (fun _ _ => trivial))
    · exact List.Pairwise.imp_of_mem (fun {a b} _ hb _ => Or.inr (hU b hb))
        (List.pairwise_of_forall (fun _ _ => trivial))
  intro A B e hLe he c hc
  subst hLe
  have hI2 : IL ++ IU = A ++ e :: (B ++ rest) := by rw [← hI]; simp
  rw [hI2, List.pairwise_append, List.pairwise_cons] at hP
  obtain ⟨_, ⟨hafter, _⟩, _⟩ := hP
  have h := hafter c (List.mem_append_left _ hc)
  rcases he with he | he <;> rcases h with (h | h) | (h | h) <;>
    first
    | (rw [he] at h; exact absurd h (by decide))
    | (rw [h]; exact ⟨by decide, by decide⟩)

theorem solveCholesky_Serial_link {V σ : Type} (E : Env V σ) (scatter : Bool) (M : Machine V)
    (rank : Int → Nat) (hF : IsForest M.self._info rank) (fuel : Nat)
    (hroots : ∀ i : Int, 0 ≤ i → i < M.self._stree_roots.dimension_0 →
      rank (M.self._stree_roots.val i) < fuel)
    (seconds : Nat → ℚ) (x b t : MatrixView) (hpre : solvePreconditions M.self x b t = none) :
    ∃ M1 tr, M1.trace = M.trace ++ tr ∧
      ((solveCholesky_Serial E scatter fuel seconds x b t M = Outcome.returned M1 ∧
          kernelCalls tr =
            loopList (fun i => postOrder M.self._info Kernel.solve_lower
              Kernel.update_solve_lower fuel (M.self._stree_roots.val i))
              M.self._stree_roots.dimension_0.toNat 0 ++
            loopList (fun i => preOrder M.self._info Kernel.update_solve_upper
              Kernel.solve_upper fuel (M.self._stree_roots.val i))
              M.self._stree_roots.dimension_0.toNat 0) ∨
       (solveCholesky_Serial E scatter fuel seconds x b t M = Outcome.aborted M1 ∧
          ∃ rest, kernelCalls tr ++ rest =
            loopList (fun i => postOrder M.self._info Kernel.solve_lower
              Kernel.update_solve_lower fuel (M.self._stree_roots.val i))
              M.self._stree_roots.dimension_0.toNat 0 ++
            loopList (fun i => preOrder M.self._info Kernel.update_solve_upper
              Kernel.solve_upper fuel (M.self._stree_roots.val i))
              M.self._stree_roots.dimension_0.toNat 0)) := by
  have h1 : (solveSetup E scatter seconds x b t M).1._info.stree_ptr =
      M.self._info.stree_ptr := rfl
  have h2 : (solveSetup E scatter seconds x b t M).1._info.stree_children =
      M.self._info.stree_children := rfl
  have h3 : (solveSetup E scatter seconds x b t M).1._stree_roots = M.self._stree_roots := rfl
  have hL : Link
      (loopList (fun i => postOrder M.self._info Kernel.solve_lower
          Kernel.update_solve_lower fuel (M.self._stree_roots.val i))
          M.self._stree_roots.dimension_0.toNat 0 ++
        loopList (fun i => preOrder M.self._info Kernel.update_solve_upper
          Kernel.solve_upper fuel (M.self._stree_roots.val i))
          M.self._stree_roots.dimension_0.toNat 0)
      ⟨(solveSetup E scatter seconds x b t M).2.2, (solveSetup E scatter seconds x b t M).2.1,
        M.trace⟩
      ((forLoop (fun i s => recursiveSerialSolveLower E
          (solveSetup E scatter seconds x b t M).1._info fuel (M.self._stree_roots.val i) false s)
          M.self._stree_roots.dimension_0.toNat 0
          ⟨(solveSetup E scatter seconds x b t M).2.2,
            (solveSetup E scatter seconds x b t M).2.1, M.trace⟩).andThen
        (forLoop (fun i s => recursiveSerialSolveUpper E
          (solveSetup E scatter seconds x b t M).1._info fuel (M.self._stree_roots.val i) false s)
          M.self._stree_roots.dimension_0.toNat 0)) := by
    refine link_andThen (link_forLoop _ _ _ _ ?_ _) (fun s1 => link_forLoop _ _ _ _ ?_ s1)
    · intro j hj1 hj2 s1
      have h := recursiveSerialSolveLower_link E (hF.same_tree h1 h2) fuel
        (M.self._stree_roots.val j) (hroots j hj1 (by omega)) s1
      rw [postOrder_congr h1 h2] at h
      exact h
    · intro j hj1 hj2 s1
      have h := recursiveSerialSolveUpper_link E (hF.same_tree h1 h2) fuel
        (M.self._stree_roots.val j) (hroots j hj1 (by omega)) s1
      rw [preOrder_congr h1 h2] at h
      exact h
  unfold solveCholesky_Serial solveTraversal
  simp only [hpre, h3]
  exact finishRun_link _ _ (fun s1 => ⟨_, rfl, rfl⟩) _ _ _ hL

/-- C3: in an elimination forest, `recursiveSerialSolveUpper(r)` walks in
pre-order: at each supernode `update_solve_upper` comes before `solve_upper`,
and no call of a descendant of a supernode comes before a call of that
supernode; a run that returns has made both calls for every supernode of the
tree of `r`.  In `solveCholesky_Serial` no forward (lower) call comes after a
backward (upper) call, and a run that returns has made both sweeps. -/
theorem recursiveSerialSolveUpper_pre_order {V σ : Type} (E : Env V σ) (M : Machine V)
    (rank : Int → Nat) (hF : IsForest M.self._info rank) (fuel : Nat)
    (hroots : ∀ i : Int, 0 ≤ i → i < M.self._stree_roots.dimension_0 →
      rank (M.self._stree_roots.val i) < fuel)
    (r : Int) (hr : rank r < fuel) (s : Run V σ) (scatter : Bool) (seconds : Nat → ℚ)
    (x b t : MatrixView) (hpre : solvePreconditions M.self x b t = none) :
    (∃ s1 tr,
      ((recursiveSerialSolveUpper E M.self._info fuel r false s = Outcome.returned s1 ∧
          ∀ d : Int, d = r ∨ IsDescendant M.self._info r d →
            (Kernel.update_solve_upper, d) ∈ kernelCalls tr ∧
            (Kernel.solve_upper, d) ∈ kernelCalls tr) ∨
        recursiveSerialSolveUpper E M.self._info fuel r false s = Outcome.aborted s1) ∧
      s1.trace = s.trace ++ tr ∧
      PreOrdered M.self._info Kernel.update_solve_upper Kernel.solve_upper (kernelCalls tr)) ∧
    (∃ M1 tr,
      ((solveCholesky_Serial E scatter fuel seconds x b t M = Outcome.returned M1 ∧
          ∀ i : Int, 0 ≤ i → i < M.self._stree_roots.dimension_0 →
            (Kernel.solve_lower, M.self._stree_roots.val i) ∈ kernelCalls tr ∧
            (Kernel.solve_upper, M.self._stree_roots.val i) ∈ kernelCalls tr) ∨
        solveCholesky_Serial E scatter fuel seconds x b t M = Outcome.aborted M1) ∧
      M1.trace = M.trace ++ tr ∧ ForwardBeforeBackward (kernelCalls tr)) := by
  have hk : Kernel.update_solve_upper ≠ Kernel.solve_upper := by decide
  constructor
  · have hL := recursiveSerialSolveUpper_link E hF fuel r hr s
    have hord : ∀ L rest, L ++ rest =
        preOrder M.self._info Kernel.update_solve_upper Kernel.solve_upper fuel r →
        PreOrdered M.self._info Kernel.update_solve_upper Kernel.solve_upper L := by
      intro L rest h
      refine preOrdered_of_pairwise _ _ _ hk _ L rest h (preOrder_pairwise hF _ _ _ _) ?_
      intro e he
      exact (preOrder_mem hF _ _ fuel r e.2 hr (preOrder_sid _ _ _ _ _ e he)).1
    cases ho : recursiveSerialSolveUpper E M.self._info fuel r false s with
    | returned s1 =>
      rw [ho] at hL
      obtain ⟨tr, htr, hk2⟩ := hL
      refine ⟨s1, tr, Or.inl ⟨rfl, ?_⟩, htr, hord _ [] (by rw [List.append_nil, hk2])⟩
      intro d hd
      rw [hk2]
      exact preOrder_mem hF _ _ fuel r d hr (Relation.reflTransGen_iff_eq_or_transGen.mpr hd)
    | aborted s1 =>
      rw [ho] at hL
      obtain ⟨tr, rest, htr, hk2⟩ := hL
      exact ⟨s1, tr, Or.inr rfl, htr, hord _ rest hk2⟩
    | raised e s1 => rw [ho] at hL; exact hL.elim
    | exhausted => rw [ho] at hL; exact hL.elim
  · obtain ⟨M1, tr, htr, h⟩ :=
      solveCholesky_Serial_link E scatter M rank hF fuel hroots seconds x b t hpre
    have hord : ∀ L rest, L ++ rest =
        loopList (fun i => postOrder M.self._info Kernel.solve_lower
          Kernel.update_solve_lower fuel (M.self._stree_roots.val i))
          M.self._stree_roots.dimension_0.toNat 0 ++
        loopList (fun i => preOrder M.self._info Kernel.update_solve_upper
          Kernel.solve_upper fuel (M.self._stree_roots.val i))
          M.self._stree_roots.dimension_0.toNat 0 → ForwardBeforeBackward L := by
      intro L rest h
      refine forwardBeforeBackward_of_append _ _ L rest h ?_ ?_
      · intro e he
        obtain ⟨j, _, _, hj⟩ := (mem_loopList _ _ _ e).mp he
        exact postOrder_kind _ _ _ _ _ e hj
      · intro e he
        obtain ⟨j, _, _, hj⟩ := (mem_loopList _ _ _ e).mp he
        exact preOrder_kind _ _ _ _ _ e hj
    rcases h with ⟨ho, hk2⟩ | ⟨ho, rest, hk2⟩
    · refine ⟨M1, tr, Or.inl ⟨ho, ?_⟩, htr, hord _ [] (by rw [List.append_nil, hk2])⟩
      intro i hi1 hi2
      rw [hk2]
      have h1 := postOrder_mem hF Kernel.solve_lower Kernel.update_solve_lower fuel _ _
        (hroots i hi1 hi2) Relation.ReflTransGen.refl
      have h2 := preOrder_mem hF Kernel.update_solve_upper Kernel.solve_upper fuel _ _
        (hroots i hi1 hi2) Relation.ReflTransGen.refl
      exact ⟨List.mem_append_left _ ((mem_loopList _ _ _ _).mpr ⟨i, hi1, by omega, h1.1⟩),
        List.mem_append_right _ ((mem_loopList _ _ _ _).mpr ⟨i, hi1, by omega, h2.2⟩)⟩
    · exact ⟨M1, tr, Or.inr ho, htr, hord _ rest hk2⟩

/-- The instance of C3: the arrow matrix of order 3 after a factorization setup,
one right-hand side, views at three different addresses. -/
theorem recursiveSerialSolveUpper_pre_order_witness :
    solvePreconditions exampleFactored.self ⟨100, 3, 1⟩ ⟨200, 3, 1⟩ ⟨300, 3, 1⟩ = none ∧
    (∃ s1 tr,
      ((recursiveSerialSolveUpper exampleEnv exampleFactored.self._info 2 2 false
            ⟨(8, 0), fun _ _ _ => (0 : ℚ), []⟩ = Outcome.returned s1 ∧
          ∀ d : Int, d = 2 ∨ IsDescendant exampleFactored.self._info 2 d →
            (Kernel.update_solve_upper, d) ∈ kernelCalls tr ∧
            (Kernel.solve_upper, d) ∈ kernelCalls tr) ∨
        recursiveSerialSolveUpper exampleEnv exampleFactored.self._info 2 2 false
            ⟨(8, 0), fun _ _ _ => (0 : ℚ), []⟩ = Outcome.aborted s1) ∧
      s1.trace = [] ++ tr ∧
      PreOrdered exampleFactored.self._info Kernel.update_solve_upper Kernel.solve_upper
        (kernelCalls tr)) ∧
    (∃ M1 tr,
      ((solveCholesky_Serial exampleEnv true 2 (fun _ => 0) ⟨100, 3, 1⟩ ⟨200, 3, 1⟩
            ⟨300, 3, 1⟩ exampleFactored = Outcome.returned M1 ∧
          ∀ i : Int, 0 ≤ i → i < exampleFactored.self._stree_roots.dimension_0 →
            (Kernel.solve_lower, exampleFactored.self._stree_roots.val i) ∈ kernelCalls tr ∧
            (Kernel.solve_upper, exampleFactored.self._stree_roots.val i) ∈ kernelCalls tr) ∨
        solveCholesky_Serial exampleEnv true 2 (fun _ => 0) ⟨100, 3, 1⟩ ⟨200, 3, 1⟩
            ⟨300, 3, 1⟩ exampleFactored = Outcome.aborted M1) ∧
      M1.trace = exampleFactored.trace ++ tr ∧ ForwardBeforeBackward (kernelCalls tr)) :=
  ⟨by decide,
    recursiveSerialSolveUpper_pre_order exampleEnv exampleFactored exampleRank
      (@IsForest.same_tree exampleTools._info exampleFactored.self._info exampleRank rfl rfl
        example_isForest)
      2 (fun i h1 h2 => example_fuel i h1 h2) 2
      (by decide) ⟨(8, 0), fun _ _ _ => (0 : ℚ), []⟩ true (fun _ => 0) ⟨100, 3, 1⟩
      ⟨200, 3, 1⟩ ⟨300, 3, 1⟩ (by decide)⟩

/-! ## Invariants of the traversals -/

theorem recursiveSerialChol_sat {V σ : Type} (E : Env V σ) (info : SupernodeInfo)
    {P A : Run V σ → Run V σ → Prop} (hrefl : ∀ a, P a a)
    (htrans : ∀ a b c, P a b → P b c → P a c) (habort : ∀ a b c, P a b → A b c → A a c)
    (hbody : ∀ sid s, Outcome.Sat P A s (serialCholBody E info sid s))
    (fuel : Nat) (sid : Int) (s : Run V σ) :
    Outcome.Sat P A s (recursiveSerialChol E info fuel sid s) := by
  induction fuel generalizing sid s with
  | zero => trivial
  | succ f ih =>
    simp only [recursiveSerialChol]
    exact sat_andThen htrans habort
      (sat_forLoop hrefl htrans habort _ (fun j s1 => ih _ s1) _ _ s) (hbody sid)

theorem recursiveSerialSolveLower_sat {V σ : Type} (E : Env V σ) (info : SupernodeInfo)
    {P A : Run V σ → Run V σ → Prop} (hrefl : ∀ a, P a a)
    (htrans : ∀ a b c, P a b → P b c → P a c) (habort : ∀ a b c, P a b → A b c → A a c)
    (hbody : ∀ sid s, Outcome.Sat P A s (serialSolveLowerBody E info sid s))
    (fuel : Nat) (sid : Int) (final : Bool) (s : Run V σ) :
    Outcome.Sat P A s (recursiveSerialSolveLower E info fuel sid final s) := by
  induction fuel generalizing sid final s with
  | zero => trivial
  | succ f ih =>
    simp only [recursiveSerialSolveLower]
    refine sat_andThen htrans habort ?_ (hbody sid)
    cases final with
    | true => exact hrefl s
    | false => exact sat_forLoop hrefl htrans habort _ (fun j s1 => ih _ _ s1) _ _ s

theorem recursiveSerialSolveUpper_sat {V σ : Type} (E : Env V σ) (info : SupernodeInfo)
    {P A : Run V σ → Run V σ → Prop} (hrefl : ∀ a, P a a)
    (htrans : ∀ a b c, P a b → P b c → P a c) (habort : ∀ a b c, P a b → A b c → A a c)
    (hbody : ∀ sid s, Outcome.Sat P A s (serialSolveUpperBody E info sid s))
    (fuel : Nat) (sid : Int) (final : Bool) (s : Run V σ) :
    Outcome.Sat P A s (recursiveSerialSolveUpper E info fuel sid final s) := by
  induction fuel generalizing sid final s with
  | zero => trivial
  | succ f ih =>
    simp only [recursiveSerialSolveUpper]
    refine sat_andThen htrans habort (hbody sid s) (fun s1 => ?_)
    cases final with
    | true => exact hrefl s1
    | false => exact sat_forLoop hrefl htrans habort _ (fun j s2 => ih _ _ s2) _ _ s1

theorem solveTraversal_sat {V σ : Type} (E : Env V σ) (self : NumericTools)
    {P A : Run V σ → Run V σ → Prop} (hrefl : ∀ a, P a a)
    (htrans : ∀ a b c, P a b → P b c → P a c) (habort : ∀ a b c, P a b → A b c → A a c)
    (hlow : ∀ sid s, Outcome.Sat P A s (serialSolveLowerBody E self._info sid s))
    (hup : ∀ sid s, Outcome.Sat P A s (serialSolveUpperBody E self._info sid s))
    (fuel : Nat) (s : Run V σ) : Outcome.Sat P A s (solveTraversal E self fuel s) := by
  unfold solveTraversal
  refine sat_andThen htrans habort ?_ (fun s1 => ?_)
  · exact sat_forLoop hrefl htrans habort _
      (fun j s1 => recursiveSerialSolveLower_sat E _ hrefl htrans habort hlow fuel _ false s1)
      _ _ s
  · exact sat_forLoop hrefl htrans habort _
      (fun j s2 => recursiveSerialSolveUpper_sat E _ hrefl htrans habort hup fuel _ false s2)
      _ _ s1

theorem serialSolveLowerBody_not_raised {V σ : Type} (E : Env V σ) (info : SupernodeInfo)
    (sid : Int) (s : Run V σ) :
    Outcome.Sat (fun _ _ => True) (fun _ _ => True) s (serialSolveLowerBody E info sid s) := by
  unfold serialSolveLowerBody
  simp only [TACHO_TEST_FOR_ABORT, decide_eq_true_eq]
  split <;> trivial

theorem serialSolveUpperBody_not_raised {V σ : Type} (E : Env V σ) (info : SupernodeInfo)
    (sid : Int) (s : Run V σ) :
    Outcome.Sat (fun _ _ => True) (fun _ _ => True) s (serialSolveUpperBody E info sid s) := by
  unfold serialSolveUpperBody
  simp only [TACHO_TEST_FOR_ABORT, decide_eq_true_eq]
  split <;> trivial

theorem solveTraversal_not_raised {V σ : Type} (E : Env V σ) (self : NumericTools)
    (fuel : Nat) (s : Run V σ) (e : LogicError) (s1 : Run V σ) :
    solveTraversal E self fuel s ≠ Outcome.raised e s1 := by
  have h := solveTraversal_sat E self (P := fun _ _ => True) (A := fun _ _ => True)
    (fun _ => trivial) (fun _ _ _ _ _ => trivial) (fun _ _ _ _ _ => trivial)
    (serialSolveLowerBody_not_raised E _) (serialSolveUpperBody_not_raised E _) fuel s
  intro heq
  rw [heq] at h
  exact h

/-! ## Preconditions of the solve -/

theorem solvePreconditions_eq_none_iff (self : NumericTools) (x b t : MatrixView) :
    solvePreconditions self x b t = none ↔
      (x.dimension_0 = b.dimension_0 ∧ x.dimension_0 = t.dimension_0 ∧
        x.dimension_1 = b.dimension_1 ∧ x.dimension_1 = t.dimension_1) ∧
      (x.data ≠ b.data ∧ x.data ≠ t.data ∧ t.data ≠ b.data) ∧
      (self._info.super_panel_ptr.data ≠ 0 ∧ self._info.super_panel_buf.data ≠ 0) := by
  unfold solvePreconditions TACHO_TEST_FOR_EXCEPTION
  split_ifs with h1 h2 h3 <;> simp only [Option.orElse, reduceCtorEq, false_iff, true_iff] <;>
    tauto

theorem solveCholesky_Serial_raised_iff {V σ : Type} (E : Env V σ) (scatter : Bool)
    (fuel : Nat) (seconds : Nat → ℚ) (x b t : MatrixView) (M : Machine V) (e : LogicError)
    (M1 : Machine V) :
    solveCholesky_Serial E scatter fuel seconds x b t M = Outcome.raised e M1 ↔
      solvePreconditions M.self x b t = some e ∧ M1 = M := by
  unfold solveCholesky_Serial
  cases hpre : solvePreconditions M.self x b t with
  | some e2 =>
    simp only [Outcome.raised.injEq, Option.some.injEq]
    constructor
    · rintro ⟨h1, h2⟩
      exact ⟨h1, h2.symm⟩
    · rintro ⟨h1, h2⟩
      exact ⟨h1, h2.symm⟩
  | none =>
    simp only [reduceCtorEq, false_and, iff_false]
    intro h
    cases ho : solveTraversal E (solveSetup E scatter seconds x b t M).1 fuel
        ⟨(solveSetup E scatter seconds x b t M).2.2, (solveSetup E scatter seconds x b t M).2.1,
          M.trace⟩ with
    | returned s1 => rw [ho] at h; simp [finishRun] at h
    | aborted s1 => rw [ho] at h; simp [finishRun] at h
    | raised e2 s1 => exact solveTraversal_not_raised E _ fuel _ e2 s1 ho
    | exhausted => rw [ho] at h; simp [finishRun] at h

/-- C4: `solveCholesky_Serial(x, b, t)` raises `std::logic_error` exactly when
`x`, `b`, `t` do not all have the same two dimensions, or two of them share
their data pointer, or the info's `super_panel_ptr` or `super_panel_buf` is
not allocated. -/
theorem solveCholesky_Serial_logic_error_iff {V σ : Type} (E : Env V σ) (scatter : Bool)
    (fuel : Nat) (seconds : Nat → ℚ) (x b t : MatrixView) (M : Machine V) :
    (∃ e M1, solveCholesky_Serial E scatter fuel seconds x b t M = Outcome.raised e M1) ↔
      (¬ (x.dimension_0 = b.dimension_0 ∧ x.dimension_0 = t.dimension_0 ∧
          x.dimension_1 = b.dimension_1 ∧ x.dimension_1 = t.dimension_1) ∨
        (x.data = b.data ∨ x.data = t.data ∨ t.data = b.data) ∨
        (M.self._info.super_panel_ptr.data = 0 ∨ M.self._info.super_panel_buf.data = 0)) := by
  have hnone := solvePreconditions_eq_none_iff M.self x b t
  constructor
  · rintro ⟨e, M1, h⟩
    have h2 := ((solveCholesky_Serial_raised_iff E scatter fuel seconds x b t M e M1).mp h).1
    by_contra hcon
    have : solvePreconditions M.self x b t = none := by
      rw [hnone]
      tauto
    rw [this] at h2
    exact Option.noConfusion h2
  · intro h
    cases hpre : solvePreconditions M.self x b t with
    | some e =>
      exact ⟨e, M, (solveCholesky_Serial_raised_iff E scatter fuel seconds x b t M e M).mpr
        ⟨hpre, rfl⟩⟩
    | none =>
      rw [hnone] at hpre
      tauto

/-- C5: when `solveCholesky_Serial` raises its precondition error, nothing has
changed: the memory (the entries of `x` and `t` with it), the view `_info.x`,
the statistics and the whole object are as before the call; and a call on an
object as constructed, before any factorization, raises. -/
theorem solveCholesky_Serial_error_leaves_state {V σ : Type} (E : Env V σ) (scatter : Bool)
    (fuel : Nat) (seconds : Nat → ℚ) (x b t : MatrixView) (M : Machine V) (e : LogicError)
    (M1 : Machine V)
    (h : solveCholesky_Serial E scatter fuel seconds x b t M = Outcome.raised e M1)
    (m : Int) (ap : SizeArray) (aj perm peri : OrdinalArray) (nsupernodes : Int)
    (supernodes : OrdinalArray) (gid_ptr : SizeArray) (gid_colidx : OrdinalArray)
    (sid_ptr : SizeArray) (sid_colidx blk_colidx stree_parent : OrdinalArray)
    (stree_ptr : SizeArray) (stree_children stree_roots : OrdinalArray) (stat0 : Stat)
    (schur0 : Int) (mem0 : Memory V) :
    (M1 = M ∧ M1.mem = M.mem ∧ M1.self._info.x = M.self._info.x ∧
      M1.self.stat = M.self.stat ∧ M1.trace = M.trace) ∧
    ∃ e0, solveCholesky_Serial E scatter fuel seconds x b t
        ⟨NumericTools.construct m ap aj perm peri nsupernodes supernodes gid_ptr gid_colidx
          sid_ptr sid_colidx blk_colidx stree_parent stree_ptr stree_children stree_roots
          stat0 schur0, mem0, []⟩ =
      Outcome.raised e0
        ⟨NumericTools.construct m ap aj perm peri nsupernodes supernodes gid_ptr gid_colidx
          sid_ptr sid_colidx blk_colidx stree_parent stree_ptr stree_children stree_roots
          stat0 schur0, mem0, []⟩ := by
  constructor
  · have h2 := ((solveCholesky_Serial_raised_iff E scatter fuel seconds x b t M e M1).mp h).2
    subst h2
    exact ⟨rfl, rfl, rfl, rfl, rfl⟩
  · cases hpre : solvePreconditions
        (NumericTools.construct m ap aj perm peri nsupernodes supernodes gid_ptr gid_colidx
          sid_ptr sid_colidx blk_colidx stree_parent stree_ptr stree_children stree_roots
          stat0 schur0) x b t with
    | some e0 =>
      exact ⟨e0, (solveCholesky_Serial_raised_iff E scatter fuel seconds x b t _ e0 _).mpr
        ⟨hpre, rfl⟩⟩
    | none =>
      have h0 := ((solvePreconditions_eq_none_iff _ x b t).mp hpre).2.2.1
      exact (h0 rfl).elim

/-- The instance of C5: the solve on the object of the instance as
constructed raises and leaves the machine as it was. -/
theorem solveCholesky_Serial_error_leaves_state_witness :
    solveCholesky_Serial exampleEnv true 2 (fun _ => 0) ⟨100, 3, 1⟩ ⟨200, 3, 1⟩ ⟨300, 3, 1⟩
        exampleMachine =
      Outcome.raised LogicError.super_panel_not_allocated exampleMachine ∧
    (exampleMachine = exampleMachine ∧ exampleMachine.mem = exampleMachine.mem ∧
      exampleMachine.self._info.x = exampleMachine.self._info.x ∧
      exampleMachine.self.stat = exampleMachine.self.stat ∧
      exampleMachine.trace = exampleMachine.trace) :=
  ⟨rfl,
    (solveCholesky_Serial_error_leaves_state exampleEnv true 2 (fun _ => 0) ⟨100, 3, 1⟩
      ⟨200, 3, 1⟩ ⟨300, 3, 1⟩ exampleMachine LogicError.super_panel_not_allocated
      exampleMachine rfl 0 ⟨0, 0, fun _ => 0⟩ ⟨0, fun _ => 0⟩ ⟨0, fun _ => 0⟩ ⟨0, fun _ => 0⟩ 0
      ⟨0, fun _ => 0⟩ ⟨0, 0, fun _ => 0⟩ ⟨0, fun _ => 0⟩ ⟨0, 0, fun _ => 0⟩ ⟨0, fun _ => 0⟩
      ⟨0, fun _ => 0⟩ ⟨0, fun _ => 0⟩ ⟨0, 0, fun _ => 0⟩ ⟨0, fun _ => 0⟩ ⟨0, fun _ => 0⟩
      ⟨0, 0, 0, 0, 0, 0⟩ 0 (fun _ _ _ => 0)).1⟩

/-- C9: `exportFactorsToCrsMatrix(flag)` raises `std::logic_error` exactly when
the info's `super_panel_ptr` or `super_panel_buf` is not allocated, and
otherwise (and only then) returns the matrix of `createCrsMatrix(flag)`. -/
theorem exportFactorsToCrsMatrix_spec {V σ : Type} (E : Env V σ)
    (replace_value_with_one : Bool) (M : Machine V) :
    ((∃ e, exportFactorsToCrsMatrix E replace_value_with_one M = Except.error e) ↔
      (M.self._info.super_panel_ptr.data = 0 ∨ M.self._info.super_panel_buf.data = 0)) ∧
    ((∃ A, exportFactorsToCrsMatrix E replace_value_with_one M = Except.ok A) ↔
      ¬ (M.self._info.super_panel_ptr.data = 0 ∨ M.self._info.super_panel_buf.data = 0)) ∧
    (∀ A, exportFactorsToCrsMatrix E replace_value_with_one M = Except.ok A ↔
      (¬ (M.self._info.super_panel_ptr.data = 0 ∨ M.self._info.super_panel_buf.data = 0) ∧
        A = E.createCrsMatrix M.self._info M.mem replace_value_with_one)) := by
  unfold exportFactorsToCrsMatrix TACHO_TEST_FOR_EXCEPTION
  split_ifs with h
  · refine ⟨⟨fun _ => h, fun _ => ⟨_, rfl⟩⟩, ⟨?_, fun hn => (hn h).elim⟩, fun A => ⟨?_, ?_⟩⟩
    · rintro ⟨A, hA⟩
      exact hA.elim
    · intro hA
      exact hA.elim
    · rintro ⟨hn, _⟩
      exact (hn h).elim
  · refine ⟨⟨?_, fun hc => (h hc).elim⟩, ⟨fun _ => h, fun _ => ⟨_, rfl⟩⟩, fun A => ⟨?_, ?_⟩⟩
    · rintro ⟨e, he⟩
      exact he.elim
    · intro hA
      exact ⟨h, (Except.ok.inj hA).symm⟩
    · rintro ⟨_, hA⟩
      rw [hA]

/-! ## Allocation failure -/

theorem nullSafe_refl {V σ : Type} (a : Run V σ) : NullSafeReturn a a :=
  ⟨[], by simp, by simp⟩

theorem nullSafe_trans {V σ : Type} (a b c : Run V σ) (h1 : NullSafeReturn a b)
    (h2 : NullSafeReturn b c) : NullSafeReturn a c := by
  obtain ⟨tr1, ht1, hc1⟩ := h1
  obtain ⟨tr2, ht2, hc2⟩ := h2
  refine ⟨tr1 ++ tr2, by rw [ht2, ht1, List.append_assoc], ?_⟩
  intro e he
  rcases List.mem_append.mp he with h | h
  · exact hc1 e h
  · exact hc2 e h

theorem nullSafe_abort {V σ : Type} (a b c : Run V σ) (h1 : NullSafeReturn a b)
    (h2 : NullSafeAbort b c) : NullSafeAbort a c := by
  obtain ⟨tr1, ht1, hc1⟩ := h1
  obtain ⟨tr2, sid, bufsize, ht2, hc2⟩ := h2
  refine ⟨tr1 ++ tr2, sid, bufsize, by rw [ht2, ht1]; simp, ?_⟩
  intro e he
  rcases List.mem_append.mp he with h | h
  · exact hc1 e h
  · exact hc2 e h

theorem serialCholBody_abortsOnNull {V σ : Type} (E : Env V σ) (info : SupernodeInfo)
    (sid : Int) (s : Run V σ) : AbortsOnNull s (serialCholBody E info sid s) := by
  unfold AbortsOnNull serialCholBody
  simp only [TACHO_TEST_FOR_ABORT, decide_eq_true_eq]
  split
  · rename_i h
    exact ⟨[], sid, _, by rw [h, List.append_nil, List.append_assoc]; rfl, by simp⟩
  · rename_i h
    refine ⟨_, by simp only [List.append_assoc]; rfl, ?_⟩
    intro e he
    simp only [List.cons_append, List.nil_append, List.mem_cons, List.mem_singleton,
      List.not_mem_nil, or_false] at he
    rcases he with he | he | he | he <;> subst he <;> simp [Event.clean, h]

theorem serialSolveLowerBody_abortsOnNull {V σ : Type} (E : Env V σ) (info : SupernodeInfo)
    (sid : Int) (s : Run V σ) : AbortsOnNull s (serialSolveLowerBody E info sid s) := by
  unfold AbortsOnNull serialSolveLowerBody
  simp only [TACHO_TEST_FOR_ABORT, decide_eq_true_eq]
  split
  · rename_i h
    exact ⟨[], sid, _, by rw [h, List.append_nil, List.append_assoc]; rfl, by simp⟩
  · rename_i h
    refine ⟨_, by simp only [List.append_assoc]; rfl, ?_⟩
    intro e he
    simp only [List.cons_append, List.nil_append, List.mem_cons, List.mem_singleton,
      List.not_mem_nil, or_false] at he
    rcases he with he | he | he | he <;> subst he <;> simp [Event.clean, h]

theorem serialSolveUpperBody_abortsOnNull {V σ : Type} (E : Env V σ) (info : SupernodeInfo)
    (sid : Int) (s : Run V σ) : AbortsOnNull s (serialSolveUpperBody E info sid s) := by
  unfold AbortsOnNull serialSolveUpperBody
  simp only [TACHO_TEST_FOR_ABORT, decide_eq_true_eq]
  split
  · rename_i h
    exact ⟨[], sid, _, by rw [h, List.append_nil, List.append_assoc]; rfl, by simp⟩
  · rename_i h
    refine ⟨_, by simp only [List.append_assoc]; rfl, ?_⟩
    intro e he
    simp only [List.cons_append, List.nil_append, List.mem_cons, List.mem_singleton,
      List.not_mem_nil, or_false] at he
    rcases he with he | he | he | he <;> subst he <;> simp [Event.clean, h]

theorem link_not_exhausted {V σ : Type} {I : List (Kernel × Int)} {s : Run V σ}
    {o : Outcome (Run V σ)} (h : Link I s o) : o ≠ Outcome.exhausted := by
  intro ho
  rw [ho] at h
  exact h

/-- C10: in `recursiveSerialChol`, `recursiveSerialSolveLower` and
`recursiveSerialSolveUpper`, a `NULL` from the pool's `allocate` is followed
in the record by the abort for that supernode and by nothing else, and no
kernel is ever called on a null scratch buffer; the traversals raise no
exception, and in a forest with enough recursion budget they end. -/
theorem traversals_abort_on_null_buffer {V σ : Type} (E : Env V σ) (info : SupernodeInfo)
    (fuel : Nat) (sid : Int) (final : Bool) (s : Run V σ) :
    AbortsOnNull s (recursiveSerialChol E info fuel sid s) ∧
    AbortsOnNull s (recursiveSerialSolveLower E info fuel sid final s) ∧
    AbortsOnNull s (recursiveSerialSolveUpper E info fuel sid final s) ∧
    (∀ rank : Int → Nat, IsForest info rank → rank sid < fuel →
      recursiveSerialChol E info fuel sid s ≠ Outcome.exhausted ∧
      recursiveSerialSolveLower E info fuel sid false s ≠ Outcome.exhausted ∧
      recursiveSerialSolveUpper E info fuel sid false s ≠ Outcome.exhausted) := by
  refine ⟨?_, ?_, ?_, ?_⟩
  · exact recursiveSerialChol_sat E info nullSafe_refl nullSafe_trans nullSafe_abort
      (serialCholBody_abortsOnNull E info) fuel sid s
  · exact recursiveSerialSolveLower_sat E info nullSafe_refl nullSafe_trans nullSafe_abort
      (serialSolveLowerBody_abortsOnNull E info) fuel sid final s
  · exact recursiveSerialSolveUpper_sat E info nullSafe_refl nullSafe_trans nullSafe_abort
      (serialSolveUpperBody_abortsOnNull E info) fuel sid final s
  · intro rank hF hfuel
    exact ⟨link_not_exhausted (recursiveSerialChol_link E hF fuel sid hfuel s),
      link_not_exhausted (recursiveSerialSolveLower_link E hF fuel sid hfuel s),
      link_not_exhausted (recursiveSerialSolveUpper_link E hF fuel sid hfuel s)⟩

/-- The instance of C10: with a pool that has no room the factorization
traversal of the instance aborts at its first supernode, and the traversals
from the root end. -/
theorem traversals_abort_on_null_buffer_witness :
    recursiveSerialChol exampleEnv exampleTools._info 2 2 ⟨(0, 0), fun _ _ _ => (0 : ℚ), []⟩ =
      Outcome.aborted
        ⟨(0, 0), fun _ _ _ => (0 : ℚ), [Event.allocate 0 8 0, Event.abort 0]⟩ ∧
    AbortsOnNull ⟨(0, 0), fun _ _ _ => (0 : ℚ), []⟩
      (recursiveSerialChol exampleEnv exampleTools._info 2 2
        ⟨(0, 0), fun _ _ _ => (0 : ℚ), []⟩) ∧
    (recursiveSerialChol exampleEnv exampleTools._info 2 2
        ⟨(0, 0), fun _ _ _ => (0 : ℚ), []⟩ ≠ Outcome.exhausted ∧
      recursiveSerialSolveLower exampleEnv exampleTools._info 2 2 false
        ⟨(0, 0), fun _ _ _ => (0 : ℚ), []⟩ ≠ Outcome.exhausted ∧
      recursiveSerialSolveUpper exampleEnv exampleTools._info 2 2 false
        ⟨(0, 0), fun _ _ _ => (0 : ℚ), []⟩ ≠ Outcome.exhausted) :=
  ⟨rfl,
    (traversals_abort_on_null_buffer exampleEnv exampleTools._info 2 2 false
      ⟨(0, 0), fun _ _ _ => (0 : ℚ), []⟩).1,
    (traversals_abort_on_null_buffer exampleEnv exampleTools._info 2 2 false
      ⟨(0, 0), fun _ _ _ => (0 : ℚ), []⟩).2.2.2 exampleRank example_isForest (by decide)⟩

/-! ## Row permutations -/

theorem permuteRows_frame {V : Type} (scatter : Bool) (A B : MatrixView) (p : OrdinalArray)
    (k : Nat) (mem : Memory V) (ptr : Nat) (h : ptr ≠ A.data) :
    permuteRows scatter A B p k mem ptr = mem ptr := by
  induction k with
  | zero => rfl
  | succ k ih =>
    funext i j
    cases scatter <;> simp [permuteRows, copyRow, h, ih]

theorem permuteRows_gather {V : Type} (A B : MatrixView) (p : OrdinalArray) (k : Nat)
    (mem : Memory V) (hAB : A.data ≠ B.data) (i j : Int) (hi0 : 0 ≤ i) (hik : i < k)
    (hj0 : 0 ≤ j) (hjn : j < A.dimension_1) :
    permuteRows false A B p k mem A.data i j = mem B.data (p.val i) j := by
  induction k with
  | zero => simp at hik; omega
  | succ k ih =>
    simp only [permuteRows, Bool.false_eq_true, if_false, copyRow]
    by_cases hi : i = (k : Int)
    · subst hi
      simp only [hj0, hjn, and_self, if_true]
      rw [permuteRows_frame false A B p k mem B.data (Ne.symm hAB)]
    · simp only [hi, false_and, and_false, if_false]
      exact ih (by push_cast at hik; omega)

theorem permuteRows_scatter {V : Type} (A B : MatrixView) (p : OrdinalArray) (k : Nat)
    (mem : Memory V) (hAB : A.data ≠ B.data)
    (hinj : ∀ i i2 : Int, 0 ≤ i → i < k → 0 ≤ i2 → i2 < k → p.val i = p.val i2 → i = i2)
    (i j : Int) (hi0 : 0 ≤ i) (hik : i < k) (hj0 : 0 ≤ j) (hjn : j < A.dimension_1) :
    permuteRows true A B p k mem A.data (p.val i) j = mem B.data i j := by
  induction k with
  | zero => simp at hik; omega
  | succ k ih =>
    simp only [permuteRows, if_true, copyRow]
    by_cases hp : p.val i = p.val (k : Int)
    · have hik2 : i = (k : Int) :=
        hinj i k hi0 hik (by omega) (by push_cast; omega) hp
      subst hik2
      simp only [hj0, hjn, and_self, if_true]
      rw [permuteRows_frame true A B p k mem B.data (Ne.symm hAB)]
    · simp only [hp, false_and, and_false, if_false]
      have hne : i ≠ (k : Int) := fun h => hp (by rw [h])
      refine ih ?_ (by push_cast at hik; omega)
      intro a a2 ha0 hak ha20 ha2k
      exact hinj a a2 ha0 (by push_cast; omega) ha20 (by push_cast; omega)

theorem applyRowPermutation_frame {V : Type} (scatter : Bool) (mem : Memory V)
    (A B : MatrixView) (p : OrdinalArray) (ptr : Nat) (h : ptr ≠ A.data) :
    applyRowPermutation scatter mem A B p ptr = mem ptr :=
  permuteRows_frame scatter A B p _ mem ptr h

theorem applyRowPermutation_gather {V : Type} (mem : Memory V) (A B : MatrixView)
    (p : OrdinalArray) (hAB : A.data ≠ B.data) (i j : Int) (hi0 : 0 ≤ i)
    (him : i < A.dimension_0) (hj0 : 0 ≤ j) (hjn : j < A.dimension_1) :
    applyRowPermutation false mem A B p A.data i j = mem B.data (p.val i) j :=
  permuteRows_gather A B p _ mem hAB i j hi0 (by omega) hj0 hjn

theorem applyRowPermutation_scatter {V : Type} (mem : Memory V) (A B : MatrixView)
    (p : OrdinalArray) (hAB : A.data ≠ B.data) (hp : IsPermutation p A.dimension_0)
    (i j : Int) (hi0 : 0 ≤ i) (him : i < A.dimension_0) (hj0 : 0 ≤ j)
    (hjn : j < A.dimension_1) :
    applyRowPermutation true mem A B p A.data (p.val i) j = mem B.data i j :=
  permuteRows_scatter A B p _ mem hAB
    (fun a a2 h1 h2 h3 h4 => hp.injective a a2 h1 (by omega) h3 (by omega)) i j hi0 (by omega)
    hj0 hjn

theorem solveCholesky_Serial_returned_mem {V σ : Type} (E : Env V σ) (scatter : Bool)
    (fuel : Nat) (seconds : Nat → ℚ) (x b t : MatrixView) (M M1 : Machine V)
    (hret : solveCholesky_Serial E scatter fuel seconds x b t M = Outcome.returned M1) :
    solvePreconditions M.self x b t = none ∧
    ∃ s2, solveTraversal E (solveSetup E scatter seconds x b t M).1 fuel
        ⟨(solveSetup E scatter seconds x b t M).2.2, (solveSetup E scatter seconds x b t M).2.1,
          M.trace⟩ = Outcome.returned s2 ∧
      M1.mem = applyRowPermutation scatter s2.mem x t M.self._perm := by
  unfold solveCholesky_Serial at hret
  cases hpre : solvePreconditions M.self x b t with
  | some e => rw [hpre] at hret; exact Outcome.noConfusion hret
  | none =>
    rw [hpre] at hret
    refine ⟨rfl, ?_⟩
    simp only at hret
    cases ho : solveTraversal E (solveSetup E scatter seconds x b t M).1 fuel
        ⟨(solveSetup E scatter seconds x b t M).2.2, (solveSetup E scatter seconds x b t M).2.1,
          M.trace⟩ with
    | returned s2 =>
      rw [ho] at hret
      simp only [finishRun, Outcome.returned.injEq] at hret
      exact ⟨s2, rfl, by rw [← hret]; rfl⟩
    | aborted s2 => rw [ho] at hret; simp [finishRun] at hret
    | raised e s2 => rw [ho] at hret; simp [finishRun] at hret
    | exhausted => rw [ho] at hret; simp [finishRun] at hret

/-- C6: with `perm` and `peri` bijections of the row range such that
`perm[peri[i]] = i`, the two row permutations of `solveCholesky_Serial`
(`b` into `t` with `peri`, `t` into `x` with `perm`) compose to the identity:
if the tree traversal leaves the entries of `t` unchanged, the solve returns
`x(i, j) = b(i, j)` for every row and column.  It holds for both conventions
of the permutation utility. -/
theorem solveCholesky_Serial_round_trip {V σ : Type} (E : Env V σ) (scatter : Bool)
    (fuel : Nat) (seconds : Nat → ℚ) (x b t : MatrixView) (M M1 : Machine V)
    (hperm : IsPermutation M.self._perm x.dimension_0)
    (hperi : IsPermutation M.self._peri x.dimension_0)
    (hinv : ∀ i : Int, 0 ≤ i → i < x.dimension_0 →
      M.self._perm.val (M.self._peri.val i) = i)
    (htrav : ∀ s2, solveTraversal E (solveSetup E scatter seconds x b t M).1 fuel
        ⟨(solveSetup E scatter seconds x b t M).2.2, (solveSetup E scatter seconds x b t M).2.1,
          M.trace⟩ = Outcome.returned s2 →
      ∀ i j : Int, s2.mem t.data i j = (solveSetup E scatter seconds x b t M).2.1 t.data i j)
    (hret : solveCholesky_Serial E scatter fuel seconds x b t M = Outcome.returned M1)
    (i j : Int) (hi0 : 0 ≤ i) (him : i < x.dimension_0) (hj0 : 0 ≤ j)
    (hjn : j < x.dimension_1) :
    M1.mem x.data i j = M.mem b.data i j := by
  obtain ⟨hpre, s2, hs2, hM1⟩ :=
    solveCholesky_Serial_returned_mem E scatter fuel seconds x b t M M1 hret
  obtain ⟨⟨hd1, hd2, hd3, hd4⟩, ⟨hp1, hp2, hp3⟩, _⟩ :=
    (solvePreconditions_eq_none_iff M.self x b t).mp hpre
  have ht := htrav s2 hs2
  have hmem1 : (solveSetup E scatter seconds x b t M).2.1 =
      applyRowPermutation scatter M.mem t b M.self._peri := rfl
  rw [hM1]
  cases scatter with
  | false =>
    rw [applyRowPermutation_gather s2.mem x t _ hp2 i j hi0 him hj0 hjn, ht, hmem1]
    have hpi := hperm.maps i hi0 him
    rw [applyRowPermutation_gather M.mem t b _ hp3 _ j hpi.1 (by omega) hj0 (by omega)]
    have hq := hperi.maps _ hpi.1 hpi.2
    have : M.self._peri.val (M.self._perm.val i) = i :=
      hperm.injective _ _ hq.1 hq.2 hi0 him (hinv _ hpi.1 hpi.2)
    rw [this]
  | true =>
    obtain ⟨k, hk0, hkm, hk⟩ := hperm.surjective i hi0 him
    obtain ⟨i2, hi20, hi2m, hi2⟩ := hperi.surjective k hk0 hkm
    have hii : i = i2 := by
      rw [← hk, ← hi2]
      exact hinv i2 hi20 hi2m
    rw [← hk, applyRowPermutation_scatter s2.mem x t _ hp2 hperm k j hk0 hkm hj0 hjn, ht,
      hmem1, ← hi2,
      applyRowPermutation_scatter M.mem t b _ hp3 (by rw [← hd2]; exact hperi) i2 j hi20
        (by omega) hj0 (by omega),
      hi2, hk, hii]

theorem serialSolveLowerBody_mem {V σ : Type} (E : Env V σ) (info : SupernodeInfo) (p : Nat)
    (h1 : ∀ mem v sid, E.solve_lower info mem v sid p = mem p)
    (h2 : ∀ mem v sid, E.update_solve_lower info mem v sid p = mem p) (sid : Int)
    (s : Run V σ) :
    Outcome.Sat (fun a c => c.mem p = a.mem p) (fun _ _ => True) s
      (serialSolveLowerBody E info sid s) := by
  unfold serialSolveLowerBody
  simp only [TACHO_TEST_FOR_ABORT, decide_eq_true_eq]
  split
  · trivial
  · simp only [Outcome.Sat, h1, h2]

theorem serialSolveUpperBody_mem {V σ : Type} (E : Env V σ) (info : SupernodeInfo) (p : Nat)
    (h1 : ∀ mem v sid, E.update_solve_upper info mem v sid p = mem p)
    (h2 : ∀ mem v sid, E.solve_upper info mem v sid p = mem p) (sid : Int)
    (s : Run V σ) :
    Outcome.Sat (fun a c => c.mem p = a.mem p) (fun _ _ => True) s
      (serialSolveUpperBody E info sid s) := by
  unfold serialSolveUpperBody
  simp only [TACHO_TEST_FOR_ABORT, decide_eq_true_eq]
  split
  · trivial
  · simp only [Outcome.Sat, h1, h2]

/-- When the four solve kernels leave the entries at address `p` as they are,
so do the traversals of the solve. -/
theorem solveTraversal_mem {V σ : Type} (E : Env V σ) (self : NumericTools) (p : Nat)
    (h1 : ∀ mem v sid, E.solve_lower self._info mem v sid p = mem p)
    (h2 : ∀ mem v sid, E.update_solve_lower self._info mem v sid p = mem p)
    (h3 : ∀ mem v sid, E.update_solve_upper self._info mem v sid p = mem p)
    (h4 : ∀ mem v sid, E.solve_upper self._info mem v sid p = mem p)
    (fuel : Nat) (s s2 : Run V σ) (h : solveTraversal E self fuel s = Outcome.returned s2)
    (i j : Int) : s2.mem p i j = s.mem p i j := by
  have hs := solveTraversal_sat E self (P := fun a c => c.mem p = a.mem p)
    (A := fun _ _ => True) (fun _ => rfl) (fun _ _ _ hab hbc => hbc.trans hab)
    (fun _ _ _ _ _ => trivial) (serialSolveLowerBody_mem E _ p h1 h2)
    (serialSolveUpperBody_mem E _ p h3 h4) fuel s
  rw [h] at hs
  exact congrFun (congrFun hs i) j

theorem example_isPermutation : IsPermutation (OrdinalArray.ofList [1, 0, 2]) 3 := by
  refine ⟨?_, ?_, ?_⟩
  · intro i h0 h3
    interval_cases i <;> simp [OrdinalArray.ofList]
  · intro i j hi0 hi3 hj0 hj3 h
    interval_cases i <;> interval_cases j <;> simp [OrdinalArray.ofList] at h ⊢
  · intro k h0 h3
    interval_cases k
    · exact ⟨1, by decide, by decide, by simp [OrdinalArray.ofList]⟩
    · exact ⟨0, by decide, by decide, by simp [OrdinalArray.ofList]⟩
    · exact ⟨2, by decide, by decide, by simp [OrdinalArray.ofList]⟩

theorem example_inverse (i : Int) (h0 : 0 ≤ i) (h3 : i < 3) :
    (OrdinalArray.ofList [1, 0, 2]).val ((OrdinalArray.ofList [1, 0, 2]).val i) = i := by
  interval_cases i <;> simp [OrdinalArray.ofList]

/-- The instance of C6: rows permuted by the swap of the first two, one
right-hand side `b = [1, 2, 3]`; the solve of the instance returns, and entry
`(1, 0)` of `x` is entry `(1, 0)` of `b`. -/
theorem solveCholesky_Serial_round_trip_witness :
    solveCholesky_Serial exampleEnv true 2 (fun _ => 0) ⟨100, 3, 1⟩ ⟨200, 3, 1⟩ ⟨300, 3, 1⟩
        exampleFactored = Outcome.returned exampleSolved ∧
    exampleSolved.mem 100 1 0 = exampleFactored.mem 200 1 0 :=
  ⟨rfl,
    solveCholesky_Serial_round_trip exampleEnv true 2 (fun _ => 0) ⟨100, 3, 1⟩ ⟨200, 3, 1⟩
      ⟨300, 3, 1⟩ exampleFactored exampleSolved example_isPermutation example_isPermutation
      example_inverse
      (fun s2 h i j =>
        solveTraversal_mem exampleEnv _ 300 (fun _ _ _ => rfl) (fun _ _ _ => rfl)
          (fun _ _ _ => rfl) (fun _ _ _ => rfl) 2 _ s2 h i j)
      rfl 1 0 (by decide) (by decide) (by decide) (by decide)⟩

/-! ## Two runs side by side -/

theorem rel_andThen {α : Type} {R : α → α → Prop} {o o2 : Outcome α}
    {f f2 : α → Outcome α} (ho : Outcome.Rel R o o2)
    (hf : ∀ a b, R a b → Outcome.Rel R (f a) (f2 b)) :
    Outcome.Rel R (o.andThen f) (o2.andThen f2) := by
  cases o <;> cases o2 <;> simp only [Outcome.Rel] at ho <;>
    first
    | exact ho.elim
    | exact hf _ _ ho
    | exact ho

theorem rel_forLoop {α : Type} {R : α → α → Prop} (body body2 : Int → α → Outcome α)
    (hbody : ∀ j a b, R a b → Outcome.Rel R (body j a) (body2 j b)) (k : Nat) (i : Int)
    (s s2 : α) (hs : R s s2) :
    Outcome.Rel R (forLoop body k i s) (forLoop body2 k i s2) := by
  induction k generalizing i s s2 with
  | zero => exact hs
  | succ k ih => exact rel_andThen (hbody i s s2 hs) (fun a b hab => ih (i + 1) a b hab)

theorem recursiveSerialChol_rel {V σ : Type} (E : Env V σ) (info info2 : SupernodeInfo)
    (h1 : info.stree_ptr = info2.stree_ptr) (h2 : info.stree_children = info2.stree_children)
    {R : Run V σ → Run V σ → Prop}
    (hbody : ∀ sid a b, R a b →
      Outcome.Rel R (serialCholBody E info sid a) (serialCholBody E info2 sid b))
    (fuel : Nat) (sid : Int) (s s2 : Run V σ) (hs : R s s2) :
    Outcome.Rel R (recursiveSerialChol E info fuel sid s)
      (recursiveSerialChol E info2 fuel sid s2) := by
  induction fuel generalizing sid s s2 with
  | zero => trivial
  | succ f ih =>
    simp only [recursiveSerialChol, h1, h2]
    exact rel_andThen
      (rel_forLoop (fun i s1 => recursiveSerialChol E info f (info2.stree_children.val i) s1)
        (fun i s1 => recursiveSerialChol E info2 f (info2.stree_children.val i) s1)
        (fun j a b hab => ih (info2.stree_children.val j) a b hab) _ _ s s2 hs)
      (hbody sid)

theorem serialCholBody_rel {V σ : Type} (E : Env V σ) (ax : ValueArray)
    (hE : FactorFootprint E ax) (info info2 : SupernodeInfo) (hI : SameFactorInfo info info2)
    (sid : Int) (a b : Run V σ)
    (hab : SamePoolAndBuffer info.super_panel_buf.data info2.super_panel_buf.data a b) :
    Outcome.Rel (SamePoolAndBuffer info.super_panel_buf.data info2.super_panel_buf.data)
      (serialCholBody E info sid a) (serialCholBody E info2 sid b) := by
  obtain ⟨hpool, hmem⟩ := hab
  unfold serialCholBody
  simp only [← hE.panel_size info info2 sid hI.symbolic, ← hI.max_schur_size, ← hpool,
    TACHO_TEST_FOR_ABORT, decide_eq_true_eq]
  split
  · trivial
  · exact ⟨rfl, hE.factorize_update info info2 a.mem b.mem _ sid _ _ hI hmem⟩

theorem factorizeSetup_mem_eq {V σ : Type} (E : Env V σ) (seconds : Nat → ℚ)
    (ax : ValueArray) (M : Machine V) :
    (factorizeSetup E seconds ax M).2.1 =
      E.copySparseToSuperPanels (factorizeSetup E seconds ax M).1._info
        (E.allocateSuperPanels M.self._info M.mem ⟨M.self._m + 1, fun _ => 0⟩).2.2.2
        M.self._ap M.self._aj ax M.self._perm M.self._peri ⟨M.self._m + 1, fun _ => 0⟩ :=
  rfl

theorem factorizeSetup_pool_eq {V σ : Type} (E : Env V σ) (seconds : Nat → ℚ)
    (ax : ValueArray) (M : Machine V) :
    (factorizeSetup E seconds ax M).2.2 =
      E.pool_create
        (size_t ((factorizeSetup E seconds ax M).1._info.max_schur_size *
          ((factorizeSetup E seconds ax M).1._info.max_schur_size + 1) * E.value_size)) 1
        (size_t ((factorizeSetup E seconds ax M).1._info.max_schur_size *
          ((factorizeSetup E seconds ax M).1._info.max_schur_size + 1) * E.value_size))
        (size_t ((factorizeSetup E seconds ax M).1._info.max_schur_size *
          ((factorizeSetup E seconds ax M).1._info.max_schur_size + 1) * E.value_size)) :=
  rfl

theorem factorizeSetup_rel {V σ : Type} (E : Env V σ) (ax : ValueArray)
    (hE : FactorFootprint E ax) (seconds seconds2 : Nat → ℚ) (M M2 : Machine V)
    (hS : SameSymbolic M.self M2.self) (hax : M.mem ax.data = M2.mem ax.data) :
    SameFactorInfo (factorizeSetup E seconds ax M).1._info
        (factorizeSetup E seconds2 ax M2).1._info ∧
      (factorizeSetup E seconds ax M).1._stree_roots =
        (factorizeSetup E seconds2 ax M2).1._stree_roots ∧
      (factorizeSetup E seconds ax M).2.2 = (factorizeSetup E seconds2 ax M2).2.2 ∧
      (factorizeSetup E seconds ax M).2.1
          (factorizeSetup E seconds ax M).1._info.super_panel_buf.data =
        (factorizeSetup E seconds2 ax M2).2.1
          (factorizeSetup E seconds2 ax M2).1._info.super_panel_buf.data := by
  have hm : M2.self._m = M.self._m := hS.m.symm
  have ha : (E.allocateSuperPanels M.self._info M.mem ⟨M.self._m + 1, fun _ => 0⟩).1 =
        (E.allocateSuperPanels M2.self._info M2.mem ⟨M2.self._m + 1, fun _ => 0⟩).1 ∧
      (E.allocateSuperPanels M.self._info M.mem ⟨M.self._m + 1, fun _ => 0⟩).2.1.val =
        (E.allocateSuperPanels M2.self._info M2.mem ⟨M2.self._m + 1, fun _ => 0⟩).2.1.val ∧
      (E.allocateSuperPanels M.self._info M.mem ⟨M.self._m + 1, fun _ => 0⟩).2.1.dimension_0 =
        (E.allocateSuperPanels M2.self._info M2.mem
          ⟨M2.self._m + 1, fun _ => 0⟩).2.1.dimension_0 ∧
      (E.allocateSuperPanels M.self._info M.mem ⟨M.self._m + 1, fun _ => 0⟩).2.2.1.dimension_0 =
        (E.allocateSuperPanels M2.self._info M2.mem
          ⟨M2.self._m + 1, fun _ => 0⟩).2.2.1.dimension_0 ∧
      (E.allocateSuperPanels M.self._info M.mem ⟨M.self._m + 1, fun _ => 0⟩).2.2.2 ax.data =
        (E.allocateSuperPanels M2.self._info M2.mem ⟨M2.self._m + 1, fun _ => 0⟩).2.2.2
          ax.data := by
    rw [hm]
    exact hE.allocate M.self._info M2.self._info M.mem M2.mem ⟨M.self._m + 1, fun _ => 0⟩
      hS.info hax
  obtain ⟨h1, h2, h3, h4, h5⟩ := ha
  have hI : SameFactorInfo (factorizeSetup E seconds ax M).1._info
      (factorizeSetup E seconds2 ax M2).1._info :=
    ⟨⟨hS.info.supernodes, hS.info.gid_super_panel_ptr, hS.info.gid_super_panel_colidx,
        hS.info.sid_super_panel_ptr, hS.info.sid_super_panel_colidx,
        hS.info.blk_super_panel_colidx, hS.info.stree_ptr, hS.info.stree_children⟩,
      h2, h3, h4, h1⟩
  refine ⟨hI, hS.stree_roots, ?_, ?_⟩
  · rw [factorizeSetup_pool_eq, factorizeSetup_pool_eq, hI.max_schur_size]
  · have hc := hE.copy (factorizeSetup E seconds ax M).1._info
      (factorizeSetup E seconds2 ax M2).1._info
      (E.allocateSuperPanels M.self._info M.mem ⟨M.self._m + 1, fun _ => 0⟩).2.2.2
      (E.allocateSuperPanels M2.self._info M2.mem ⟨M2.self._m + 1, fun _ => 0⟩).2.2.2
      M.self._ap M.self._aj M.self._perm M.self._peri ⟨M.self._m + 1, fun _ => 0⟩ hI h5
    rw [factorizeSetup_mem_eq E seconds ax M, factorizeSetup_mem_eq E seconds2 ax M2,
      ← hS.ap, ← hS.aj, ← hS.perm, ← hS.peri, hm]
    rw [hm] at hc
    exact hc

theorem factorizeCholesky_Serial_rel {V σ : Type} (E : Env V σ) (ax : ValueArray)
    (hE : FactorFootprint E ax) (fuel : Nat) (seconds seconds2 : Nat → ℚ) (M M2 : Machine V)
    (hS : SameSymbolic M.self M2.self) (hax : M.mem ax.data = M2.mem ax.data) :
    Outcome.Rel SameFactor (factorizeCholesky_Serial E fuel seconds ax M)
      (factorizeCholesky_Serial E fuel seconds2 ax M2) := by
  obtain ⟨hI, hroots, hpool, hmem⟩ := factorizeSetup_rel E ax hE seconds seconds2 M M2 hS hax
  have hT : Outcome.Rel
      (SamePoolAndBuffer (factorizeSetup E seconds ax M).1._info.super_panel_buf.data
        (factorizeSetup E seconds2 ax M2).1._info.super_panel_buf.data)
      (forLoop (fun i s => recursiveSerialChol E (factorizeSetup E seconds ax M).1._info fuel
          ((factorizeSetup E seconds ax M).1._stree_roots.val i) s)
        (factorizeSetup E seconds ax M).1._stree_roots.dimension_0.toNat 0
        ⟨(factorizeSetup E seconds ax M).2.2, (factorizeSetup E seconds ax M).2.1, M.trace⟩)
      (forLoop (fun i s => recursiveSerialChol E (factorizeSetup E seconds2 ax M2).1._info fuel
          ((factorizeSetup E seconds2 ax M2).1._stree_roots.val i) s)
        (factorizeSetup E seconds2 ax M2).1._stree_roots.dimension_0.toNat 0
        ⟨(factorizeSetup E seconds2 ax M2).2.2, (factorizeSetup E seconds2 ax M2).2.1,
          M2.trace⟩) := by
    rw [← hroots]
    refine rel_forLoop _ _ (fun j a b hab => ?_) _ _ _ _ ⟨hpool, hmem⟩
    exact recursiveSerialChol_rel E _ _ hI.symbolic.stree_ptr hI.symbolic.stree_children
      (serialCholBody_rel E ax hE _ _ hI) fuel _ a b hab
  unfold factorizeCholesky_Serial
  simp only
  revert hT
  generalize forLoop (fun i s => recursiveSerialChol E (factorizeSetup E seconds ax M).1._info
      fuel ((factorizeSetup E seconds ax M).1._stree_roots.val i) s)
    (factorizeSetup E seconds ax M).1._stree_roots.dimension_0.toNat 0
    ⟨(factorizeSetup E seconds ax M).2.2, (factorizeSetup E seconds ax M).2.1, M.trace⟩ = o
  generalize forLoop (fun i s => recursiveSerialChol E (factorizeSetup E seconds2 ax M2).1._info
      fuel ((factorizeSetup E seconds2 ax M2).1._stree_roots.val i) s)
    (factorizeSetup E seconds2 ax M2).1._stree_roots.dimension_0.toNat 0
    ⟨(factorizeSetup E seconds2 ax M2).2.2, (factorizeSetup E seconds2 ax M2).2.1,
      M2.trace⟩ = o2
  intro hT
  cases o <;> cases o2 <;> simp only [Outcome.Rel] at hT <;>
    first
    | exact hT.elim
    | exact hT
    | trivial
    | exact ⟨hI.super_panel_ptr, hI.super_panel_ptr_extent, hI.super_panel_buf_extent, hT.2⟩

theorem factorizeCholesky_Serial_symbolic {V σ : Type} (E : Env V σ) (fuel : Nat)
    (seconds : Nat → ℚ) (ax : ValueArray) (M M1 : Machine V)
    (h : factorizeCholesky_Serial E fuel seconds ax M = Outcome.returned M1) :
    SameSymbolic M.self M1.self := by
  unfold factorizeCholesky_Serial at h
  simp only at h
  revert h
  generalize forLoop (fun i s => recursiveSerialChol E (factorizeSetup E seconds ax M).1._info
      fuel ((factorizeSetup E seconds ax M).1._stree_roots.val i) s)
    (factorizeSetup E seconds ax M).1._stree_roots.dimension_0.toNat 0
    ⟨(factorizeSetup E seconds ax M).2.2, (factorizeSetup E seconds ax M).2.1, M.trace⟩ = o
  intro h
  cases o <;> simp only [finishRun, Outcome.returned.injEq, reduceCtorEq] at h
  subst h
  exact ⟨rfl, rfl, rfl, rfl, rfl, rfl, ⟨rfl, rfl, rfl, rfl, rfl, rfl, rfl, rfl⟩⟩

/-- C8: `factorizeCholesky_Serial` is deterministic and idempotent.  For two
objects with the same symbolic inputs, in any state and with any memory, and
the same values of `ax`, the two calls end the same way and leave the same
factor (offsets, buffer view, buffer entries): the factor does not depend on
the previous contents of the factor buffer or on earlier calls.  So a second
call with the same `ax` after a call that returned returns the same factor. -/
theorem factorizeCholesky_Serial_deterministic {V σ : Type} (E : Env V σ) (ax : ValueArray)
    (hE : FactorFootprint E ax) (fuel : Nat) (seconds seconds2 : Nat → ℚ) (M M2 : Machine V)
    (hS : SameSymbolic M.self M2.self) (hax : M.mem ax.data = M2.mem ax.data) :
    Outcome.Rel SameFactor (factorizeCholesky_Serial E fuel seconds ax M)
      (factorizeCholesky_Serial E fuel seconds2 ax M2) ∧
    ∀ M1, factorizeCholesky_Serial E fuel seconds ax M = Outcome.returned M1 →
      M1.mem ax.data = M.mem ax.data →
      ∃ M3, factorizeCholesky_Serial E fuel seconds2 ax M1 = Outcome.returned M3 ∧
        SameFactor M1 M3 := by
  refine ⟨factorizeCholesky_Serial_rel E ax hE fuel seconds seconds2 M M2 hS hax, ?_⟩
  intro M1 h1 hax1
  have hS1 := factorizeCholesky_Serial_symbolic E fuel seconds ax M M1 h1
  have hrel := factorizeCholesky_Serial_rel E ax hE fuel seconds seconds2 M M1 hS1 hax1.symm
  rw [h1] at hrel
  cases h3 : factorizeCholesky_Serial E fuel seconds2 ax M1 with
  | returned M3 =>
    rw [h3] at hrel
    exact ⟨M3, rfl, hrel⟩
  | aborted M3 => rw [h3] at hrel; exact hrel.elim
  | raised e M3 => rw [h3] at hrel; exact hrel.elim
  | exhausted => rw [h3] at hrel; exact hrel.elim

theorem example_footprint : FactorFootprint exampleEnv ⟨2048, 7⟩ := by
  refine ⟨?_, ?_, ?_, ?_⟩
  · intro a b sid _
    rfl
  · intro a b mem mem2 iwork _ h
    exact ⟨rfl, rfl, rfl, rfl, h⟩
  · intro a b mem mem2 ap aj perm peri iwork _ h
    funext i j
    simp only [exampleEnv, if_true, h]
  · intro a b mem mem2 ABR sid bufsize buf _ h
    exact h

/-- The instance of C8: the object of the instance as constructed and after a
factorization setup, with different memories that agree on `ax`; the first
call returns. -/
theorem factorizeCholesky_Serial_deterministic_witness :
    factorizeCholesky_Serial exampleEnv 2 (fun _ => 0) ⟨2048, 7⟩ exampleMachine =
      Outcome.returned exampleFactorRun ∧
    Outcome.Rel SameFactor
        (factorizeCholesky_Serial exampleEnv 2 (fun _ => 0) ⟨2048, 7⟩ exampleMachine)
        (factorizeCholesky_Serial exampleEnv 2 (fun _ => 1) ⟨2048, 7⟩ exampleFactored) ∧
    ∀ M1, factorizeCholesky_Serial exampleEnv 2 (fun _ => 0) ⟨2048, 7⟩ exampleMachine =
        Outcome.returned M1 →
      M1.mem 2048 = exampleMachine.mem 2048 →
      ∃ M3, factorizeCholesky_Serial exampleEnv 2 (fun _ => 1) ⟨2048, 7⟩ M1 =
          Outcome.returned M3 ∧ SameFactor M1 M3 :=
  ⟨rfl,
    factorizeCholesky_Serial_deterministic exampleEnv ⟨2048, 7⟩ example_footprint 2
      (fun _ => 0) (fun _ => 1) exampleMachine exampleFactored
      ⟨rfl, rfl, rfl, rfl, rfl, rfl, ⟨rfl, rfl, rfl, rfl, rfl, rfl, rfl, rfl⟩⟩
      (by funext i j; simp [exampleMachine, exampleFactored])⟩

/-! ## Scratch requests and pool sizes -/

theorem size_t_of_range (z : Int) (h0 : 0 ≤ z) (h1 : z < 2 ^ 64) : (size_t z : Int) = z := by
  unfold size_t
  rw [Int.emod_eq_of_lt h0 h1]
  exact Int.toNat_of_nonneg h0

theorem factorizeSetup_pool_block {V σ : Type} (E : Env V σ) (seconds : Nat → ℚ)
    (ax : ValueArray) (M : Machine V) :
    (factorizeSetup E seconds ax M).2.2 =
      E.pool_create (factorizeMaxBlockSize E (factorizeSetup E seconds ax M).1._info) 1
        (factorizeMaxBlockSize E (factorizeSetup E seconds ax M).1._info)
        (factorizeMaxBlockSize E (factorizeSetup E seconds ax M).1._info) :=
  rfl

theorem solveSetup_pool_block {V σ : Type} (E : Env V σ) (scatter : Bool) (seconds : Nat → ℚ)
    (x b t : MatrixView) (M : Machine V) :
    (solveSetup E scatter seconds x b t M).2.2 =
      E.pool_create (solveMaxBlockSize E (solveSetup E scatter seconds x b t M).1._info x) 1
        (solveMaxBlockSize E (solveSetup E scatter seconds x b t M).1._info x)
        (solveMaxBlockSize E (solveSetup E scatter seconds x b t M).1._info x) :=
  rfl

/-- What `serialCholBody` does, by the pointer the pool returns. -/
theorem serialCholBody_eq {V σ : Type} (E : Env V σ) (info : SupernodeInfo) (sid : Int)
    (s : Run V σ) :
    serialCholBody E info sid s =
      if (E.pool_allocate s.pool (cholBufsize E info sid)).1 = 0 then
        Outcome.aborted
          ⟨(E.pool_allocate s.pool (cholBufsize E info sid)).2, s.mem,
            s.trace ++ [Event.allocate sid (cholBufsize E info sid)
              (E.pool_allocate s.pool (cholBufsize E info sid)).1, Event.abort sid]⟩
      else
        Outcome.returned
          ⟨E.pool_deallocate (E.pool_allocate s.pool (cholBufsize E info sid)).2
              (E.pool_allocate s.pool (cholBufsize E info sid)).1 (cholBufsize E info sid),
            E.update info
              (E.factorize info s.mem
                ⟨(E.pool_allocate s.pool (cholBufsize E info sid)).1,
                  (E.getSuperPanelSize info sid).2 - (E.getSuperPanelSize info sid).1,
                  (E.getSuperPanelSize info sid).2 - (E.getSuperPanelSize info sid).1⟩ sid)
              ⟨(E.pool_allocate s.pool (cholBufsize E info sid)).1,
                (E.getSuperPanelSize info sid).2 - (E.getSuperPanelSize info sid).1,
                (E.getSuperPanelSize info sid).2 - (E.getSuperPanelSize info sid).1⟩ sid
              (size_t ((cholBufsize E info sid : Int) -
                ((size_t (((E.getSuperPanelSize info sid).2 - (E.getSuperPanelSize info sid).1) *
                  ((E.getSuperPanelSize info sid).2 - (E.getSuperPanelSize info sid).1)) *
                  E.value_size : Nat) : Int)))
              ((E.pool_allocate s.pool (cholBufsize E info sid)).1 +
                size_t (((E.getSuperPanelSize info sid).2 - (E.getSuperPanelSize info sid).1) *
                  ((E.getSuperPanelSize info sid).2 - (E.getSuperPanelSize info sid).1)) *
                  E.value_size),
            s.trace ++
              [Event.allocate sid (cholBufsize E info sid)
                (E.pool_allocate s.pool (cholBufsize E info sid)).1,
              Event.factorize sid
                ⟨(E.pool_allocate s.pool (cholBufsize E info sid)).1,
                  (E.getSuperPanelSize info sid).2 - (E.getSuperPanelSize info sid).1,
                  (E.getSuperPanelSize info sid).2 - (E.getSuperPanelSize info sid).1⟩,
              Event.update sid
                ⟨(E.pool_allocate s.pool (cholBufsize E info sid)).1,
                  (E.getSuperPanelSize info sid).2 - (E.getSuperPanelSize info sid).1,
                  (E.getSuperPanelSize info sid).2 - (E.getSuperPanelSize info sid).1⟩
                (size_t ((cholBufsize E info sid : Int) -
                  ((size_t (((E.getSuperPanelSize info sid).2 -
                    (E.getSuperPanelSize info sid).1) *
                    ((E.getSuperPanelSize info sid).2 - (E.getSuperPanelSize info sid).1)) *
                    E.value_size : Nat) : Int)))
                ((E.pool_allocate s.pool (cholBufsize E info sid)).1 +
                  size_t (((E.getSuperPanelSize info sid).2 - (E.getSuperPanelSize info sid).1) *
                    ((E.getSuperPanelSize info sid).2 - (E.getSuperPanelSize info sid).1)) *
                    E.value_size),
              Event.deallocate sid (E.pool_allocate s.pool (cholBufsize E info sid)).1
                (cholBufsize E info sid)]⟩ := by
  unfold serialCholBody cholBufsize MatrixView.span
  simp only [TACHO_TEST_FOR_ABORT, decide_eq_true_eq, List.append_assoc, List.cons_append,
    List.nil_append]

theorem serialCholBody_request {V σ : Type} (E : Env V σ) (info : SupernodeInfo) (sid : Int)
    (s : Run V σ) :
    ∃ s1 tr, (serialCholBody E info sid s = Outcome.returned s1 ∨
        serialCholBody E info sid s = Outcome.aborted s1) ∧
      s1.trace = s.trace ++ Event.allocate sid (cholBufsize E info sid)
        (E.pool_allocate s.pool (cholBufsize E info sid)).1 :: tr := by
  rw [serialCholBody_eq]
  split
  · exact ⟨_, _, Or.inr rfl, rfl⟩
  · exact ⟨_, _, Or.inl rfl, rfl⟩

theorem cholBufsize_le {V σ : Type} (E : Env V σ) (info : SupernodeInfo) (sid : Int)
    (h0 : 0 ≤ schurExtent E info sid) (h1 : schurExtent E info sid ≤ info.max_schur_size)
    (hov : info.max_schur_size * (info.max_schur_size + 1) * E.value_size < 2 ^ 64) :
    (cholBufsize E info sid : Int) =
        (schurExtent E info sid * schurExtent E info sid + info.max_schur_size) *
          E.value_size ∧
      (factorizeMaxBlockSize E info : Int) =
        info.max_schur_size * (info.max_schur_size + 1) * E.value_size ∧
      cholBufsize E info sid ≤ factorizeMaxBlockSize E info := by
  have hv : (0 : Int) ≤ (E.value_size : Int) := Int.natCast_nonneg _
  have hle : schurExtent E info sid * schurExtent E info sid + info.max_schur_size ≤
      info.max_schur_size * (info.max_schur_size + 1) := by nlinarith
  have hnn : 0 ≤ schurExtent E info sid * schurExtent E info sid + info.max_schur_size := by
    nlinarith
  have hle2 : (schurExtent E info sid * schurExtent E info sid + info.max_schur_size) *
      E.value_size ≤ info.max_schur_size * (info.max_schur_size + 1) * E.value_size :=
    mul_le_mul_of_nonneg_right hle hv
  have hb : (cholBufsize E info sid : Int) =
      (schurExtent E info sid * schurExtent E info sid + info.max_schur_size) *
        E.value_size :=
    size_t_of_range _ (mul_nonneg hnn hv) (lt_of_le_of_lt hle2 hov)
  have hm : (factorizeMaxBlockSize E info : Int) =
      info.max_schur_size * (info.max_schur_size + 1) * E.value_size :=
    size_t_of_range _ (le_trans (mul_nonneg hnn hv) hle2) hov
  refine ⟨hb, hm, ?_⟩
  have : (cholBufsize E info sid : Int) ≤ (factorizeMaxBlockSize E info : Int) := by
    rw [hb, hm]
    exact hle2
  exact_mod_cast this

/-- C11: in `factorizeCholesky_Serial` the pool is created with
`max_block_size` equal to the requested capacity
`max_schur_size*(max_schur_size+1)*sizeof(value)`, and for a supernode with
`0 <= n <= max_schur_size` the request `(n*n + max_schur_size)*sizeof(value)`
of `recursiveSerialChol` is no larger (no overflow of `size_t`). -/
theorem factorize_request_fits {V σ : Type} (E : Env V σ) (seconds : Nat → ℚ)
    (ax : ValueArray) (M : Machine V) (sid : Int) (s : Run V σ)
    (h0 : 0 ≤ schurExtent E (factorizeSetup E seconds ax M).1._info sid)
    (h1 : schurExtent E (factorizeSetup E seconds ax M).1._info sid ≤
      (factorizeSetup E seconds ax M).1._info.max_schur_size)
    (hov : (factorizeSetup E seconds ax M).1._info.max_schur_size *
      ((factorizeSetup E seconds ax M).1._info.max_schur_size + 1) * E.value_size < 2 ^ 64) :
    (factorizeSetup E seconds ax M).2.2 =
      E.pool_create (factorizeMaxBlockSize E (factorizeSetup E seconds ax M).1._info) 1
        (factorizeMaxBlockSize E (factorizeSetup E seconds ax M).1._info)
        (factorizeMaxBlockSize E (factorizeSetup E seconds ax M).1._info) ∧
    (∃ s1 tr,
      (serialCholBody E (factorizeSetup E seconds ax M).1._info sid s = Outcome.returned s1 ∨
        serialCholBody E (factorizeSetup E seconds ax M).1._info sid s = Outcome.aborted s1) ∧
      s1.trace = s.trace ++
        Event.allocate sid (cholBufsize E (factorizeSetup E seconds ax M).1._info sid)
          (E.pool_allocate s.pool
            (cholBufsize E (factorizeSetup E seconds ax M).1._info sid)).1 :: tr) ∧
    (cholBufsize E (factorizeSetup E seconds ax M).1._info sid : Int) =
      (schurExtent E (factorizeSetup E seconds ax M).1._info sid *
          schurExtent E (factorizeSetup E seconds ax M).1._info sid +
        (factorizeSetup E seconds ax M).1._info.max_schur_size) * E.value_size ∧
    (factorizeMaxBlockSize E (factorizeSetup E seconds ax M).1._info : Int) =
      (factorizeSetup E seconds ax M).1._info.max_schur_size *
        ((factorizeSetup E seconds ax M).1._info.max_schur_size + 1) * E.value_size ∧
    cholBufsize E (factorizeSetup E seconds ax M).1._info sid ≤
      factorizeMaxBlockSize E (factorizeSetup E seconds ax M).1._info := by
  obtain ⟨hb, hm, hle⟩ := cholBufsize_le E _ sid h0 h1 hov
  exact ⟨factorizeSetup_pool_block E seconds ax M, serialCholBody_request E _ sid s, hb, hm, hle⟩

/-- The instance of C11: supernode `0` of the arrow matrix, with `n = 1`,
`max_schur_size = 1` and values of 8 bytes, requests 16 bytes from a pool with
blocks of up to 16 bytes. -/
theorem factorize_request_fits_witness :
    cholBufsize exampleEnv (factorizeSetup exampleEnv (fun _ => 0) ⟨2048, 7⟩
        exampleMachine).1._info 0 = 16 ∧
    factorizeMaxBlockSize exampleEnv (factorizeSetup exampleEnv (fun _ => 0) ⟨2048, 7⟩
        exampleMachine).1._info = 16 ∧
    cholBufsize exampleEnv (factorizeSetup exampleEnv (fun _ => 0) ⟨2048, 7⟩
        exampleMachine).1._info 0 ≤
      factorizeMaxBlockSize exampleEnv (factorizeSetup exampleEnv (fun _ => 0) ⟨2048, 7⟩
        exampleMachine).1._info :=
  ⟨by decide, by decide,
    (factorize_request_fits exampleEnv (fun _ => 0) ⟨2048, 7⟩ exampleMachine 0
      ⟨(16, 0), fun _ _ _ => 0, []⟩ (by decide) (by decide) (by decide)).2.2.2.2⟩

/-! ## Scratch request of the solve -/

theorem solveBufsize_le {V σ : Type} (E : Env V σ) (info : SupernodeInfo) (x : MatrixView)
    (sid : Int) (hx : info.x.dimension_1 = x.dimension_1)
    (h0 : 0 ≤ schurExtent E info sid) (h1 : schurExtent E info sid ≤ info.max_schur_size)
    (hm : 1 ≤ info.max_schur_size) (hr : 1 ≤ x.dimension_1)
    (hov : info.max_schur_size * x.dimension_1 * E.value_size < 2 ^ 64) :
    solveBufsize E info sid ≤ solveMaxBlockSize E info x := by
  have hv : (0 : Int) ≤ (E.value_size : Int) := Int.natCast_nonneg _
  have hle : max (schurExtent E info sid * x.dimension_1) 1 ≤
      info.max_schur_size * x.dimension_1 := by
    apply max_le
    · exact mul_le_mul_of_nonneg_right h1 (by omega)
    · nlinarith
  have hle2 : max (schurExtent E info sid * x.dimension_1) 1 * E.value_size ≤
      info.max_schur_size * x.dimension_1 * E.value_size :=
    mul_le_mul_of_nonneg_right hle hv
  have hnn : 0 ≤ max (schurExtent E info sid * x.dimension_1) 1 * (E.value_size : Int) :=
    mul_nonneg (le_trans (by norm_num) (le_max_right _ _)) hv
  have hb : (solveBufsize E info sid : Int) =
      max (schurExtent E info sid * x.dimension_1) 1 * E.value_size := by
    unfold solveBufsize
    simp only [hx]
    exact size_t_of_range _ hnn (lt_of_le_of_lt hle2 hov)
  have hmb : (solveMaxBlockSize E info x : Int) =
      info.max_schur_size * x.dimension_1 * E.value_size :=
    size_t_of_range _ (le_trans hnn hle2) hov
  have : (solveBufsize E info sid : Int) ≤ (solveMaxBlockSize E info x : Int) := by
    rw [hb, hmb]
    exact hle2
  exact_mod_cast this

/-- C12: the single-supernode matrix of order 4 with one right-hand side.  The
Schur extent and `max_schur_size` are both `0`, so the pool of
`solveCholesky_Serial` is created with capacity and `max_block_size`
`0 * 1 * 8 = 0`, while `recursiveSerialSolveLower` requests
`max(0 * 1, 1) * 8 = 8` bytes: the request is larger than `max_block_size`,
and with a pool that refuses such a request the solve aborts at its first
allocation.  The same holds for the arrow matrix (`max_schur_size = 1`) with
no right-hand-side column: `max_block_size = 1 * 0 * 8 = 0` and the request is
`max(1 * 0, 1) * 8 = 8`. -/
theorem solve_request_exceeds_block :
    singleFactored.self._info.max_schur_size = 0 ∧
    schurExtent singleEnv
      (solveSetup singleEnv true (fun _ => 0) ⟨100, 4, 1⟩ ⟨200, 4, 1⟩ ⟨300, 4, 1⟩
        singleFactored).1._info 0 = 0 ∧
    (solveSetup singleEnv true (fun _ => 0) ⟨100, 4, 1⟩ ⟨200, 4, 1⟩ ⟨300, 4, 1⟩
        singleFactored).2.2 = singleEnv.pool_create 0 1 0 0 ∧
    solveMaxBlockSize singleEnv
      (solveSetup singleEnv true (fun _ => 0) ⟨100, 4, 1⟩ ⟨200, 4, 1⟩ ⟨300, 4, 1⟩
        singleFactored).1._info ⟨100, 4, 1⟩ = 0 ∧
    solveBufsize singleEnv
      (solveSetup singleEnv true (fun _ => 0) ⟨100, 4, 1⟩ ⟨200, 4, 1⟩ ⟨300, 4, 1⟩
        singleFactored).1._info 0 = 8 ∧
    (∃ M1, solveCholesky_Serial singleEnv true 1 (fun _ => 0) ⟨100, 4, 1⟩ ⟨200, 4, 1⟩
        ⟨300, 4, 1⟩ singleFactored = Outcome.aborted M1 ∧
      M1.trace = [Event.allocate 0 8 0, Event.abort 0]) ∧
    solveMaxBlockSize exampleEnv
      (solveSetup exampleEnv true (fun _ => 0) ⟨100, 3, 0⟩ ⟨200, 3, 0⟩ ⟨300, 3, 0⟩
        exampleFactored).1._info ⟨100, 3, 0⟩ = 0 ∧
    solveBufsize exampleEnv
      (solveSetup exampleEnv true (fun _ => 0) ⟨100, 3, 0⟩ ⟨200, 3, 0⟩ ⟨300, 3, 0⟩
        exampleFactored).1._info 0 = 8 := by
  refine ⟨rfl, by decide, rfl, by decide, by decide, ⟨_, rfl, rfl⟩, by decide, by decide⟩

/-! ## Memory tracking -/

theorem statAfter_concat (stat0 : Stat) (l : List StatOp) (op : StatOp) :
    statAfter stat0 (l ++ [op]) = StatOp.apply (statAfter stat0 l) op := by
  simp [statAfter, List.foldl_append]

theorem sumAllocated_append (l1 l2 : List StatOp) :
    sumAllocated (l1 ++ l2) = sumAllocated l1 + sumAllocated l2 := by
  induction l1 with
  | nil => simp [sumAllocated]
  | cons op l ih => cases op <;> simp [sumAllocated, ih, add_assoc]

theorem sumFreed_append (l1 l2 : List StatOp) :
    sumFreed (l1 ++ l2) = sumFreed l1 + sumFreed l2 := by
  induction l1 with
  | nil => simp [sumFreed]
  | cons op l ih => cases op <;> simp [sumFreed, ih, add_assoc]

theorem statAfter_used (stat0 : Stat) (ops : List StatOp) :
    (statAfter stat0 ops).m_used = sumAllocated ops - sumFreed ops := by
  induction ops using List.reverseRecOn with
  | nil => simp [statAfter, reset_stat, sumAllocated, sumFreed]
  | append_singleton l op ih =>
    rw [statAfter_concat, sumAllocated_append, sumFreed_append]
    cases op with
    | alloc a =>
      simp only [StatOp.apply, track_alloc, sumAllocated, sumFreed, ih]
      ring
    | free f =>
      simp only [StatOp.apply, track_free, sumAllocated, sumFreed, ih]
      ring

theorem split_concat {α : Type} {l p q : List α} {a : α} (h : l ++ [a] = p ++ q) :
    (q = [] ∧ p = l ++ [a]) ∨ ∃ q1, q = q1 ++ [a] ∧ l = p ++ q1 := by
  rcases List.eq_nil_or_concat q with hq | ⟨q1, b, hq⟩
  · left
    subst hq
    exact ⟨rfl, by simpa using h.symm⟩
  · right
    subst hq
    rw [List.concat_eq_append] at h ⊢
    rw [← List.append_assoc] at h
    have h2 := List.append_inj h (by
      have := congrArg List.length h
      simp only [List.length_append, List.length_singleton] at this
      simp only [List.length_append]
      omega)
    refine ⟨q1, ?_, h2.1⟩
    have : a = b := by simpa using h2.2
    rw [this]

theorem statAfter_peak (stat0 : Stat) (ops : List StatOp)
    (hpos : ∀ op ∈ ops, 0 ≤ op.amount) :
    (∀ p q, ops = p ++ q → (statAfter stat0 p).m_used ≤ (statAfter stat0 ops).m_peak) ∧
    (∃ p q, ops = p ++ q ∧ (statAfter stat0 p).m_used = (statAfter stat0 ops).m_peak) ∧
    (∀ p q, ops = p ++ q → (statAfter stat0 p).m_peak ≤ (statAfter stat0 ops).m_peak) := by
  induction ops using List.reverseRecOn with
  | nil =>
    refine ⟨?_, ⟨[], [], rfl, rfl⟩, ?_⟩
    · intro p q h
      have hp : p = [] := (List.append_eq_nil.mp h.symm).1
      subst hp
      exact le_refl _
    · intro p q h
      have hp : p = [] := (List.append_eq_nil.mp h.symm).1
      subst hp
      exact le_refl _
  | append_singleton l op ih =>
    have hl : ∀ o ∈ l, 0 ≤ o.amount := fun o ho => hpos o (List.mem_append_left _ ho)
    have hop : 0 ≤ op.amount := hpos op (by simp)
    obtain ⟨ih1, ⟨p0, q0, hpq, hatt⟩, ih3⟩ := ih hl
    have hup : (statAfter stat0 l).m_used ≤ (statAfter stat0 l).m_peak := ih1 l [] (by simp)
    cases op with
    | alloc a =>
      have hpk : (statAfter stat0 (l ++ [StatOp.alloc a])).m_peak =
          max (statAfter stat0 l).m_peak ((statAfter stat0 l).m_used + a) := by
        rw [statAfter_concat]
        rfl
      have hus : (statAfter stat0 (l ++ [StatOp.alloc a])).m_used =
          (statAfter stat0 l).m_used + a := by
        rw [statAfter_concat]
        rfl
      refine ⟨?_, ?_, ?_⟩
      · intro p q h
        rcases split_concat h with ⟨_, hp⟩ | ⟨q1, _, hlp⟩
        · rw [hp, hpk, hus]
          exact le_max_right _ _
        · rw [hpk]
          exact le_trans (ih1 p q1 hlp) (le_max_left _ _)
      · by_cases hc : (statAfter stat0 l).m_used + a ≤ (statAfter stat0 l).m_peak
        · refine ⟨p0, q0 ++ [StatOp.alloc a], by rw [hpq, List.append_assoc], ?_⟩
          rw [hpk, max_eq_left hc, hatt]
        · refine ⟨l ++ [StatOp.alloc a], [], by simp, ?_⟩
          rw [hpk, hus, max_eq_right (le_of_lt (not_le.mp hc))]
      · intro p q h
        rcases split_concat h with ⟨_, hp⟩ | ⟨q1, _, hlp⟩
        · rw [hp]
        · rw [hpk]
          exact le_trans (ih3 p q1 hlp) (le_max_left _ _)
    | free f =>
      have hf : 0 ≤ f := hop
      have hpk : (statAfter stat0 (l ++ [StatOp.free f])).m_peak =
          (statAfter stat0 l).m_peak := by
        rw [statAfter_concat]
        rfl
      have hus : (statAfter stat0 (l ++ [StatOp.free f])).m_used =
          (statAfter stat0 l).m_used - f := by
        rw [statAfter_concat]
        rfl
      refine ⟨?_, ?_, ?_⟩
      · intro p q h
        rcases split_concat h with ⟨_, hp⟩ | ⟨q1, _, hlp⟩
        · rw [hp, hpk, hus]
          linarith
        · rw [hpk]
          exact ih1 p q1 hlp
      · exact ⟨p0, q0 ++ [StatOp.free f], by rw [hpq, List.append_assoc], by rw [hpk, hatt]⟩
      · intro p q h
        rcases split_concat h with ⟨_, hp⟩ | ⟨q1, _, hlp⟩
        · rw [hp]
        · rw [hpk]
          exact ih3 p q1 hlp

/-! ## The local work of the factorization -/

/-- C16: the local work of `recursiveSerialChol` for supernode `sid` comes
after the loop over its children and, when the allocation succeeds (sizes of
values positive, `max_schur_size` non-negative, the sum `n*n + max_schur_size`
within `ordinal_type` so that neither it nor `n*n` overflows, and the byte
size within `size_type`), is exactly:
allocate `(n*n + max_schur_size)*sizeof(value)` bytes; `factorize` with the
`n`-by-`n` view at the start of the buffer; `update` with the same view and a
workspace that starts `n*n` values after the start of the buffer and has
`max_schur_size*sizeof(value)` bytes, so that it ends where the buffer ends;
deallocate the same pointer with the same byte size. -/
theorem recursiveSerialChol_local_work {V σ : Type} (E : Env V σ) (info : SupernodeInfo)
    (sid : Int) (s : Run V σ)
    (hv : 0 < E.value_size) (hm : 0 ≤ info.max_schur_size)
    (hfit : FitsOrdinal
      (schurExtent E info sid * schurExtent E info sid + info.max_schur_size))
    (hov : (schurExtent E info sid * schurExtent E info sid + info.max_schur_size) *
      E.value_size < 2 ^ 64)
    (hbuf : (E.pool_allocate s.pool (cholBufsize E info sid)).1 ≠ 0) :
    FitsOrdinal (schurExtent E info sid) ∧
    FitsOrdinal (schurExtent E info sid * schurExtent E info sid) ∧
    (∀ fuel s0, recursiveSerialChol E info (fuel + 1) sid s0 =
      (forLoop (fun i s1 => recursiveSerialChol E info fuel (info.stree_children.val i) s1)
        ((info.stree_ptr.val (sid + 1) : Int) - (info.stree_ptr.val sid : Int)).toNat
        (info.stree_ptr.val sid) s0).andThen (serialCholBody E info sid)) ∧
    ∃ wsize wbuf s1, serialCholBody E info sid s = Outcome.returned s1 ∧
      s1.trace = s.trace ++
        [Event.allocate sid (cholBufsize E info sid)
          (E.pool_allocate s.pool (cholBufsize E info sid)).1,
        Event.factorize sid
          ⟨(E.pool_allocate s.pool (cholBufsize E info sid)).1, schurExtent E info sid,
            schurExtent E info sid⟩,
        Event.update sid
          ⟨(E.pool_allocate s.pool (cholBufsize E info sid)).1, schurExtent E info sid,
            schurExtent E info sid⟩ wsize wbuf,
        Event.deallocate sid (E.pool_allocate s.pool (cholBufsize E info sid)).1
          (cholBufsize E info sid)] ∧
      (cholBufsize E info sid : Int) =
        (schurExtent E info sid * schurExtent E info sid + info.max_schur_size) *
          E.value_size ∧
      (wbuf : Int) = (E.pool_allocate s.pool (cholBufsize E info sid)).1 +
        schurExtent E info sid * schurExtent E info sid * E.value_size ∧
      (wsize : Int) = info.max_schur_size * E.value_size ∧
      (wbuf : Int) + wsize =
        (E.pool_allocate s.pool (cholBufsize E info sid)).1 + cholBufsize E info sid := by
  have hnn : 0 ≤ schurExtent E info sid * schurExtent E info sid := mul_self_nonneg _
  have hsq : schurExtent E info sid * schurExtent E info sid < 2 ^ 31 := by
    have := hfit.2
    omega
  refine ⟨⟨by nlinarith, by nlinarith⟩, ⟨by omega, hsq⟩, fun fuel s0 => rfl, ?_⟩
  have hv1 : (1 : Int) ≤ (E.value_size : Int) := by exact_mod_cast hv
  have hsum : 0 ≤ schurExtent E info sid * schurExtent E info sid + info.max_schur_size := by
    omega
  have hb : (cholBufsize E info sid : Int) =
      (schurExtent E info sid * schurExtent E info sid + info.max_schur_size) *
        E.value_size :=
    size_t_of_range _ (mul_nonneg hsum (by omega)) hov
  have hnlt : schurExtent E info sid * schurExtent E info sid < 2 ^ 64 := by nlinarith
  have hsp : (size_t (schurExtent E info sid * schurExtent E info sid) : Int) =
      schurExtent E info sid * schurExtent E info sid :=
    size_t_of_range _ hnn hnlt
  have hmv : 0 ≤ info.max_schur_size * (E.value_size : Int) := mul_nonneg hm (by omega)
  have hmlt : info.max_schur_size * (E.value_size : Int) < 2 ^ 64 := by nlinarith
  have hw : (size_t ((cholBufsize E info sid : Int) -
      ((size_t (schurExtent E info sid * schurExtent E info sid) * E.value_size : Nat) : Int))
        : Int) = info.max_schur_size * E.value_size := by
    have he : (cholBufsize E info sid : Int) -
        ((size_t (schurExtent E info sid * schurExtent E info sid) * E.value_size : Nat) : Int)
        = info.max_schur_size * E.value_size := by
      rw [hb]
      push_cast
      rw [hsp]
      ring
    rw [he]
    exact size_t_of_range _ hmv hmlt
  rw [serialCholBody_eq, if_neg hbuf]
  refine ⟨size_t ((cholBufsize E info sid : Int) -
      ((size_t (schurExtent E info sid * schurExtent E info sid) * E.value_size : Nat) : Int)),
    (E.pool_allocate s.pool (cholBufsize E info sid)).1 +
      size_t (schurExtent E info sid * schurExtent E info sid) * E.value_size, _, rfl, rfl, hb,
    ?_, hw, ?_⟩
  · push_cast
    rw [hsp]
  · rw [hw, hb]
    push_cast
    rw [hsp]
    ring

/-- The instance of C16: supernode `0` of the arrow matrix on a fresh pool
with blocks of up to 16 bytes. -/
theorem recursiveSerialChol_local_work_witness :
    ∃ wsize wbuf s1,
      serialCholBody exampleEnv exampleFactored.self._info 0 ⟨(16, 0), fun _ _ _ => 0, []⟩ =
        Outcome.returned s1 ∧
      s1.trace = [Event.allocate 0 16 4096, Event.factorize 0 ⟨4096, 1, 1⟩,
        Event.update 0 ⟨4096, 1, 1⟩ wsize wbuf, Event.deallocate 0 4096 16] ∧
      (wbuf : Int) = 4096 + 1 * 1 * 8 ∧ (wsize : Int) = 1 * 8 :=
  match (recursiveSerialChol_local_work exampleEnv exampleFactored.self._info 0
      ⟨(16, 0), fun _ _ _ => 0, []⟩ (by decide) (by decide) ⟨by decide, by decide⟩
      (by decide) (by decide)).2.2.2 with
  | ⟨wsize, wbuf, s1, h1, h2, _, h4, h5, _⟩ => ⟨wsize, wbuf, s1, h1, h2, h4, h5⟩

/-! ## Memory tracking of the solve -/

theorem solveCholesky_Serial_m_used {V σ : Type} (E : Env V σ) (scatter : Bool) (fuel : Nat)
    (seconds : Nat → ℚ) (x b t : MatrixView) (M M1 : Machine V)
    (h : solveCholesky_Serial E scatter fuel seconds x b t M = Outcome.returned M1) :
    M1.self.stat.m_used =
      M.self.stat.m_used + (E.pool_capacity (solveSetup E scatter seconds x b t M).2.2 : ℚ) := by
  unfold solveCholesky_Serial at h
  split at h
  · exact Outcome.noConfusion h
  · simp only [] at h
    generalize solveTraversal E (solveSetup E scatter seconds x b t M).1 fuel
      ⟨(solveSetup E scatter seconds x b t M).2.2, (solveSetup E scatter seconds x b t M).2.1,
        M.trace⟩ = o at h
    cases o with
    | returned s2 =>
      simp only [finishRun, Outcome.returned.injEq] at h
      rw [← h]
      rfl
    | raised e s2 => exact Outcome.noConfusion h
    | aborted s2 => exact Outcome.noConfusion h
    | exhausted => exact Outcome.noConfusion h

/-- C17: the solve of the arrow matrix with one right-hand side returns
normally, and `stat.m_used` after the call is `stat.m_used` before the call
plus the capacity of the scratch pool (8 bytes): `solveCholesky_Serial` calls
`track_alloc(bufpool.capacity())` and has no matching `track_free`. -/
theorem solve_keeps_pool_counted :
    solveCholesky_Serial exampleEnv true 2 (fun _ => 0) ⟨100, 3, 1⟩ ⟨200, 3, 1⟩ ⟨300, 3, 1⟩
      exampleFactored = Outcome.returned exampleSolved ∧
    exampleEnv.pool_capacity
      (solveSetup exampleEnv true (fun _ => 0) ⟨100, 3, 1⟩ ⟨200, 3, 1⟩ ⟨300, 3, 1⟩
        exampleFactored).2.2 = 8 ∧
    exampleSolved.self.stat.m_used = exampleFactored.self.stat.m_used + 8 ∧
    exampleSolved.self.stat.m_used ≠ exampleFactored.self.stat.m_used := by
  have h1 : solveCholesky_Serial exampleEnv true 2 (fun _ => 0) ⟨100, 3, 1⟩ ⟨200, 3, 1⟩
      ⟨300, 3, 1⟩ exampleFactored = Outcome.returned exampleSolved := rfl
  have h2 : exampleEnv.pool_capacity
      (solveSetup exampleEnv true (fun _ => 0) ⟨100, 3, 1⟩ ⟨200, 3, 1⟩ ⟨300, 3, 1⟩
        exampleFactored).2.2 = 8 := by decide
  have h3 : exampleSolved.self.stat.m_used = exampleFactored.self.stat.m_used + 8 := by
    have := solveCholesky_Serial_m_used _ _ _ _ _ _ _ _ _ h1
    rw [this, h2]
    norm_num
  refine ⟨h1, h2, h3, ?_⟩
  rw [h3]
  intro h
  linarith

/-! ## One scratch buffer at a time -/

theorem poolDiscipline_append (st : Option (Nat × Nat)) (a b : List Event) :
    poolDiscipline st (a ++ b) = (poolDiscipline st a).bind fun st1 => poolDiscipline st1 b := by
  induction a generalizing st with
  | nil => rfl
  | cons e a ih =>
    simp only [List.cons_append, poolDiscipline]
    cases poolStep st e with
    | none => rfl
    | some st1 => exact ih st1

theorem poolClosed_refl {V σ : Type} (a : Run V σ) : PoolClosed a a :=
  ⟨[], by simp, rfl⟩

theorem poolClosed_trans {V σ : Type} (a b c : Run V σ) (h1 : PoolClosed a b)
    (h2 : PoolClosed b c) : PoolClosed a c := by
  obtain ⟨t1, ht1, hc1⟩ := h1
  obtain ⟨t2, ht2, hc2⟩ := h2
  refine ⟨t1 ++ t2, by rw [ht2, ht1, List.append_assoc], ?_⟩
  rw [poolDiscipline_append, hc1]
  exact hc2

theorem serialCholBody_poolClosed {V σ : Type} (E : Env V σ) (info : SupernodeInfo)
    (sid : Int) (s : Run V σ) :
    Outcome.Sat PoolClosed PoolClosed s (serialCholBody E info sid s) := by
  unfold serialCholBody
  simp only [TACHO_TEST_FOR_ABORT, decide_eq_true_eq]
  split
  · rename_i h
    exact ⟨_, by simp only [List.append_assoc]; rfl, by simp [poolDiscipline, poolStep, h]⟩
  · rename_i h
    exact ⟨_, by simp only [List.append_assoc]; rfl, by simp [poolDiscipline, poolStep, h]⟩

theorem serialSolveLowerBody_poolClosed {V σ : Type} (E : Env V σ) (info : SupernodeInfo)
    (sid : Int) (s : Run V σ) :
    Outcome.Sat PoolClosed PoolClosed s (serialSolveLowerBody E info sid s) := by
  unfold serialSolveLowerBody
  simp only [TACHO_TEST_FOR_ABORT, decide_eq_true_eq]
  split
  · rename_i h
    exact ⟨_, by simp only [List.append_assoc]; rfl, by simp [poolDiscipline, poolStep, h]⟩
  · rename_i h
    exact ⟨_, by simp only [List.append_assoc]; rfl, by simp [poolDiscipline, poolStep, h]⟩

theorem serialSolveUpperBody_poolClosed {V σ : Type} (E : Env V σ) (info : SupernodeInfo)
    (sid : Int) (s : Run V σ) :
    Outcome.Sat PoolClosed PoolClosed s (serialSolveUpperBody E info sid s) := by
  unfold serialSolveUpperBody
  simp only [TACHO_TEST_FOR_ABORT, decide_eq_true_eq]
  split
  · rename_i h
    exact ⟨_, by simp only [List.append_assoc]; rfl, by simp [poolDiscipline, poolStep, h]⟩
  · rename_i h
    exact ⟨_, by simp only [List.append_assoc]; rfl, by simp [poolDiscipline, poolStep, h]⟩

theorem finishRun_returned {V σ : Type} (self : NumericTools)
    (after : Run V σ → Outcome (Machine V))
    (hafter : ∀ s1, ∃ M1, after s1 = Outcome.returned M1 ∧ M1.trace = s1.trace)
    (o : Outcome (Run V σ)) (M1 : Machine V)
    (h : finishRun self after o = Outcome.returned M1) :
    ∃ s1, o = Outcome.returned s1 ∧ M1.trace = s1.trace := by
  cases o with
  | returned s1 =>
    obtain ⟨M2, hM2, hM2t⟩ := hafter s1
    simp only [finishRun] at h
    rw [hM2] at h
    cases h
    exact ⟨s1, rfl, hM2t⟩
  | raised e s1 => exact Outcome.noConfusion h
  | aborted s1 => exact Outcome.noConfusion h
  | exhausted => exact Outcome.noConfusion h

theorem factorizeCholesky_Serial_poolClosed {V σ : Type} (E : Env V σ) (fuel : Nat)
    (seconds : Nat → ℚ) (ax : ValueArray) (M M1 : Machine V)
    (h : factorizeCholesky_Serial E fuel seconds ax M = Outcome.returned M1) :
    ∃ tr, M1.trace = M.trace ++ tr ∧ poolDiscipline none tr = some none := by
  have hS : Outcome.Sat PoolClosed PoolClosed
      (⟨(factorizeSetup E seconds ax M).2.2, (factorizeSetup E seconds ax M).2.1, M.trace⟩ :
        Run V σ)
      (forLoop (fun i s => recursiveSerialChol E (factorizeSetup E seconds ax M).1._info fuel
        ((factorizeSetup E seconds ax M).1._stree_roots.val i) s)
        (factorizeSetup E seconds ax M).1._stree_roots.dimension_0.toNat 0
        ⟨(factorizeSetup E seconds ax M).2.2, (factorizeSetup E seconds ax M).2.1, M.trace⟩) :=
    sat_forLoop poolClosed_refl poolClosed_trans poolClosed_trans _
      (fun j s1 => recursiveSerialChol_sat E _ poolClosed_refl poolClosed_trans
        poolClosed_trans (serialCholBody_poolClosed E _) fuel _ s1) _ _ _
  obtain ⟨s1, hs1, ht⟩ := finishRun_returned _ _ (fun s1 => ⟨_, rfl, rfl⟩) _ M1 h
  rw [hs1] at hS
  obtain ⟨tr, htr, hc⟩ := hS
  exact ⟨tr, by rw [ht, htr], hc⟩

theorem solveCholesky_Serial_poolClosed {V σ : Type} (E : Env V σ) (scatter : Bool)
    (fuel : Nat) (seconds : Nat → ℚ) (x b t : MatrixView) (M M1 : Machine V)
    (h : solveCholesky_Serial E scatter fuel seconds x b t M = Outcome.returned M1) :
    ∃ tr, M1.trace = M.trace ++ tr ∧ poolDiscipline none tr = some none := by
  have hS := solveTraversal_sat E (solveSetup E scatter seconds x b t M).1 poolClosed_refl
    poolClosed_trans poolClosed_trans (serialSolveLowerBody_poolClosed E _)
    (serialSolveUpperBody_poolClosed E _) fuel
    ⟨(solveSetup E scatter seconds x b t M).2.2, (solveSetup E scatter seconds x b t M).2.1,
      M.trace⟩
  unfold solveCholesky_Serial at h
  split at h
  · exact Outcome.noConfusion h
  · simp only [] at h
    obtain ⟨s1, hs1, ht⟩ := finishRun_returned _ _ (fun s1 => ⟨_, rfl, rfl⟩) _ M1 h
    rw [hs1] at hS
    obtain ⟨tr, htr, hc⟩ := hS
    exact ⟨tr, by rw [ht, htr], hc⟩

/-- C19: what `recursiveSerialChol`, `recursiveSerialSolveLower` and
`recursiveSerialSolveUpper` add to the record is in order for the pool,
whether they return or abort: no `allocate` is issued while a buffer is
outstanding, the only `deallocate` in order is that of the outstanding buffer
with its pointer and its byte size, and no buffer is outstanding at the end.
The same holds for what `factorizeCholesky_Serial` and `solveCholesky_Serial`
have added when they return. -/
theorem pool_one_buffer_outstanding {V σ : Type} (E : Env V σ) (info : SupernodeInfo)
    (fuel : Nat) (sid : Int) (final : Bool) (s : Run V σ) :
    Outcome.Sat PoolClosed PoolClosed s (recursiveSerialChol E info fuel sid s) ∧
    Outcome.Sat PoolClosed PoolClosed s (recursiveSerialSolveLower E info fuel sid final s) ∧
    Outcome.Sat PoolClosed PoolClosed s (recursiveSerialSolveUpper E info fuel sid final s) ∧
    (∀ (seconds : Nat → ℚ) (ax : ValueArray) (M M1 : Machine V),
      factorizeCholesky_Serial E fuel seconds ax M = Outcome.returned M1 →
        ∃ tr, M1.trace = M.trace ++ tr ∧ poolDiscipline none tr = some none) ∧
    (∀ (scatter : Bool) (seconds : Nat → ℚ) (x b t : MatrixView) (M M1 : Machine V),
      solveCholesky_Serial E scatter fuel seconds x b t M = Outcome.returned M1 →
        ∃ tr, M1.trace = M.trace ++ tr ∧ poolDiscipline none tr = some none) :=
  ⟨recursiveSerialChol_sat E info poolClosed_refl poolClosed_trans poolClosed_trans
      (serialCholBody_poolClosed E info) fuel sid s,
    recursiveSerialSolveLower_sat E info poolClosed_refl poolClosed_trans poolClosed_trans
      (serialSolveLowerBody_poolClosed E info) fuel sid final s,
    recursiveSerialSolveUpper_sat E info poolClosed_refl poolClosed_trans poolClosed_trans
      (serialSolveUpperBody_poolClosed E info) fuel sid final s,
    fun seconds ax M M1 h => factorizeCholesky_Serial_poolClosed E fuel seconds ax M M1 h,
    fun scatter seconds x b t M M1 h =>
      solveCholesky_Serial_poolClosed E scatter fuel seconds x b t M M1 h⟩

/-- The instance of C19: the factorization of the arrow matrix returns, and
the record it leaves is in order for the pool with no buffer outstanding. -/
theorem pool_one_buffer_outstanding_witness :
    factorizeCholesky_Serial exampleEnv 2 (fun _ => 0) ⟨2048, 7⟩ exampleMachine =
      Outcome.returned exampleFactorRun ∧
    exampleFactorRun.trace.length = 12 ∧
    ∃ tr, exampleFactorRun.trace = exampleMachine.trace ++ tr ∧
      poolDiscipline none tr = some none :=
  ⟨rfl, rfl,
    (pool_one_buffer_outstanding exampleEnv exampleTools._info 2 2 false
      ⟨(16, 0), fun _ _ _ => 0, []⟩).2.2.2.1 (fun _ => 0) ⟨2048, 7⟩ exampleMachine
      exampleFactorRun rfl⟩

/-! ## Sizing of the task scheduler -/

theorem maxChildrenLoop_spec (stree_ptr : SizeArray) (k : Nat) (sid acc : Int)
    (hmono : ∀ s : Int, sid ≤ s → s < sid + k → stree_ptr.val s ≤ stree_ptr.val (s + 1))
    (hrange : ∀ s : Int, sid ≤ s → s < sid + k → (stree_ptr.val (s + 1) : Int) < 2 ^ 64) :
    acc ≤ maxChildrenLoop stree_ptr k sid acc ∧
    (∀ s : Int, sid ≤ s → s < sid + k →
      (stree_ptr.val (s + 1) : Int) - stree_ptr.val s ≤ maxChildrenLoop stree_ptr k sid acc) ∧
    (maxChildrenLoop stree_ptr k sid acc = acc ∨
      ∃ s : Int, sid ≤ s ∧ s < sid + k ∧
        maxChildrenLoop stree_ptr k sid acc = (stree_ptr.val (s + 1) : Int) - stree_ptr.val s) := by
  induction k generalizing sid acc with
  | zero =>
    refine ⟨le_refl _, ?_, Or.inl rfl⟩
    intro s h1 h2
    simp at h2
    omega
  | succ k ih =>
    have hd : (size_t ((stree_ptr.val (sid + 1) : Int) - (stree_ptr.val sid : Int)) : Int) =
        (stree_ptr.val (sid + 1) : Int) - stree_ptr.val sid := by
      have h1 := hmono sid (le_refl _) (by push_cast; omega)
      have h2 := hrange sid (le_refl _) (by push_cast; omega)
      exact size_t_of_range _ (by omega) (by omega)
    obtain ⟨i1, i2, i3⟩ := ih (sid + 1)
      (max acc (size_t ((stree_ptr.val (sid + 1) : Int) - (stree_ptr.val sid : Int)) : Int))
      (fun s h1 h2 => hmono s (by omega) (by push_cast; omega))
      (fun s h1 h2 => hrange s (by omega) (by push_cast; omega))
    simp only [maxChildrenLoop]
    refine ⟨le_trans (le_max_left _ _) i1, ?_, ?_⟩
    · intro s h1 h2
      by_cases hs : s = sid
      · subst hs
        exact le_trans (le_of_eq hd.symm) (le_trans (le_max_right _ _) i1)
      · exact i2 s (by omega) (by push_cast at h2; omega)
    · rcases i3 with h | ⟨s, h1, h2, h3⟩
      · rw [h]
        rcases max_cases acc
          (size_t ((stree_ptr.val (sid + 1) : Int) - (stree_ptr.val sid : Int)) : Int)
          with ⟨hm, _⟩ | ⟨hm, _⟩
        · exact Or.inl hm
        · refine Or.inr ⟨sid, le_refl _, by push_cast; omega, ?_⟩
          rw [hm, hd]
      · exact Or.inr ⟨s, by omega, by push_cast; omega, h3⟩

/-- C15 as stated does not hold: for the diagonal matrix of order 100 there are
100 supernodes and the block column-index array has 200 entries; with a task
functor of 64 bytes the task queue capacity is `200 * 64`, not
`max(100, 128) * 64`. -/
theorem scheduler_capacity_not_from_nsupernodes :
    diagonalTools._nsupernodes = 100 ∧
    diagonalTools._blk_super_panel_colidx.dimension_0 = 200 ∧
    (schedulerSizes diagonalTools 16 64).task_queue_capacity = 200 * 64 ∧
    ((schedulerSizes diagonalTools 16 64).task_queue_capacity : Int) ≠
      max diagonalTools._nsupernodes 128 * 64 := by
  refine ⟨rfl, rfl, by decide, by decide⟩

/-- C15, amended: in `factorizeCholesky_Parallel`, when `_stree_ptr` is
non-decreasing on `[0, nsupernodes]` and nothing overflows, `max_children_size`
is the largest `stree_ptr(s+1) - stree_ptr(s)` over the supernodes `s` in
`[0, nsupernodes)` (`0` when there are none), the scheduler's `max_block_size`
is `max_children_size*sizeof(future) + sizeof(task functor)`, and the task
queue capacity is `max(_blk_super_panel_colidx.dimension_0(), 128) *
sizeof(task functor)`: it is sized from the extent of the block column-index
array, not from the number of supernodes. -/
theorem schedulerSizes_spec (self : NumericTools) (future_size functor_size : Nat)
    (hmono : ∀ s : Int, 0 ≤ s → s < self._nsupernodes →
      self._stree_ptr.val s ≤ self._stree_ptr.val (s + 1))
    (hrange : ∀ s : Int, 0 ≤ s → s < self._nsupernodes →
      (self._stree_ptr.val (s + 1) : Int) < 2 ^ 64)
    (hext : 0 ≤ self._blk_super_panel_colidx.dimension_0)
    (hext2 : self._blk_super_panel_colidx.dimension_0 < 2 ^ 64)
    (hov1 : max self._blk_super_panel_colidx.dimension_0 128 * functor_size < 2 ^ 64)
    (hov2 : (schedulerSizes self future_size functor_size).max_children_size * future_size +
      functor_size < 2 ^ 64) :
    (∀ s : Int, 0 ≤ s → s < self._nsupernodes →
      (self._stree_ptr.val (s + 1) : Int) - self._stree_ptr.val s ≤
        (schedulerSizes self future_size functor_size).max_children_size) ∧
    (self._nsupernodes ≤ 0 →
      (schedulerSizes self future_size functor_size).max_children_size = 0) ∧
    (0 < self._nsupernodes → ∃ s : Int, 0 ≤ s ∧ s < self._nsupernodes ∧
      (schedulerSizes self future_size functor_size).max_children_size =
        (self._stree_ptr.val (s + 1) : Int) - self._stree_ptr.val s) ∧
    ((schedulerSizes self future_size functor_size).max_block_size : Int) =
      (schedulerSizes self future_size functor_size).max_children_size * future_size +
        functor_size ∧
    ((schedulerSizes self future_size functor_size).task_queue_capacity : Int) =
      max self._blk_super_panel_colidx.dimension_0 128 * functor_size := by
  have hm : (schedulerSizes self future_size functor_size).max_children_size =
      maxChildrenLoop self._stree_ptr self._nsupernodes.toNat 0 0 := rfl
  obtain ⟨l1, l2, l3⟩ := maxChildrenLoop_spec self._stree_ptr self._nsupernodes.toNat 0 0
    (fun s h1 h2 => hmono s h1 (by omega)) (fun s h1 h2 => hrange s h1 (by omega))
  rw [← hm] at l1 l2 l3
  have hf : (0 : Int) ≤ (future_size : Int) := Int.natCast_nonneg _
  have hg : (0 : Int) ≤ (functor_size : Int) := Int.natCast_nonneg _
  refine ⟨fun s h1 h2 => l2 s h1 (by omega), ?_, ?_, ?_, ?_⟩
  · intro hn
    rw [hm, Int.toNat_eq_zero.mpr hn]
    rfl
  · intro hn
    rcases l3 with h | ⟨s, h1, h2, h3⟩
    · refine ⟨0, le_refl _, hn, ?_⟩
      have hb := l2 0 (le_refl _) (by omega)
      have hmo := hmono 0 (le_refl _) hn
      rw [h] at hb ⊢
      omega
    · exact ⟨s, h1, by omega, h3⟩
  · have hp : 0 ≤ (schedulerSizes self future_size functor_size).max_children_size *
        (future_size : Int) := mul_nonneg l1 hf
    have h1 : (size_t ((schedulerSizes self future_size functor_size).max_children_size *
        (future_size : Int)) : Int) =
        (schedulerSizes self future_size functor_size).max_children_size * future_size :=
      size_t_of_range _ hp (by omega)
    show (size_t (((size_t ((schedulerSizes self future_size functor_size).max_children_size *
      (future_size : Int)) + functor_size : Nat) : Int)) : Int) = _
    have h2 : (((size_t ((schedulerSizes self future_size functor_size).max_children_size *
        (future_size : Int)) + functor_size : Nat) : Int)) =
        (schedulerSizes self future_size functor_size).max_children_size * future_size +
          functor_size := by
      push_cast
      rw [h1]
    rw [h2]
    exact size_t_of_range _ (by omega) hov2
  · have h1 : (size_t self._blk_super_panel_colidx.dimension_0 : Int) =
        self._blk_super_panel_colidx.dimension_0 := size_t_of_range _ hext hext2
    show (size_t (((max (size_t self._blk_super_panel_colidx.dimension_0) 128 *
      functor_size : Nat) : Int)) : Int) = _
    have h2 : (((max (size_t self._blk_super_panel_colidx.dimension_0) 128 *
        functor_size : Nat) : Int)) =
        max self._blk_super_panel_colidx.dimension_0 128 * functor_size := by
      push_cast
      rw [h1]
    rw [h2]
    exact size_t_of_range _ (mul_nonneg (le_trans hext (le_max_left _ _)) hg) hov1

/-- The instance of the amended C15: the arrow matrix of order 3 with futures
of 16 bytes and a task functor of 64 bytes: the largest number of children is
2, `max_block_size` is `2 * 16 + 64` and the capacity is `128 * 64`. -/
theorem schedulerSizes_spec_witness :
    (schedulerSizes exampleTools 16 64).max_children_size = 2 ∧
    ((schedulerSizes exampleTools 16 64).max_block_size : Int) =
      (schedulerSizes exampleTools 16 64).max_children_size * (16 : Nat) + (64 : Nat) ∧
    ((schedulerSizes exampleTools 16 64).task_queue_capacity : Int) =
      max exampleTools._blk_super_panel_colidx.dimension_0 128 * (64 : Nat) :=
  ⟨by decide,
    (schedulerSizes_spec exampleTools 16 64
      (by
        intro s h1 h2
        have h3 : s < 3 := h2
        interval_cases s <;> decide)
      (by
        intro s h1 h2
        have h3 : s < 3 := h2
        interval_cases s <;> decide)
      (by decide) (by decide) (by decide) (by decide)).2.2.2⟩

/-! ## Every supernode once -/

theorem rank_bounded (rank : Int → Nat) (n : Nat) :
    ∃ B : Nat, ∀ s : Int, 0 ≤ s → s < n → rank s < B := by
  induction n with
  | zero =>
    refine ⟨0, fun s h1 h2 => ?_⟩
    simp at h2
    omega
  | succ n ih =>
    obtain ⟨B, hB⟩ := ih
    refine ⟨max B (rank n + 1), fun s h1 h2 => ?_⟩
    by_cases hs : s = (n : Int)
    · subst hs
      exact lt_of_lt_of_le (Nat.lt_succ_self _) (le_max_right _ _)
    · exact lt_of_lt_of_le (hB s h1 (by push_cast at h2; omega)) (le_max_left _ _)

theorem CoversSupernodes.reach {info : SupernodeInfo} {rank : Int → Nat}
    (hF : IsForest info rank) {roots : OrdinalArray} {nsupernodes : Int}
    (hC : CoversSupernodes info roots nsupernodes) (s : Int) (h0 : 0 ≤ s)
    (h1 : s < nsupernodes) :
    ∃ i : Int, 0 ≤ i ∧ i < roots.dimension_0 ∧
      Relation.ReflTransGen (IsChild info) (roots.val i) s := by
  obtain ⟨B, hB⟩ := rank_bounded rank nsupernodes.toNat
  have key : ∀ k : Nat, ∀ s : Int, 0 ≤ s → s < nsupernodes → B - rank s ≤ k →
      ∃ i : Int, 0 ≤ i ∧ i < roots.dimension_0 ∧
        Relation.ReflTransGen (IsChild info) (roots.val i) s := by
    intro k
    induction k with
    | zero =>
      intro s h0 h1 hk
      have := hB s h0 (by omega)
      omega
    | succ k ih =>
      intro s h0 h1 hk
      rcases hC s h0 h1 with ⟨i, hi0, hi1, hi⟩ | ⟨p, hp0, hp1, hp⟩
      · exact ⟨i, hi0, hi1, by rw [hi]⟩
      · have hr := hF.acyclic p s hp
        have hpB := hB p hp0 (by omega)
        obtain ⟨i, hi0, hi1, hi⟩ := ih p hp0 hp1 (by omega)
        exact ⟨i, hi0, hi1, Relation.ReflTransGen.tail hi hp⟩
  exact key (B - rank s) s h0 h1 (le_refl _)

theorem postRel_ne {info : SupernodeInfo} {k1 k2 : Kernel} (hk : k1 ≠ k2)
    (a b : Kernel × Int) (h : PostRel info k1 k2 a b) : a ≠ b := by
  intro hab
  subst hab
  have := h.2 rfl
  exact hk (this.1.symm.trans this.2)

theorem preRel_ne {info : SupernodeInfo} {k1 k2 : Kernel} (hk : k1 ≠ k2)
    (a b : Kernel × Int) (h : PreRel info k1 k2 a b) : a ≠ b := by
  intro hab
  subst hab
  have := h.2 rfl
  exact hk (this.1.symm.trans this.2)

theorem callCount_eq_zero {k : Kernel} {s : Int} {L : List (Kernel × Int)}
    (hm : (k, s) ∉ L) : callCount k s L = 0 := by
  unfold callCount
  rw [List.countP_eq_zero]
  intro a ha hp
  have : a = (k, s) := of_decide_eq_true hp
  exact hm (this ▸ ha)

theorem callCount_cons (k : Kernel) (s : Int) (a : Kernel × Int) (L : List (Kernel × Int)) :
    callCount k s (a :: L) = callCount k s L + if a = (k, s) then 1 else 0 := by
  unfold callCount
  rw [List.countP_cons]
  simp only [decide_eq_true_eq]

theorem callCount_eq_one {k : Kernel} {s : Int} {L : List (Kernel × Int)} (hnd : L.Nodup)
    (hm : (k, s) ∈ L) : callCount k s L = 1 := by
  induction L with
  | nil => exact absurd hm (List.not_mem_nil _)
  | cons a L ih =>
    obtain ⟨ha, hL⟩ := List.nodup_cons.mp hnd
    rw [callCount_cons]
    by_cases hak : a = (k, s)
    · rw [if_pos hak, callCount_eq_zero (hak ▸ ha)]
    · rw [if_neg hak]
      rcases List.mem_cons.mp hm with h | h
      · exact absurd h.symm hak
      · rw [ih hL h]

theorem callCount_append (k : Kernel) (s : Int) (L1 L2 : List (Kernel × Int)) :
    callCount k s (L1 ++ L2) = callCount k s L1 + callCount k s L2 := by
  unfold callCount
  exact List.countP_append _ _ _

theorem forest_postOrder_count {info : SupernodeInfo} {rank : Int → Nat}
    (hF : IsForest info rank) {roots : OrdinalArray} (hR : IsRootList info roots)
    {nsupernodes : Int} (hC : CoversSupernodes info roots nsupernodes)
    (k1 k2 : Kernel) (hk : k1 ≠ k2) (fuel : Nat)
    (hfuel : ∀ i : Int, 0 ≤ i → i < roots.dimension_0 → rank (roots.val i) < fuel)
    (s : Int) (h0 : 0 ≤ s) (h1 : s < nsupernodes) :
    callCount k1 s (loopList (fun i => postOrder info k1 k2 fuel (roots.val i))
        roots.dimension_0.toNat 0) = 1 ∧
    callCount k2 s (loopList (fun i => postOrder info k1 k2 fuel (roots.val i))
        roots.dimension_0.toNat 0) = 1 := by
  have hnd : (loopList (fun i => postOrder info k1 k2 fuel (roots.val i))
      roots.dimension_0.toNat 0).Nodup :=
    List.Pairwise.imp (fun {a b} h => postRel_ne hk a b h)
      (forest_postOrder_pairwise hF hR k1 k2 fuel)
  obtain ⟨i, hi0, hi1, hi⟩ := hC.reach hF s h0 h1
  have hm := postOrder_mem hF k1 k2 fuel (roots.val i) s (hfuel i hi0 hi1) hi
  have hi2 : i < 0 + (roots.dimension_0.toNat : Int) := by omega
  exact ⟨callCount_eq_one hnd ((mem_loopList _ _ _ _).mpr ⟨i, hi0, hi2, hm.1⟩),
    callCount_eq_one hnd ((mem_loopList _ _ _ _).mpr ⟨i, hi0, hi2, hm.2⟩)⟩

theorem forest_preOrder_count {info : SupernodeInfo} {rank : Int → Nat}
    (hF : IsForest info rank) {roots : OrdinalArray} (hR : IsRootList info roots)
    {nsupernodes : Int} (hC : CoversSupernodes info roots nsupernodes)
    (k1 k2 : Kernel) (hk : k1 ≠ k2) (fuel : Nat)
    (hfuel : ∀ i : Int, 0 ≤ i → i < roots.dimension_0 → rank (roots.val i) < fuel)
    (s : Int) (h0 : 0 ≤ s) (h1 : s < nsupernodes) :
    callCount k1 s (loopList (fun i => preOrder info k1 k2 fuel (roots.val i))
        roots.dimension_0.toNat 0) = 1 ∧
    callCount k2 s (loopList (fun i => preOrder info k1 k2 fuel (roots.val i))
        roots.dimension_0.toNat 0) = 1 := by
  have hnd : (loopList (fun i => preOrder info k1 k2 fuel (roots.val i))
      roots.dimension_0.toNat 0).Nodup :=
    List.Pairwise.imp (fun {a b} h => preRel_ne hk a b h)
      (forest_preOrder_pairwise hF hR k1 k2 fuel)
  obtain ⟨i, hi0, hi1, hi⟩ := hC.reach hF s h0 h1
  have hm := preOrder_mem hF k1 k2 fuel (roots.val i) s (hfuel i hi0 hi1) hi
  have hi2 : i < 0 + (roots.dimension_0.toNat : Int) := by omega
  exact ⟨callCount_eq_one hnd ((mem_loopList _ _ _ _).mpr ⟨i, hi0, hi2, hm.1⟩),
    callCount_eq_one hnd ((mem_loopList _ _ _ _).mpr ⟨i, hi0, hi2, hm.2⟩)⟩

theorem count_loopList_other {info : SupernodeInfo} (order : SupernodeInfo → Kernel → Kernel →
      Nat → Int → List (Kernel × Int))
    (hkind : ∀ k1 k2 fuel r e, e ∈ order info k1 k2 fuel r → e.1 = k1 ∨ e.1 = k2)
    (roots : OrdinalArray) (k1 k2 k : Kernel) (hk1 : k ≠ k1) (hk2 : k ≠ k2) (fuel : Nat)
    (s : Int) :
    callCount k s (loopList (fun i => order info k1 k2 fuel (roots.val i))
        roots.dimension_0.toNat 0) = 0 := by
  apply callCount_eq_zero
  intro hm
  obtain ⟨j, _, _, hj⟩ := (mem_loopList _ _ _ _).mp hm
  rcases hkind k1 k2 fuel _ _ hj with h | h
  · exact hk1 h
  · exact hk2 h

theorem serialCholBody_noabort {V σ : Type} (E : Env V σ) (hp : PoolNeverFails E)
    (info : SupernodeInfo) (sid : Int) (s : Run V σ) :
    Outcome.Sat (fun _ _ => True) (fun _ _ => False) s (serialCholBody E info sid s) := by
  unfold serialCholBody
  simp only [TACHO_TEST_FOR_ABORT, decide_eq_true_eq]
  split
  · rename_i h
    exact hp _ _ h
  · trivial

theorem serialSolveLowerBody_noabort {V σ : Type} (E : Env V σ) (hp : PoolNeverFails E)
    (info : SupernodeInfo) (sid : Int) (s : Run V σ) :
    Outcome.Sat (fun _ _ => True) (fun _ _ => False) s (serialSolveLowerBody E info sid s) := by
  unfold serialSolveLowerBody
  simp only [TACHO_TEST_FOR_ABORT, decide_eq_true_eq]
  split
  · rename_i h
    exact hp _ _ h
  · trivial

theorem serialSolveUpperBody_noabort {V σ : Type} (E : Env V σ) (hp : PoolNeverFails E)
    (info : SupernodeInfo) (sid : Int) (s : Run V σ) :
    Outcome.Sat (fun _ _ => True) (fun _ _ => False) s (serialSolveUpperBody E info sid s) := by
  unfold serialSolveUpperBody
  simp only [TACHO_TEST_FOR_ABORT, decide_eq_true_eq]
  split
  · rename_i h
    exact hp _ _ h
  · trivial

theorem finishRun_aborted {V σ : Type} (self : NumericTools)
    (after : Run V σ → Outcome (Machine V))
    (hafter : ∀ s1, ∃ M1, after s1 = Outcome.returned M1 ∧ M1.trace = s1.trace)
    (o : Outcome (Run V σ)) (M1 : Machine V)
    (h : finishRun self after o = Outcome.aborted M1) : ∃ s1, o = Outcome.aborted s1 := by
  cases o with
  | returned s1 =>
    obtain ⟨M2, hM2, _⟩ := hafter s1
    simp only [finishRun] at h
    rw [hM2] at h
    exact Outcome.noConfusion h
  | raised e s1 => exact Outcome.noConfusion h
  | aborted s1 => exact ⟨s1, rfl⟩
  | exhausted => exact Outcome.noConfusion h

theorem factorizeCholesky_Serial_not_aborted {V σ : Type} (E : Env V σ)
    (hp : PoolNeverFails E) (fuel : Nat) (seconds : Nat → ℚ) (ax : ValueArray)
    (M M1 : Machine V) : factorizeCholesky_Serial E fuel seconds ax M ≠ Outcome.aborted M1 := by
  intro h
  have hS : Outcome.Sat (fun _ _ => True) (fun _ _ => False)
      (⟨(factorizeSetup E seconds ax M).2.2, (factorizeSetup E seconds ax M).2.1, M.trace⟩ :
        Run V σ)
      (forLoop (fun i s => recursiveSerialChol E (factorizeSetup E seconds ax M).1._info fuel
        ((factorizeSetup E seconds ax M).1._stree_roots.val i) s)
        (factorizeSetup E seconds ax M).1._stree_roots.dimension_0.toNat 0
        ⟨(factorizeSetup E seconds ax M).2.2, (factorizeSetup E seconds ax M).2.1, M.trace⟩) :=
    sat_forLoop (fun _ => trivial) (fun _ _ _ _ _ => trivial) (fun _ _ _ _ h => h) _
      (fun j s1 => recursiveSerialChol_sat E _ (fun _ => trivial) (fun _ _ _ _ _ => trivial)
        (fun _ _ _ _ h => h) (serialCholBody_noabort E hp _) fuel _ s1) _ _ _
  obtain ⟨s1, hs1⟩ := finishRun_aborted _ _ (fun s1 => ⟨_, rfl, rfl⟩) _ M1 h
  rw [hs1] at hS
  exact hS

theorem solveCholesky_Serial_not_aborted {V σ : Type} (E : Env V σ)
    (hp : PoolNeverFails E) (scatter : Bool) (fuel : Nat) (seconds : Nat → ℚ)
    (x b t : MatrixView) (M M1 : Machine V) :
    solveCholesky_Serial E scatter fuel seconds x b t M ≠ Outcome.aborted M1 := by
  intro h
  have hS := solveTraversal_sat E (solveSetup E scatter seconds x b t M).1
    (P := fun _ _ => True) (A := fun _ _ => False) (fun _ => trivial)
    (fun _ _ _ _ _ => trivial) (fun _ _ _ _ h => h) (serialSolveLowerBody_noabort E hp _)
    (serialSolveUpperBody_noabort E hp _) fuel
    ⟨(solveSetup E scatter seconds x b t M).2.2, (solveSetup E scatter seconds x b t M).2.1,
      M.trace⟩
  unfold solveCholesky_Serial at h
  split at h
  · exact Outcome.noConfusion h
  · simp only [] at h
    obtain ⟨s1, hs1⟩ := finishRun_aborted _ _ (fun s1 => ⟨_, rfl, rfl⟩) _ M1 h
    rw [hs1] at hS
    exact hS

/-- C18: when the tree arrays describe a forest over `[0, nsupernodes)` (no
cycle, every entry of `stree_children` in one child range only, the roots
pairwise different and without a parent, every supernode of the range a root
or a child of a supernode of the range) and the recursion budget exceeds the
height of every root, `factorizeCholesky_Serial` ends: it returns or, after a
`NULL` from the pool, aborts, and it returns when the pool never answers
`NULL`; when it returns it has called `factorize` and `update` exactly once
for every supernode of the range.  Likewise `solveCholesky_Serial`, once its
preconditions hold, ends, and when it returns it has called each of
`solve_lower`, `update_solve_lower`, `update_solve_upper` and `solve_upper`
exactly once for every supernode of the range. -/
theorem traversals_visit_every_supernode_once {V σ : Type} (E : Env V σ) (M : Machine V)
    (rank : Int → Nat) (fuel : Nat)
    (hF : IsForest M.self._info rank) (hR : IsRootList M.self._info M.self._stree_roots)
    (hC : CoversSupernodes M.self._info M.self._stree_roots M.self._nsupernodes)
    (hfuel : ∀ i : Int, 0 ≤ i → i < M.self._stree_roots.dimension_0 →
      rank (M.self._stree_roots.val i) < fuel) :
    (∀ (seconds : Nat → ℚ) (ax : ValueArray),
      ∃ M1 tr, M1.trace = M.trace ++ tr ∧
        (factorizeCholesky_Serial E fuel seconds ax M = Outcome.returned M1 ∨
          factorizeCholesky_Serial E fuel seconds ax M = Outcome.aborted M1) ∧
        (PoolNeverFails E →
          factorizeCholesky_Serial E fuel seconds ax M = Outcome.returned M1) ∧
        (factorizeCholesky_Serial E fuel seconds ax M = Outcome.returned M1 →
          ∀ s : Int, 0 ≤ s → s < M.self._nsupernodes →
            callCount Kernel.factorize s (kernelCalls tr) = 1 ∧
            callCount Kernel.update s (kernelCalls tr) = 1)) ∧
    (∀ (scatter : Bool) (seconds : Nat → ℚ) (x b t : MatrixView),
      solvePreconditions M.self x b t = none →
      ∃ M1 tr, M1.trace = M.trace ++ tr ∧
        (solveCholesky_Serial E scatter fuel seconds x b t M = Outcome.returned M1 ∨
          solveCholesky_Serial E scatter fuel seconds x b t M = Outcome.aborted M1) ∧
        (PoolNeverFails E →
          solveCholesky_Serial E scatter fuel seconds x b t M = Outcome.returned M1) ∧
        (solveCholesky_Serial E scatter fuel seconds x b t M = Outcome.returned M1 →
          ∀ s : Int, 0 ≤ s → s < M.self._nsupernodes →
            callCount Kernel.solve_lower s (kernelCalls tr) = 1 ∧
            callCount Kernel.update_solve_lower s (kernelCalls tr) = 1 ∧
            callCount Kernel.update_solve_upper s (kernelCalls tr) = 1 ∧
            callCount Kernel.solve_upper s (kernelCalls tr) = 1)) := by
  constructor
  · intro seconds ax
    obtain ⟨M1, tr, htr, h⟩ := factorizeCholesky_Serial_link E M rank hF fuel hfuel seconds ax
    refine ⟨M1, tr, htr, ?_, ?_, ?_⟩
    · rcases h with ⟨h, _⟩ | ⟨h, _⟩
      · exact Or.inl h
      · exact Or.inr h
    · intro hp
      rcases h with ⟨h, _⟩ | ⟨h, _⟩
      · exact h
      · exact absurd h (factorizeCholesky_Serial_not_aborted E hp fuel seconds ax M M1)
    · intro hret s h0 h1
      rcases h with ⟨_, hk⟩ | ⟨h, _⟩
      · rw [hk]
        exact forest_postOrder_count hF hR hC Kernel.factorize Kernel.update (by decide) fuel
          hfuel s h0 h1
      · rw [hret] at h
        exact Outcome.noConfusion h
  · intro scatter seconds x b t hpre
    obtain ⟨M1, tr, htr, h⟩ :=
      solveCholesky_Serial_link E scatter M rank hF fuel hfuel seconds x b t hpre
    refine ⟨M1, tr, htr, ?_, ?_, ?_⟩
    · rcases h with ⟨h, _⟩ | ⟨h, _⟩
      · exact Or.inl h
      · exact Or.inr h
    · intro hp
      rcases h with ⟨h, _⟩ | ⟨h, _⟩
      · exact h
      · exact absurd h
          (solveCholesky_Serial_not_aborted E hp scatter fuel seconds x b t M M1)
    · intro hret s h0 h1
      rcases h with ⟨_, hk⟩ | ⟨h, _⟩
      · have hlow := forest_postOrder_count hF hR hC Kernel.solve_lower
          Kernel.update_solve_lower (by decide) fuel hfuel s h0 h1
        have hup := forest_preOrder_count hF hR hC Kernel.update_solve_upper
          Kernel.solve_upper (by decide) fuel hfuel s h0 h1
        rw [hk]
        simp only [callCount_append]
        rw [hlow.1, hlow.2, hup.1, hup.2,
          count_loopList_other preOrder (preOrder_kind M.self._info) M.self._stree_roots
            Kernel.update_solve_upper Kernel.solve_upper Kernel.solve_lower (by decide)
            (by decide) fuel s,
          count_loopList_other preOrder (preOrder_kind M.self._info) M.self._stree_roots
            Kernel.update_solve_upper Kernel.solve_upper Kernel.update_solve_lower (by decide)
            (by decide) fuel s,
          count_loopList_other postOrder (postOrder_kind M.self._info) M.self._stree_roots
            Kernel.solve_lower Kernel.update_solve_lower Kernel.update_solve_upper (by decide)
            (by decide) fuel s,
          count_loopList_other postOrder (postOrder_kind M.self._info) M.self._stree_roots
            Kernel.solve_lower Kernel.update_solve_lower Kernel.solve_upper (by decide)
            (by decide) fuel s]
        exact ⟨rfl, rfl, rfl, rfl⟩
      · rw [hret] at h
        exact Outcome.noConfusion h

theorem example_covers :
    CoversSupernodes exampleTools._info exampleTools._stree_roots exampleTools._nsupernodes := by
  intro s h0 h1
  have h3 : s < 3 := h1
  interval_cases s
  · exact Or.inr ⟨2, by decide, by decide, 0, by decide, by decide, by decide⟩
  · exact Or.inr ⟨2, by decide, by decide, 1, by decide, by decide, by decide⟩
  · exact Or.inl ⟨0, by decide, by decide, by decide⟩

/-- The instance of C18: the factorization of the arrow matrix ends, and when
it returns `factorize` and `update` are called once for each of the three
supernodes. -/
theorem traversals_visit_every_supernode_once_witness :
    ∃ M1 tr, M1.trace = exampleMachine.trace ++ tr ∧
      (factorizeCholesky_Serial exampleEnv 2 (fun _ => 0) ⟨2048, 7⟩ exampleMachine =
          Outcome.returned M1 ∨
        factorizeCholesky_Serial exampleEnv 2 (fun _ => 0) ⟨2048, 7⟩ exampleMachine =
          Outcome.aborted M1) ∧
      (PoolNeverFails exampleEnv →
        factorizeCholesky_Serial exampleEnv 2 (fun _ => 0) ⟨2048, 7⟩ exampleMachine =
          Outcome.returned M1) ∧
      (factorizeCholesky_Serial exampleEnv 2 (fun _ => 0) ⟨2048, 7⟩ exampleMachine =
          Outcome.returned M1 →
        ∀ s : Int, 0 ≤ s → s < exampleMachine.self._nsupernodes →
          callCount Kernel.factorize s (kernelCalls tr) = 1 ∧
          callCount Kernel.update s (kernelCalls tr) = 1) :=
  (traversals_visit_every_supernode_once exampleEnv exampleMachine exampleRank 2
    example_isForest example_isRootList example_covers example_fuel).1 (fun _ => 0) ⟨2048, 7⟩

/-! ## The residual -/

theorem sum_range_shift {V : Type} [Field V] (g : Int → V) (k : Nat) (i : Int) :
    ∑ t in Finset.range (k + 1), g (i + t) =
      g i + ∑ t in Finset.range k, g (i + 1 + t) := by
  rw [Finset.sum_range_succ', add_comm]
  congr 1
  · simp
  · apply Finset.sum_congr rfl
    intro t _
    congr 1
    push_cast
    ring

theorem foldRange_add {V : Type} [Field V] (g : Int → V) (k : Nat) (i : Int) (s0 : V) :
    foldRange (fun j s => s + g j) k i s0 = s0 + ∑ t in Finset.range k, g (i + t) := by
  induction k generalizing i s0 with
  | zero => simp [foldRange]
  | succ k ih => rw [foldRange, ih, sum_range_shift, add_assoc]

theorem foldRange_pair {V : Type} [Field V] (f g : Int → V) (k : Nat) (i : Int) (st : V × V) :
    foldRange (fun j st1 => (st1.1 + f j, st1.2 + g j)) k i st =
      (st.1 + ∑ t in Finset.range k, f (i + t), st.2 + ∑ t in Finset.range k, g (i + t)) := by
  induction k generalizing i st with
  | zero => simp [foldRange]
  | succ k ih => rw [foldRange, ih, sum_range_shift, sum_range_shift, add_assoc, add_assoc]

theorem computeResidual_ok {V : Type} [Field V] (sqrt : V → V) (mem : Memory V)
    (A : CrsMatrix V) (x b : MatrixView)
    (hdim : ¬ (A.NumRows ≠ A.NumCols ∨ A.NumRows ≠ b.dimension_0 ∨
      x.dimension_0 ≠ b.dimension_0 ∨ x.dimension_1 ≠ b.dimension_1)) :
    computeResidual sqrt mem A x b =
      Except.ok (sqrt
        ((∑ p in Finset.range b.dimension_1.toNat, ∑ i in Finset.range A.NumRows.toNat,
          (mem b.data i p -
            ∑ t in Finset.range (A.ap ((i : Int) + 1) - A.ap i),
              A.ax ((A.ap i : Int) + t) * mem x.data (A.aj ((A.ap i : Int) + t)) p) *
          (mem b.data i p -
            ∑ t in Finset.range (A.ap ((i : Int) + 1) - A.ap i),
              A.ax ((A.ap i : Int) + t) * mem x.data (A.aj ((A.ap i : Int) + t)) p)) /
        (∑ p in Finset.range b.dimension_1.toNat, ∑ i in Finset.range A.NumRows.toNat,
          mem b.data i p * mem b.data i p))) := by
  have hcnt : ∀ i : Int, ((A.ap (i + 1) : Int) - (A.ap i : Int)).toNat = A.ap (i + 1) - A.ap i := by
    intro i
    omega
  unfold computeResidual TACHO_TEST_FOR_EXCEPTION
  rw [if_neg hdim]
  simp only [CrsMatrix.RowPtrBegin, CrsMatrix.RowPtrEnd, CrsMatrix.Col, CrsMatrix.Value,
    foldRange_add, foldRange_pair, zero_add, hcnt]

theorem specProduct_eq {V : Type} [Field V] (mem : Memory V) (A : CrsMatrix V) (x : MatrixView)
    (m : Nat) (i p : Int)
    (hcol : ∀ t : Nat, t < A.ap (i + 1) - A.ap i →
      0 ≤ A.aj ((A.ap i : Int) + t) ∧ A.aj ((A.ap i : Int) + t) < m) :
    specProduct mem A x m i p =
      ∑ t in Finset.range (A.ap (i + 1) - A.ap i),
        A.ax ((A.ap i : Int) + t) * mem x.data (A.aj ((A.ap i : Int) + t)) p := by
  unfold specProduct specEntry
  simp only [Finset.sum_mul]
  rw [Finset.sum_comm]
  apply Finset.sum_congr rfl
  intro t ht
  obtain ⟨h0, h1⟩ := hcol t (Finset.mem_range.mp ht)
  have hc : ((A.aj ((A.ap i : Int) + t)).toNat : Int) = A.aj ((A.ap i : Int) + t) :=
    Int.toNat_of_nonneg h0
  rw [Finset.sum_eq_single (A.aj ((A.ap i : Int) + t)).toNat]
  · rw [hc, if_pos rfl]
  · intro c _ hne
    have : A.aj ((A.ap i : Int) + t) ≠ (c : Int) := by
      intro h
      apply hne
      rw [h]
      exact (Int.toNat_natCast c).symm
    rw [if_neg this, zero_mul]
  · intro hnot
    exfalso
    apply hnot
    rw [Finset.mem_range]
    omega

theorem computeResidual_error_iff {V : Type} [Field V] (sqrt : V → V) (mem : Memory V)
    (A : CrsMatrix V) (x b : MatrixView) :
    computeResidual sqrt mem A x b = Except.error LogicError.dimensions_not_compatible ↔
      (A.NumRows ≠ A.NumCols ∨ A.NumRows ≠ b.dimension_0 ∨
        x.dimension_0 ≠ b.dimension_0 ∨ x.dimension_1 ≠ b.dimension_1) := by
  by_cases hdim : A.NumRows ≠ A.NumCols ∨ A.NumRows ≠ b.dimension_0 ∨
      x.dimension_0 ≠ b.dimension_0 ∨ x.dimension_1 ≠ b.dimension_1
  · refine ⟨fun _ => hdim, fun _ => ?_⟩
    unfold computeResidual TACHO_TEST_FOR_EXCEPTION
    rw [if_pos hdim]
  · rw [computeResidual_ok sqrt mem A x b hdim]
    exact ⟨fun h => Except.noConfusion h, fun h => absurd h hdim⟩

theorem computeResidual_eq_spec {V : Type} [Field V] (sqrt : V → V) (mem : Memory V)
    (A : CrsMatrix V) (x b : MatrixView)
    (hdim : ¬ (A.NumRows ≠ A.NumCols ∨ A.NumRows ≠ b.dimension_0 ∨
      x.dimension_0 ≠ b.dimension_0 ∨ x.dimension_1 ≠ b.dimension_1))
    (hcol : ∀ i : Nat, i < A.NumRows.toNat → ∀ t : Nat, t < A.ap ((i : Int) + 1) - A.ap i →
      0 ≤ A.aj ((A.ap i : Int) + t) ∧ A.aj ((A.ap i : Int) + t) < A.NumRows) :
    computeResidual sqrt mem A x b =
      Except.ok (sqrt (specDiff mem A x b A.NumRows.toNat b.dimension_1.toNat /
        specNorm mem b A.NumRows.toNat b.dimension_1.toNat)) := by
  rw [computeResidual_ok sqrt mem A x b hdim]
  unfold specDiff specNorm
  congr 3
  · apply Finset.sum_congr rfl
    intro p _
    apply Finset.sum_congr rfl
    intro i hi
    rw [specProduct_eq mem A x A.NumRows.toNat i p (fun t ht => by
      have := hcol i (Finset.mem_range.mp hi) t ht
      omega), sq]
  · apply Finset.sum_congr rfl
    intro p _
    apply Finset.sum_congr rfl
    intro i _
    rw [sq]

theorem specNorm_pos (mem : Memory ℝ) (b : MatrixView) (m k : Nat)
    (hb : ∃ i : Nat, i < m ∧ ∃ p : Nat, p < k ∧ mem b.data i p ≠ 0) :
    0 < specNorm mem b m k := by
  obtain ⟨i, hi, p, hp, hne⟩ := hb
  unfold specNorm
  apply Finset.sum_pos'
  · intro p1 _
    exact Finset.sum_nonneg (fun i1 _ => sq_nonneg _)
  · refine ⟨p, Finset.mem_range.mpr hp, ?_⟩
    apply Finset.sum_pos'
    · intro i1 _
      exact sq_nonneg _
    · exact ⟨i, Finset.mem_range.mpr hi, by positivity⟩

theorem specDiff_eq_zero_iff (mem : Memory ℝ) (A : CrsMatrix ℝ) (x b : MatrixView) (m k : Nat) :
    specDiff mem A x b m k = 0 ↔
      ∀ i : Nat, i < m → ∀ p : Nat, p < k → specProduct mem A x m i p = mem b.data i p := by
  unfold specDiff
  rw [Finset.sum_eq_zero_iff_of_nonneg
    (fun p _ => Finset.sum_nonneg (fun i _ => sq_nonneg _))]
  constructor
  · intro h i hi p hp
    have h1 := h p (Finset.mem_range.mpr hp)
    rw [Finset.sum_eq_zero_iff_of_nonneg (fun i _ => sq_nonneg _)] at h1
    have h2 := h1 i (Finset.mem_range.mpr hi)
    have h3 := pow_eq_zero_iff (two_ne_zero) |>.mp h2
    linarith
  · intro h p hp
    rw [Finset.sum_eq_zero_iff_of_nonneg (fun i _ => sq_nonneg _)]
    intro i hi
    rw [h i (Finset.mem_range.mp hi) p (Finset.mem_range.mp hp)]
    simp

theorem specDiff_nonneg (mem : Memory ℝ) (A : CrsMatrix ℝ) (x b : MatrixView) (m k : Nat) :
    0 ≤ specDiff mem A x b m k :=
  Finset.sum_nonneg (fun _ _ => Finset.sum_nonneg (fun _ _ => sq_nonneg _))

/-- C14: over the reals, `computeResidual(A, x, b)` throws `std::logic_error`
("A,x and b dimensions are not compatible") exactly when `A` is not square or
the dimensions of `A`, `x` and `b` do not agree; otherwise, for an `m`-by-`m`
compressed-row `A` whose stored columns lie in `[0, m)` and `m`-by-`k`
matrices `x` and `b` with `b` not identically zero, it returns
`sqrt(sum_{p,i} (b(i,p) - sum_j A(i,j) x(j,p))^2 / sum_{p,i} b(i,p)^2)`, the
denominator is positive, and the result is `0` exactly when `A x = b`. -/
theorem computeResidual_spec (mem : Memory ℝ) (A : CrsMatrix ℝ) (x b : MatrixView) :
    (computeResidual Real.sqrt mem A x b =
        Except.error LogicError.dimensions_not_compatible ↔
      (A.NumRows ≠ A.NumCols ∨ A.NumRows ≠ b.dimension_0 ∨
        x.dimension_0 ≠ b.dimension_0 ∨ x.dimension_1 ≠ b.dimension_1)) ∧
    (¬ (A.NumRows ≠ A.NumCols ∨ A.NumRows ≠ b.dimension_0 ∨
        x.dimension_0 ≠ b.dimension_0 ∨ x.dimension_1 ≠ b.dimension_1) →
      (∀ i : Nat, i < A.NumRows.toNat → ∀ t : Nat, t < A.ap ((i : Int) + 1) - A.ap i →
        0 ≤ A.aj ((A.ap i : Int) + t) ∧ A.aj ((A.ap i : Int) + t) < A.NumRows) →
      (∃ i : Nat, i < A.NumRows.toNat ∧ ∃ p : Nat, p < b.dimension_1.toNat ∧
        mem b.data i p ≠ 0) →
      computeResidual Real.sqrt mem A x b =
        Except.ok (Real.sqrt (specDiff mem A x b A.NumRows.toNat b.dimension_1.toNat /
          specNorm mem b A.NumRows.toNat b.dimension_1.toNat)) ∧
      0 < specNorm mem b A.NumRows.toNat b.dimension_1.toNat ∧
      (Real.sqrt (specDiff mem A x b A.NumRows.toNat b.dimension_1.toNat /
          specNorm mem b A.NumRows.toNat b.dimension_1.toNat) = 0 ↔
        ∀ i : Nat, i < A.NumRows.toNat → ∀ p : Nat, p < b.dimension_1.toNat →
          specProduct mem A x A.NumRows.toNat i p = mem b.data i p)) := by
  refine ⟨computeResidual_error_iff Real.sqrt mem A x b, fun hdim hcol hb => ?_⟩
  have hN := specNorm_pos mem b A.NumRows.toNat b.dimension_1.toNat hb
  have hD := specDiff_nonneg mem A x b A.NumRows.toNat b.dimension_1.toNat
  refine ⟨computeResidual_eq_spec Real.sqrt mem A x b hdim hcol, hN, ?_⟩
  rw [Real.sqrt_eq_zero (div_nonneg hD (le_of_lt hN)), div_eq_zero_iff,
    specDiff_eq_zero_iff]
  constructor
  · rintro (h | h)
    · exact h
    · exact absurd h (ne_of_gt hN)
  · exact fun h => Or.inl h

/-- The instance of C14: the identity of order 2 with `x = b = (1, 1)`: the
residual is `0`. -/
theorem computeResidual_spec_witness :
    computeResidual Real.sqrt (fun _ _ _ => 1) (identityCrs ℝ) ⟨100, 2, 1⟩ ⟨200, 2, 1⟩ =
      Except.ok (Real.sqrt
        (specDiff (fun _ _ _ => 1) (identityCrs ℝ) ⟨100, 2, 1⟩ ⟨200, 2, 1⟩ 2 1 /
          specNorm (fun _ _ _ => 1) ⟨200, 2, 1⟩ 2 1)) ∧
    0 < specNorm (fun _ _ _ => (1 : ℝ)) ⟨200, 2, 1⟩ 2 1 ∧
    (Real.sqrt
        (specDiff (fun _ _ _ => 1) (identityCrs ℝ) ⟨100, 2, 1⟩ ⟨200, 2, 1⟩ 2 1 /
          specNorm (fun _ _ _ => 1) ⟨200, 2, 1⟩ 2 1) = 0 ↔
      ∀ i : Nat, i < 2 → ∀ p : Nat, p < 1 →
        specProduct (fun _ _ _ => (1 : ℝ)) (identityCrs ℝ) ⟨100, 2, 1⟩ 2 i p = 1) :=
  (computeResidual_spec (fun _ _ _ => 1) (identityCrs ℝ) ⟨100, 2, 1⟩ ⟨200, 2, 1⟩).2
    (by decide)
    (by
      intro i hi t ht
      have hi2 : i < 2 := hi
      simp only [identityCrs] at ht ⊢
      omega)
    ⟨0, by decide, 0, by decide, one_ne_zero⟩

/-! ## Memory tracking in double arithmetic -/

theorem statAfterDouble_concat (fl : ℚ → ℚ) (stat0 : Stat) (l : List StatOp) (op : StatOp) :
    statAfterDouble fl stat0 (l ++ [op]) =
      StatOp.applyDouble fl (statAfterDouble fl stat0 l) op := by
  simp [statAfterDouble, List.foldl_append]

theorem sum_tracked_integer (ops : List StatOp)
    (hint : ∀ op ∈ ops, ∃ n : Nat, op.amount = n) :
    ∃ z : Int, sumAllocated ops - sumFreed ops = z := by
  induction ops with
  | nil => exact ⟨0, by simp [sumAllocated, sumFreed]⟩
  | cons op l ih =>
    obtain ⟨z, hz⟩ := ih (fun o ho => hint o (List.mem_cons_of_mem _ ho))
    obtain ⟨n, hn⟩ := hint op (List.mem_cons_self _ _)
    cases op with
    | alloc a =>
      refine ⟨n + z, ?_⟩
      have ha : a = n := hn
      simp only [sumAllocated, sumFreed]
      push_cast
      rw [← hz, ha]
      ring
    | free f =>
      refine ⟨z - n, ?_⟩
      have hf : f = n := hn
      simp only [sumAllocated, sumFreed]
      push_cast
      rw [← hz, hf]
      ring

theorem statAfterDouble_eq (fl : ℚ → ℚ) (hfl : ExactOnIntegers fl) (stat0 : Stat)
    (ops : List StatOp) (hint : ∀ op ∈ ops, ∃ n : Nat, op.amount = n)
    (hbound : ∀ p q, ops = p ++ q → |sumAllocated p - sumFreed p| ≤ 2 ^ 53) :
    statAfterDouble fl stat0 ops = statAfter stat0 ops := by
  induction ops using List.reverseRecOn with
  | nil => rfl
  | append_singleton l op ih =>
    have hl := ih (fun o ho => hint o (List.mem_append_left _ ho))
      (fun p q h => hbound p (q ++ [op]) (by rw [h, List.append_assoc]))
    obtain ⟨z, hz⟩ := sum_tracked_integer (l ++ [op]) hint
    have hb := hbound (l ++ [op]) [] (by simp)
    have hu := statAfter_used stat0 (l ++ [op])
    rw [statAfter_concat] at hu
    rw [statAfterDouble_concat, statAfter_concat, hl]
    rw [hz] at hb
    cases op with
    | alloc a =>
      have hfix : fl ((statAfter stat0 l).m_used + a) = (statAfter stat0 l).m_used + a := by
        have h1 : (statAfter stat0 l).m_used + a = z := by
          rw [← hz, ← hu]
          rfl
        rw [h1]
        exact hfl z hb
      simp only [StatOp.applyDouble, StatOp.apply, track_alloc_double, track_alloc, hfix]
    | free f =>
      have hfix : fl ((statAfter stat0 l).m_used - f) = (statAfter stat0 l).m_used - f := by
        have h1 : (statAfter stat0 l).m_used - f = z := by
          rw [← hz, ← hu]
          rfl
        rw [h1]
        exact hfl z hb
      simp only [StatOp.applyDouble, StatOp.apply, track_free_double, track_free, hfix]

theorem roundToInteger_exact : ExactOnIntegers roundToInteger := by
  intro z _
  unfold roundToInteger
  rw [round_intCast]

theorem tracked_bound_of_total (ops : List StatOp)
    (hint : ∀ op ∈ ops, ∃ n : Nat, op.amount = n)
    (htotal : sumAllocated ops + sumFreed ops ≤ 2 ^ 53) :
    ∀ p q, ops = p ++ q → |sumAllocated p - sumFreed p| ≤ 2 ^ 53 := by
  have hnn : ∀ l : List StatOp, (∀ op ∈ l, ∃ n : Nat, op.amount = n) →
      0 ≤ sumAllocated l ∧ 0 ≤ sumFreed l := by
    intro l
    induction l with
    | nil => intro _; simp [sumAllocated, sumFreed]
    | cons op l ih =>
      intro h
      obtain ⟨h1, h2⟩ := ih (fun o ho => h o (List.mem_cons_of_mem _ ho))
      obtain ⟨n, hn⟩ := h op (List.mem_cons_self _ _)
      have hn0 : (0 : ℚ) ≤ n := Nat.cast_nonneg n
      cases op with
      | alloc a =>
        have ha : a = n := hn
        simp only [sumAllocated, sumFreed]
        exact ⟨by rw [ha]; linarith, h2⟩
      | free f =>
        have hf : f = n := hn
        simp only [sumAllocated, sumFreed]
        exact ⟨h1, by rw [hf]; linarith⟩
  intro p q h
  rw [h, sumAllocated_append, sumFreed_append] at htotal
  obtain ⟨p1, p2⟩ := hnn p (fun o ho => hint o (by rw [h]; exact List.mem_append_left _ ho))
  obtain ⟨q1, q2⟩ := hnn q (fun o ho => hint o (by rw [h]; exact List.mem_append_right _ ho))
  rw [abs_le]
  constructor <;> linarith

/-- C13: in double arithmetic, whatever the rounding as long as it leaves the
integers of magnitude at most `2^53` as they are: after `reset_stat` and any
sequence `ops` of `track_alloc` and `track_free` calls whose amounts are
non-negative integers and whose running totals (allocated minus freed, after
every initial part) stay within `2^53` in magnitude, no addition rounds, and
`m_used` is the sum allocated minus the sum freed, `m_peak` is the largest
value `m_used` has had after any initial part of the sequence (the empty part,
with `m_used = 0`, included: it bounds them all and is one of them),
`m_peak >= m_used`, and `m_peak` after an initial part is never above `m_peak`
after the whole sequence. -/
theorem track_stat_invariants (fl : ℚ → ℚ) (hfl : ExactOnIntegers fl) (stat0 : Stat)
    (ops : List StatOp) (hint : ∀ op ∈ ops, ∃ n : Nat, op.amount = n)
    (hbound : ∀ p q, ops = p ++ q → |sumAllocated p - sumFreed p| ≤ 2 ^ 53) :
    (statAfterDouble fl stat0 []).m_used = 0 ∧ (statAfterDouble fl stat0 []).m_peak = 0 ∧
    (statAfterDouble fl stat0 ops).m_used = sumAllocated ops - sumFreed ops ∧
    (∀ p q, ops = p ++ q →
      (statAfterDouble fl stat0 p).m_used ≤ (statAfterDouble fl stat0 ops).m_peak) ∧
    (∃ p q, ops = p ++ q ∧
      (statAfterDouble fl stat0 p).m_used = (statAfterDouble fl stat0 ops).m_peak) ∧
    (statAfterDouble fl stat0 ops).m_used ≤ (statAfterDouble fl stat0 ops).m_peak ∧
    (∀ p q, ops = p ++ q →
      (statAfterDouble fl stat0 p).m_peak ≤ (statAfterDouble fl stat0 ops).m_peak) := by
  have hpos : ∀ op ∈ ops, 0 ≤ op.amount := by
    intro op hop
    obtain ⟨n, hn⟩ := hint op hop
    rw [hn]
    exact Nat.cast_nonneg n
  have heq : ∀ p q, ops = p ++ q → statAfterDouble fl stat0 p = statAfter stat0 p := by
    intro p q h
    exact statAfterDouble_eq fl hfl stat0 p
      (fun o ho => hint o (by rw [h]; exact List.mem_append_left _ ho))
      (fun p1 q1 h1 => hbound p1 (q1 ++ q) (by rw [h, h1, List.append_assoc]))
  have hall := heq ops [] (by simp)
  obtain ⟨h1, ⟨p0, q0, hpq, hatt⟩, h3⟩ := statAfter_peak stat0 ops hpos
  refine ⟨rfl, rfl, ?_, ?_, ?_, ?_, ?_⟩
  · rw [hall]
    exact statAfter_used stat0 ops
  · intro p q h
    rw [hall, heq p q h]
    exact h1 p q h
  · exact ⟨p0, q0, hpq, by rw [hall, heq p0 q0 hpq]; exact hatt⟩
  · rw [hall]
    exact h1 ops [] (by simp)
  · intro p q h
    rw [hall, heq p q h]
    exact h3 p q h

theorem example_amounts (op : StatOp)
    (hop : op ∈ [StatOp.alloc 5, StatOp.free 2, StatOp.alloc 1]) :
    ∃ n : Nat, op.amount = n := by
  simp only [List.mem_cons, List.mem_singleton, List.not_mem_nil, or_false] at hop
  rcases hop with h | h | h <;> subst h
  · exact ⟨5, by norm_num [StatOp.amount]⟩
  · exact ⟨2, by norm_num [StatOp.amount]⟩
  · exact ⟨1, by norm_num [StatOp.amount]⟩

/-- The instance of C13: with rounding to the nearest integer, allocate 5,
free 2, allocate 1 leaves `m_used = 5 - 2 + 1` and `m_peak >= m_used`. -/
theorem track_stat_invariants_witness :
    (statAfterDouble roundToInteger ⟨7, 7, 7, 7, 7, 7⟩
        [StatOp.alloc 5, StatOp.free 2, StatOp.alloc 1]).m_used =
      sumAllocated [StatOp.alloc 5, StatOp.free 2, StatOp.alloc 1] -
        sumFreed [StatOp.alloc 5, StatOp.free 2, StatOp.alloc 1] ∧
    sumAllocated [StatOp.alloc 5, StatOp.free 2, StatOp.alloc 1] -
        sumFreed [StatOp.alloc 5, StatOp.free 2, StatOp.alloc 1] = 4 ∧
    (statAfterDouble roundToInteger ⟨7, 7, 7, 7, 7, 7⟩
        [StatOp.alloc 5, StatOp.free 2, StatOp.alloc 1]).m_used ≤
      (statAfterDouble roundToInteger ⟨7, 7, 7, 7, 7, 7⟩
        [StatOp.alloc 5, StatOp.free 2, StatOp.alloc 1]).m_peak :=
  ⟨(track_stat_invariants roundToInteger roundToInteger_exact ⟨7, 7, 7, 7, 7, 7⟩
      [StatOp.alloc 5, StatOp.free 2, StatOp.alloc 1] example_amounts
      (tracked_bound_of_total _ example_amounts
        (by norm_num [sumAllocated, sumFreed]))).2.2.1,
    by norm_num [sumAllocated, sumFreed],
    (track_stat_invariants roundToInteger roundToInteger_exact ⟨7, 7, 7, 7, 7, 7⟩
      [StatOp.alloc 5, StatOp.free 2, StatOp.alloc 1] example_amounts
      (tracked_bound_of_total _ example_amounts
        (by norm_num [sumAllocated, sumFreed]))).2.2.2.2.2.1⟩

end Tacho
